import Mathlib

/-!
GraphQL to SQL translation core: embedding and verified properties.

Shallow embedding of `rql.go` (the SQL builder `SelectDefinition`) and of the
argument / projection extraction of `graphql.go`.

Conventions of the embedding

* Go `string` is `String`; `len(s) == 0` is `s.length = 0`.
* `fmt.Sprintf` with the verbs `%s`, `%v`, `%d` is string concatenation of the
  rendered operands (`fmtValue`, `fmtD`).
* A Go `map[string]interface{}` is an association list `GoMap`; ranging over
  the map visits the entries in list order (Go leaves the order unspecified, the
  embedding fixes one), and `m[k] = v` is `GoMap.set`.
* A method with a pointer receiver takes the receiver state and returns the
  new state.
* A run-time panic (nil dereference, index out of range, failed type
  assertion) is the result `none`.
* A function of the library `graphql-go` the program calls (the parser,
  `graphql.NewSchema`, the validation of `graphql.Do`) is an argument of the
  function that calls it.
-/

namespace GraphqlMysql

/-! ## Go text helpers (`strings`, `fmt`) -/

/-- Go `strings.HasPrefix(s, pre)`. -/
def HasPrefix (s pre : String) : Bool :=
  pre.data.isPrefixOf s.data

/-- Go `strings.TrimSuffix(s, suffix)`: `s` without the trailing `suffix`, or `s`
itself when it does not end with `suffix`. -/
def TrimSuffix (s suffix : String) : String :=
  if suffix.data.isSuffixOf s.data then
    ⟨s.data.take (s.data.length - suffix.data.length)⟩
  else s

/-- Go `strings.TrimRight(s, cutset)`: `s` without its trailing characters that
belong to `cutset`. -/
def TrimRight (s cutset : String) : String :=
  ⟨s.data.rdropWhile (fun c => cutset.data.contains c)⟩

/-- Rendering of a Go integer by the verb `%d` (and by `%v`): the decimal
numeral, with a leading `-` for negative numbers. -/
def fmtD (i : Int) : String :=
  toString i

/-- Rendering of a Go `bool` by the verb `%v`. -/
def fmtBool (b : Bool) : String :=
  if b then "true" else "false"

/-- Strings joined with a separator, as `strings.Join` does. -/
def joinWith (sep : String) : List String → String
  | [] => ""
  | [x] => x
  | x :: y :: rest => x ++ sep ++ joinWith sep (y :: rest)

/-! ## Dynamic values (`interface{}`) -/

/-- The dynamic values that flow through `map[string]interface{}` in this
program: what `scalarArg`, `objectValueArg` and `listValueArg` produce
(`int64`, `string`, `bool`, `map[string]interface{}`,
`[]map[string]interface{}`) and the nil interface. -/
inductive Value where
  | int (v : Int)
  | str (v : String)
  | bool (v : Bool)
  | nil
  | obj (fields : List (String × Value))
  | list (items : List (List (String × Value)))

/-- A Go `map[string]interface{}`, entries in the order a `range` visits them. -/
abbrev GoMap := List (String × Value)

/-- Go `m[k]` with the comma-ok form: the value stored under `k`, if any. -/
def GoMap.get? (m : GoMap) (k : String) : Option Value :=
  match m with
  | [] => none
  | (k', v) :: rest => if k' = k then some v else GoMap.get? rest k

/-- Go `m[k] = v`: replaces the value of an existing key, adds the entry
otherwise. -/
def GoMap.set (m : GoMap) (k : String) (v : Value) : GoMap :=
  match m with
  | [] => [(k, v)]
  | (k', v') :: rest => if k' = k then (k, v) :: rest else (k', v') :: GoMap.set rest k v

/-- The two `fmt` verbs the builder applies to dynamic values. -/
inductive Verb where
  | v
  | s

/-- Byte-wise `≤` on strings, the order in which `fmt` prints map keys. -/
def bytesLE : List Char → List Char → Bool
  | [], _ => true
  | _ :: _, [] => false
  | a :: as, b :: bs =>
    if a.toNat < b.toNat then true
    else if b.toNat < a.toNat then false
    else bytesLE as bs

/-- Insertion of a rendered map entry into a key-sorted list. -/
def insertKey (e : String × String) : List (String × String) → List (String × String)
  | [] => [e]
  | x :: rest =>
    if bytesLE e.1.data x.1.data then e :: x :: rest else x :: insertKey e rest

/-- Rendered map entries sorted by key (`fmt` prints maps in key order). -/
def sortKeys : List (String × String) → List (String × String)
  | [] => []
  | e :: rest => insertKey e (sortKeys rest)

/-- Text `fmt` prints for a map whose entries are already rendered:
`map[k1:v1 k2:v2]`. -/
def fmtMapBody (entries : List (String × String)) : String :=
  "map[" ++ joinWith " " ((sortKeys entries).map (fun kv => kv.1 ++ ":" ++ kv.2)) ++ "]"

mutual
/-- Rendering of a dynamic value by `fmt` under the verb `%v` or `%s`. Under
`%s` an operand that is not a string is printed as `%!s(type=value)`. -/
def fmtValue (verb : Verb) : Value → String
  | .int v =>
    match verb with
    | .v => fmtD v
    | .s => "%!s(int64=" ++ fmtD v ++ ")"
  | .str v => v
  | .bool v =>
    match verb with
    | .v => fmtBool v
    | .s => "%!s(bool=" ++ fmtBool v ++ ")"
  | .nil =>
    match verb with
    | .v => "<nil>"
    | .s => "%!s(<nil>)"
  | .obj fields => fmtMapBody (fmtFields verb fields)
  | .list items => "[" ++ joinWith " " (fmtMaps verb items) ++ "]"
/-- Entries of a map with their values rendered. -/
def fmtFields (verb : Verb) : List (String × Value) → List (String × String)
  | [] => []
  | (k, v) :: rest => (k, fmtValue verb v) :: fmtFields verb rest
/-- Elements of a `[]map[string]interface{}` rendered. -/
def fmtMaps (verb : Verb) : List (List (String × Value)) → List String
  | [] => []
  | m :: rest => fmtMapBody (fmtFields verb m) :: fmtMaps verb rest
end

/-! ## `rql.go`: the SQL builder -/

def NotEqual : String := "_ne"
def GreaterThan : String := "_gt"
def LessThan : String := "_lt"
def GreaterThanEqual : String := "_gte"
def LessThanEqual : String := "_lte"
def In : String := "_in"
def Equal : String := "_eq"

/-- The table `sqlOperator`, read as Go reads a map: a key that is absent gives
the zero value `""`. -/
def sqlOperator (op : String) : String :=
  if op = NotEqual then "!="
  else if op = LessThanEqual then "<="
  else if op = LessThan then "<"
  else if op = GreaterThan then ">"
  else if op = GreaterThanEqual then ">="
  else if op = In then "IN"
  else if op = Equal then "="
  else ""

/-- The builder state `SelectDefinition`. -/
structure SelectDefinition where
  database : String
  table : String
  fieldsFragment : String
  whereFragment : String
  sortOrder : String
  limitFragment : String
  offsetFragment : String
  generatedSqlStmt : String
deriving DecidableEq

/-- `NewSelectDefinition(table)`: every field but `table` has its zero value. -/
def NewSelectDefinition (table : String) : SelectDefinition :=
  { database := "", table := table, fieldsFragment := "", whereFragment := "",
    sortOrder := "", limitFragment := "", offsetFragment := "", generatedSqlStmt := "" }

/-- The rewriting `if strValue, isString := value.(string); isString
{ value = fmt.Sprintf("'%s'", strValue) }` of `WithFilters`. -/
def quoteString : Value → Value
  | .str strValue => .str ("'" ++ strValue ++ "'")
  | value => value

/-- Body of the inner loop of `WithFilters`, for one `operator, value` entry of
the condition map of `field`. -/
def filterOperator (field : String) (s : SelectDefinition) (entry : String × Value) :
    SelectDefinition :=
  let operator := entry.1
  let value := entry.2
  if HasPrefix operator "_" then
    let value := quoteString value
    { s with whereFragment := s.whereFragment ++
        ("`" ++ field ++ "` " ++ sqlOperator operator ++ " " ++ fmtValue .v value ++ " AND ") }
  else s

/-- Body of the outer loop of `WithFilters`, for one `field, condition` entry. -/
def filterField (s : SelectDefinition) (entry : String × Value) : SelectDefinition :=
  let field := entry.1
  let condition := entry.2
  match condition with
  | .obj conditionMap => conditionMap.foldl (filterOperator field) s
  | _ =>
    let condition := quoteString condition
    { s with whereFragment := s.whereFragment ++
        ("`" ++ field ++ "` " ++ "=" ++ " " ++ fmtValue .v condition ++ " AND ") }

/-- `(*SelectDefinition).WithFilters`. -/
def WithFilters (s : SelectDefinition) (filters : GoMap) : SelectDefinition :=
  let s := filters.foldl filterField s
  { s with whereFragment := TrimSuffix s.whereFragment " AND " }

/-- `(*SelectDefinition).WithProjections`. -/
def WithProjections (s : SelectDefinition) (projection : List String) : SelectDefinition :=
  let s := projection.foldl
    (fun s field => { s with fieldsFragment := s.fieldsFragment ++ ("`" ++ field ++ "`, ") }) s
  { s with fieldsFragment := TrimSuffix s.fieldsFragment ", " }

/-- Body of the inner loop of `WithSortCriteria`, for one `field, order` entry. -/
def sortEntry (s : SelectDefinition) (entry : String × Value) : SelectDefinition :=
  { s with sortOrder := s.sortOrder ++ ("`" ++ entry.1 ++ "` " ++ fmtValue .s entry.2 ++ ", ") }

/-- `(*SelectDefinition).WithSortCriteria`. -/
def WithSortCriteria (s : SelectDefinition) (sortOrder : List GoMap) : SelectDefinition :=
  let s := sortOrder.foldl (fun s criteria => criteria.foldl sortEntry s) s
  { s with sortOrder := TrimSuffix s.sortOrder ", " }

/-- `(*SelectDefinition).WithPagination`. -/
def WithPagination (s : SelectDefinition) (offset limit : Int) : SelectDefinition :=
  { s with limitFragment := fmtD limit, offsetFragment := fmtD offset }

/-- What `Build` leaves and returns: the receiver after the call, the returned
statement and the returned error (`none` is Go's `nil`). -/
structure BuildResult where
  state : SelectDefinition
  stmt : String
  err : Option String

/-- `(*SelectDefinition).Build`. -/
def Build (s : SelectDefinition) : BuildResult :=
  let s := if s.fieldsFragment.length = 0 then { s with fieldsFragment := "*" } else s
  let s := { s with generatedSqlStmt := "SELECT " ++ s.fieldsFragment ++ " FROM `" ++ s.table ++ "`" }
  let s := if s.whereFragment.length > 0 then
    { s with generatedSqlStmt := s.generatedSqlStmt ++ (" WHERE " ++ s.whereFragment) } else s
  let s := if s.sortOrder.length > 0 then
    { s with generatedSqlStmt := s.generatedSqlStmt ++ (" ORDER BY " ++ s.sortOrder) } else s
  let s := if s.limitFragment.length > 0 then
    { s with generatedSqlStmt := s.generatedSqlStmt ++ (" LIMIT " ++ s.limitFragment) } else s
  let s := if s.offsetFragment.length > 0 then
    { s with generatedSqlStmt := s.generatedSqlStmt ++ (" OFFSET " ++ s.offsetFragment) } else s
  let s := { s with generatedSqlStmt := TrimRight s.generatedSqlStmt " " }
  let s := { s with generatedSqlStmt := s.generatedSqlStmt ++ ";" }
  { state := s, stmt := s.generatedSqlStmt, err := none }

/-- One call on the builder (the methods of the interface `Querier`). -/
inductive Call where
  | withFilters (filters : GoMap)
  | withProjections (projection : List String)
  | withSortCriteria (sortOrder : List GoMap)
  | withPagination (offset limit : Int)
  | build

/-- Effect of one call on the builder state. -/
def Call.run (s : SelectDefinition) : Call → SelectDefinition
  | .withFilters filters => WithFilters s filters
  | .withProjections projection => WithProjections s projection
  | .withSortCriteria sortOrder => WithSortCriteria s sortOrder
  | .withPagination offset limit => WithPagination s offset limit
  | .build => (Build s).state

/-- Builder state after a sequence of calls, first call first. -/
def runCalls (s : SelectDefinition) (calls : List Call) : SelectDefinition :=
  calls.foldl Call.run s

/-! ## `strconv.ParseInt(s, 10, 64)` -/

/-- The two error kinds of `strconv`. -/
inductive NumError where
  | ErrSyntax
  | ErrRange
deriving DecidableEq

/-- Largest `uint64`. -/
def maxUint64 : Nat := 2 ^ 64 - 1

/-- Value of a decimal digit, `none` for any other character. -/
def digitVal (c : Char) : Option Nat :=
  if '0'.toNat ≤ c.toNat ∧ c.toNat ≤ '9'.toNat then some (c.toNat - '0'.toNat) else none

/-- The digit loop of `strconv.ParseUint(s, 10, 64)`, `n` being the value read
so far. It returns as soon as a character is not a digit (syntax error, value
0) or the value leaves the 64-bit range (range error, value `maxUint64`). -/
def parseUintLoop : List Char → Nat → Nat × Option NumError
  | [], n => (n, none)
  | c :: rest, n =>
    match digitVal c with
    | none => (0, some .ErrSyntax)
    | some d =>
      if n ≥ maxUint64 / 10 + 1 then (maxUint64, some .ErrRange)
      else if n * 10 + d > maxUint64 then (maxUint64, some .ErrRange)
      else parseUintLoop rest (n * 10 + d)

/-- `strconv.ParseUint(s, 10, 64)`. -/
def ParseUint (s : List Char) : Nat × Option NumError :=
  match s with
  | [] => (0, some .ErrSyntax)
  | _ => parseUintLoop s 0

/-- `strconv.ParseInt(s, 10, 64)`: the pair of the returned value and error. A
numeral outside the 64-bit range gives the nearest bound together with
`ErrRange`, a text that is not a numeral gives 0 with `ErrSyntax`. -/
def ParseInt (s : String) : Int × Option NumError :=
  match s.data with
  | [] => (0, some .ErrSyntax)
  | c :: rest =>
    let neg := c = '-'
    let digits := if c = '+' ∨ c = '-' then rest else c :: rest
    match ParseUint digits with
    | (_, some .ErrSyntax) => (0, some .ErrSyntax)
    | (un, _) =>
      if ¬ neg ∧ un ≥ 2 ^ 63 then ((2 : Int) ^ 63 - 1, some .ErrRange)
      else if neg ∧ un > 2 ^ 63 then (-(2 : Int) ^ 63, some .ErrRange)
      else if neg then (-(un : Int), none)
      else ((un : Int), none)

/-! ## The request syntax tree (`graphql-go/graphql/language/ast`)

The parser is an external library; the types below follow its declarations.
`ast.IntValue`, `ast.FloatValue`, `ast.StringValue` and `ast.EnumValue` carry
their text in `Value string`, `ast.BooleanValue` carries `Value bool`.
`ast.Field.SelectionSet` is a pointer, nil for a field written without braces. -/

/-- An argument literal, `ast.Value`. -/
inductive AstValue where
  | Variable (name : String)
  | IntValue (value : String)
  | FloatValue (value : String)
  | StringValue (value : String)
  | BooleanValue (value : Bool)
  | EnumValue (value : String)
  | ListValue (values : List AstValue)
  | ObjectValue (fields : List (String × AstValue))

/-- A selection, `ast.Selection`. A field has its name, its arguments
(name and literal) and its selection set, `none` when the pointer is nil. -/
inductive Selection where
  | Field (name : String) (arguments : List (String × AstValue))
      (selectionSet : Option (List Selection))
  | FragmentSpread (name : String)
  | InlineFragment (selectionSet : Option (List Selection))

/-- The part of `ast.OperationDefinition` the program reads: the result of
`GetSelectionSet()`, `none` for a nil pointer. -/
structure OperationDefinition where
  SelectionSet : Option (List Selection)

/-- The part of `graphql.ResolveInfo` the program reads. -/
structure ResolveInfo where
  Operation : OperationDefinition

/-- The part of `graphql.ResolveParams` the program reads. -/
structure ResolveParams where
  Info : ResolveInfo

/-! ## `graphql.go`: argument and projection extraction -/

/-- Outcome of `scalarArg`: a decoded scalar, the undecoded `GetValue()` of a
node that is not a scalar literal, or a panic. -/
inductive Decoded where
  | ok (v : Value)
  | raw (node : AstValue)
  | panic

/-- The function `scalarArg`. `value.(string)` has no comma-ok form, so it
panics on the `bool` that `ast.BooleanValue.GetValue()` returns. The last
`return scalar.GetValue()` hands back the text of a float or enum literal and
the undecoded content of any other node. -/
def scalarArg (scalar : AstValue) : Decoded :=
  match scalar with
  | .IntValue value => .ok (.int (ParseInt value).1)
  | .StringValue value => .ok (.str value)
  | .BooleanValue _ => .panic
  | .FloatValue value => .ok (.str value)
  | .EnumValue value => .ok (.str value)
  | node => .raw node

mutual
/-- The function `objectValueArg`. Its Go parameter is an `*ast.ObjectValue`:
both callers assert that type first, and on any other node there is no field
to visit. -/
def objectValueArg : AstValue → Option GoMap
  | .ObjectValue fields => objectValueLoop fields []
  | _ => some []
/-- The loop of `objectValueArg` over `object.Fields`, `argument` being the map
built so far. A field whose literal is neither an object nor an integer, string
or boolean literal is skipped. -/
def objectValueLoop : List (String × AstValue) → GoMap → Option GoMap
  | [], argument => some argument
  | (name, value) :: rest, argument =>
    match value with
    | .ObjectValue _ =>
      match objectValueArg value with
      | none => none
      | some decoded => objectValueLoop rest (argument.set name (.obj decoded))
    | .IntValue _ | .StringValue _ | .BooleanValue _ =>
      match scalarArg value with
      | .ok decoded => objectValueLoop rest (argument.set name decoded)
      | _ => none
    | _ => objectValueLoop rest argument
end

/-- The loop of `listValueArg`: object literals are decoded and appended, any
other element is dropped. -/
def listValueLoop : List AstValue → List GoMap → Option (List GoMap)
  | [], listArgument => some listArgument
  | value :: rest, listArgument =>
    match value with
    | .ObjectValue _ =>
      match objectValueArg value with
      | none => none
      | some decoded => listValueLoop rest (listArgument ++ [decoded])
    | _ => listValueLoop rest listArgument

/-- The function `listValueArg`, applied to the values of the list literal. -/
def listValueArg (values : List AstValue) : Option (List GoMap) :=
  listValueLoop values []

/-- The loop of `GetArguments` over the arguments of the first field. -/
def argumentsLoop : List (String × AstValue) → GoMap → Option GoMap
  | [], argument => some argument
  | (name, value) :: rest, argument =>
    match value with
    | .ObjectValue _ =>
      match objectValueArg value with
      | none => none
      | some decoded => argumentsLoop rest (argument.set name (.obj decoded))
    | .ListValue values =>
      match listValueArg values with
      | none => none
      | some decoded => argumentsLoop rest (argument.set name (.list decoded))
    | .IntValue _ | .StringValue _ | .BooleanValue _ =>
      match scalarArg value with
      | .ok decoded => argumentsLoop rest (argument.set name decoded)
      | _ => none
    | _ => argumentsLoop rest argument

/-- The function `GetArguments`. `selection.Selections[0]` panics when the
operation has no selection. -/
def GetArguments (params : ResolveParams) : Option GoMap :=
  match params.Info.Operation.SelectionSet with
  | none => none
  | some [] => none
  | some (.Field _ arguments _ :: _) => argumentsLoop arguments []
  | some (_ :: _) => some []

/-- Names of the selections that are fields, in order (the inner loop of
`GetProjection`). -/
def fieldNames : List Selection → List String
  | [] => []
  | .Field name _ _ :: rest => name :: fieldNames rest
  | _ :: rest => fieldNames rest

/-- The outer loop of `GetProjection` over the selections of the operation.
`selection.SelectionSet.Selections` dereferences the pointer, which panics for
a field without a selection set. -/
def projectionLoop : List Selection → List String → Option (List String)
  | [], projection => some projection
  | .Field _ _ none :: _, _ => none
  | .Field _ _ (some selections) :: rest, projection =>
    projectionLoop rest (projection ++ fieldNames selections)
  | _ :: rest, projection => projectionLoop rest projection

/-- The function `GetProjection`. -/
def GetProjection (params : ResolveParams) : Option (List String) :=
  match params.Info.Operation.SelectionSet with
  | none => none
  | some selections => projectionLoop selections []

/-- What `DefaultResolverFn` extracts from the decoded arguments: filter,
limit, offset and sort list, each with its default when the argument is absent
or has another dynamic type. -/
structure Intent where
  filter : GoMap
  limit : Int
  offset : Int
  orderBy : List GoMap

/-- The four comma-ok type assertions of `DefaultResolverFn`. -/
def extractIntent (arguments : GoMap) : Intent :=
  { filter := match arguments.get? "where" with
      | some (.obj value) => value
      | _ => []
    limit := match arguments.get? "limit" with
      | some (.int value) => value
      | _ => 100
    offset := match arguments.get? "offset" with
      | some (.int value) => value
      | _ => 0
    orderBy := match arguments.get? "order_by" with
      | some (.list value) => value
      | _ => [] }

/-- The function `DefaultResolverFn` up to the call of `mysql.FetchScan`: the
statement and the limit handed to the executor, `none` when the extraction
panics. The table name is the literal `"payments"`. -/
def DefaultResolverFn (params : ResolveParams) : Option (String × Int) :=
  match GetArguments params with
  | none => none
  | some arguments =>
    match GetProjection params with
    | none => none
    | some projection =>
      let selectDef := NewSelectDefinition "payments"
      let intent := extractIntent arguments
      let generatedSQLQuery :=
        Build (WithSortCriteria (WithProjections
          (WithPagination (WithFilters selectDef intent.filter) intent.offset intent.limit)
          projection) intent.orderBy)
      some (generatedSQLQuery.stmt, intent.limit)


/-! ## Clause texts, as functions of the inputs -/

/-- Concatenation of a list of strings. -/
def concatAll : List String → String
  | [] => ""
  | x :: rest => x ++ concatAll rest

/-- The literal `WithFilters` writes for a value: a string between single
quotes, any other value as `%v` prints it. -/
def sqlLiteral (value : Value) : String :=
  fmtValue .v (quoteString value)

/-- Text one `operator, value` entry of the condition map of `field` adds to
the predicate. -/
def operatorText (field : String) (entry : String × Value) : String :=
  if HasPrefix entry.1 "_" then
    "`" ++ field ++ "` " ++ sqlOperator entry.1 ++ " " ++ sqlLiteral entry.2 ++ " AND "
  else ""

/-- Text one `field, condition` entry of the filter adds to the predicate. -/
def fieldText (entry : String × Value) : String :=
  match entry.2 with
  | .obj conditionMap => concatAll (conditionMap.map (operatorText entry.1))
  | condition => "`" ++ entry.1 ++ "` " ++ "=" ++ " " ++ sqlLiteral condition ++ " AND "

/-- Text the loop of `WithFilters` adds to the predicate. -/
def filterText (filters : GoMap) : String :=
  concatAll (filters.map fieldText)

/-- Text the loop of `WithProjections` adds to the select list. -/
def projectionText (projection : List String) : String :=
  concatAll (projection.map (fun field => "`" ++ field ++ "`, "))

/-- Text one sort criteria map adds to the sort order. -/
def criteriaText (criteria : GoMap) : String :=
  concatAll (criteria.map (fun entry => "`" ++ entry.1 ++ "` " ++ fmtValue .s entry.2 ++ ", "))

/-- Text the loop of `WithSortCriteria` adds to the sort order. -/
def sortText (sortOrder : List GoMap) : String :=
  concatAll (sortOrder.map criteriaText)

/-- The select list `Build` writes: `*` when `fieldsFragment` is empty. -/
def selectList (s : SelectDefinition) : String :=
  if s.fieldsFragment.length = 0 then "*" else s.fieldsFragment

/-- The optional clause `Build` adds for a fragment: nothing when the fragment
is empty, the keyword and the fragment otherwise. -/
def clause (keyword fragment : String) : String :=
  if fragment.length > 0 then keyword ++ fragment else ""

/-- The text `Build` assembles before it trims trailing blanks and adds the
statement separator. -/
def bodyText (s : SelectDefinition) : String :=
  "SELECT " ++ selectList s ++ " FROM `" ++ s.table ++ "`" ++
    clause " WHERE " s.whereFragment ++ clause " ORDER BY " s.sortOrder ++
    clause " LIMIT " s.limitFragment ++ clause " OFFSET " s.offsetFragment

/-- A call that adds columns to the select list: `WithProjections` with a
non-empty projection. -/
def Call.isProjecting : Call → Bool
  | .withProjections (_ :: _) => true
  | _ => false

/-- A call of `Build`. -/
def Call.isBuild : Call → Bool
  | .build => true
  | _ => false

/-- A column name between backticks. -/
def quoteColumn (column : String) : String :=
  "`" ++ column ++ "`"

/-- The syntax tree of the request
`{ payments(where: {amount: {_gt: 100}}, limit: 10, offset: 0) { id, amount } }`,
as the parser builds it: one operation whose only selection is the field
`payments` with three arguments and the two sub-fields `id` and `amount`. -/
def paymentsRequest : ResolveParams :=
  { Info := { Operation := { SelectionSet := some (
      [Selection.Field "payments"
        [("where", AstValue.ObjectValue
            [("amount", AstValue.ObjectValue [("_gt", AstValue.IntValue "100")])]),
          ("limit", AstValue.IntValue "10"),
          ("offset", AstValue.IntValue "0")]
        (some [Selection.Field "id" [] none, Selection.Field "amount" [] none])]) } } }

/-- The syntax tree of the request `{ payments }`: the field `payments` has no
arguments and no braces, so its `SelectionSet` pointer is nil. -/
def bareRequest : ResolveParams :=
  { Info := { Operation := { SelectionSet := some [Selection.Field "payments" [] none] } } }

/-- A tree in which the field `payments` has no arguments and a selection set
that is present but empty (the parser does not produce it: braces need at least
one selection). -/
def emptySelectionRequest : ResolveParams :=
  { Info := { Operation := { SelectionSet := some [Selection.Field "payments" [] (some [])] } } }

/-- Go `strings.HasSuffix(s, suffix)`. -/
def HasSuffix (s suffix : String) : Bool :=
  suffix.data.isSuffixOf s.data

/-- The operator keys of the table `sqlOperator`. -/
def recognizedOperators : List String :=
  [NotEqual, GreaterThan, LessThan, GreaterThanEqual, LessThanEqual, In, Equal]

/-- A value that is a mapping (`map[string]interface{}`). -/
def Value.isMap : Value → Bool
  | .obj _ => true
  | _ => false

/-- The comparison `WithFilters` writes for a field whose condition is not a
mapping: the column between backticks, `=`, the literal. -/
def equalityText (entry : String × Value) : String :=
  "`" ++ entry.1 ++ "` = " ++ sqlLiteral entry.2

/-- The comparison `WithFilters` writes for one operator entry of the condition
mapping of `field`: the column between backticks, the operator symbol, the
literal. -/
def comparisonText (field : String) (entry : String × Value) : String :=
  "`" ++ field ++ "` " ++ sqlOperator entry.1 ++ " " ++ sqlLiteral entry.2

/-- Number of positions of a text at which the pattern occurs (occurrences
that overlap are all counted). -/
def occurrencesFrom (pat : List Char) : List Char → Nat
  | [] => 0
  | c :: rest => (if pat.isPrefixOf (c :: rest) then 1 else 0) + occurrencesFrom pat rest

/-- Number of occurrences of the pattern `pat` in the text `s`. -/
def occurrences (pat s : String) : Nat :=
  occurrencesFrom pat.data s.data

/-- The builder as `DefaultResolverFn` configures it from a table name and the
four inputs: `WithFilters`, `WithPagination`, `WithProjections`,
`WithSortCriteria` on a fresh builder. -/
def configured (table : String) (filters : GoMap) (projection : List String)
    (sortOrder : List GoMap) (offset limit : Int) : SelectDefinition :=
  WithSortCriteria (WithProjections
    (WithPagination (WithFilters (NewSelectDefinition table) filters) offset limit)
    projection) sortOrder

/-- The part of the statement `Build` assembles before the pagination clauses:
select list, table, predicate and sort order. -/
def headText (s : SelectDefinition) : String :=
  "SELECT " ++ selectList s ++ " FROM `" ++ s.table ++ "`" ++
    clause " WHERE " s.whereFragment ++ clause " ORDER BY " s.sortOrder


/-! ## `graphql.go`: entity name and the entry point `Query` -/

/-- A definition of a document (`ast.Node` in `document.Definitions`): an
operation, a fragment definition, or any other definition. -/
inductive Definition where
  | Operation (operation : OperationDefinition)
  | Fragment (name : String)
  | Other

/-- The part of `ast.Document` the program reads. -/
structure Document where
  Definitions : List Definition

/-- The function `getEntityName`. `len(selectionSet.Selections)` dereferences
the pointer `GetSelectionSet()` returns, which panics when it is nil. -/
def getEntityName (document : Document) : Option String :=
  match document.Definitions with
  | [] => some ""
  | Definition.Operation firstDefinition :: _ =>
    match firstDefinition.SelectionSet with
    | none => none
    | some [] => some ""
    | some (Selection.Field name _ _ :: _) => some name
    | some (_ :: _) => some ""
  | _ :: _ => some ""

/-- How far `Query` gets before it touches the database: it returns the error
of the parser, it returns the error made by `errors.New`, or it goes on to
`mysql.GetTableSchema(entity)`. -/
inductive QueryOutcome where
  | parseError (err : String)
  | failed (message : String)
  | schemaLookup (entity : String)
deriving DecidableEq

/-- The function `Query` up to the schema lookup. The parser is external: its
result for the request text is the argument `parsed`. -/
def Query (parsed : Except String Document) : Option QueryOutcome :=
  match parsed with
  | .error err => some (.parseError err)
  | .ok syntaxTree =>
    match getEntityName syntaxTree with
    | none => none
    | some entity =>
      if entity = "" then some (.failed "no entity in query")
      else some (.schemaLookup entity)

/-! ## `graphql.go`: `GenerateSchema` -/

/-- The two scalar types of the library the registry uses, `graphql.Int` and
`graphql.String`. -/
inductive GraphqlScalar where
  | Int
  | String
deriving DecidableEq

/-- The table `mysqlDatatype`, read as Go reads a map: `none` is the nil value
of an absent key. -/
def mysqlDatatype (fieldType : String) : Option GraphqlScalar :=
  if fieldType = "tinyint" then some .Int
  else if fieldType = "bigint" then some .Int
  else if fieldType = "int" then some .Int
  else if fieldType = "varchar" then some .String
  else if fieldType = "char" then some .String
  else if fieldType = "text" then some .String
  else none

/-- The slice `supportedComparisonOps`. -/
def supportedComparisonOps : List String :=
  ["_gt", "_lt", "_gte", "_lte", "_in", "_eq"]

/-- Go `m[k]` on a map with string keys, of any value type. -/
def mapGet? {α : Type} (m : List (String × α)) (k : String) : Option α :=
  match m with
  | [] => none
  | (k', v) :: rest => if k' = k then some v else mapGet? rest k

/-- Go `m[k] = v` on a map with string keys, of any value type. -/
def mapSet {α : Type} (m : List (String × α)) (k : String) (v : α) : List (String × α) :=
  match m with
  | [] => [(k, v)]
  | (k', v') :: rest => if k' = k then (k, v) :: rest else (k', v') :: mapSet rest k v

/-- The type `TableSchema`, a `map[string]string` from column name to type name. -/
abbrev TableSchema := List (String × String)

/-- A `graphql.Field` of the `where` object: its type and its arguments, a map
from argument name to the type of the `graphql.ArgumentConfig`. -/
structure FilterField where
  type : Option GraphqlScalar
  args : List (String × Option GraphqlScalar)
deriving DecidableEq

/-- The filter field `GenerateSchema` builds for a column of type `fieldType`:
type `graphql.String`, one argument per entry of `supportedComparisonOps` typed
`mysqlDatatype[fieldType]`. -/
def newFilterField (fieldType : String) : FilterField :=
  { type := some .String
    args := supportedComparisonOps.foldl
      (fun fieldArgs op => mapSet fieldArgs op (mysqlDatatype fieldType)) [] }

/-- The map `filterFields` of `GenerateSchema`: the loop over the allow-list
`filters` (a name that is not a column of the table is skipped), then, when the
allow-list is empty, the loop over every column. -/
def filterFieldsOf (tableSchema : TableSchema) (filters : List String) :
    List (String × FilterField) :=
  let filterFields := filters.foldl
    (fun filterFields filterField =>
      match mapGet? tableSchema filterField with
      | some fieldType => mapSet filterFields filterField (newFilterField fieldType)
      | none => filterFields) []
  if filters.length = 0 then
    tableSchema.foldl
      (fun filterFields entry => mapSet filterFields entry.1 (newFilterField entry.2))
      filterFields
  else filterFields

/-- The map `fields` (and `orderFields`) of `GenerateSchema`: one field per
column, typed `mysqlDatatype[fieldType]`. -/
def columnFields (tableSchema : TableSchema) : List (String × Option GraphqlScalar) :=
  tableSchema.foldl
    (fun fields entry => mapSet fields entry.1 (mysqlDatatype entry.2)) []

/-- What `GenerateSchema` hands to `graphql.NewSchema`: the object type named
after the table with its fields, the default arguments `offset` and `limit`
with their default values, the fields of the `where` object, the fields of the
`order_by` objects, and the name of the single field of the query type. -/
structure SchemaDescription where
  objectName : String
  objectFields : List (String × Option GraphqlScalar)
  defaultArgs : List (String × Int)
  whereFields : List (String × FilterField)
  orderFields : List (String × Option GraphqlScalar)
  queryField : String
deriving DecidableEq

/-- The value of `queryType` in `GenerateSchema`: the query object built from
the table name, the table schema and the allow-list, before the call of
`graphql.NewSchema`. -/
def GenerateSchema.queryType (tableName : String) (tableSchema : TableSchema)
    (filters : List String) : SchemaDescription :=
  { objectName := tableName
    objectFields := columnFields tableSchema
    defaultArgs := [("offset", 0), ("limit", 100)]
    whereFields := filterFieldsOf tableSchema filters
    orderFields := columnFields tableSchema
    queryField := tableName }

/-- An error returned by `graphql.NewSchema`, by the check that failed: an
object type whose field map is empty, a field whose type is nil, an argument
whose type is nil, or any other error of the library. -/
inductive SchemaError where
  | noFields (typeName : String)
  | noFieldType (typeName fieldName : String)
  | noArgumentType (typeName fieldName argumentName : String)
  | other (message : String)
deriving DecidableEq

/-- The function `GenerateSchema`. The function `graphql.NewSchema` belongs to
the library and is the argument `NewSchema`: for a query object it gives the
error the library returns, `none` when the library returns a schema. On an
error `GenerateSchema` returns `nil, err`; otherwise it returns the schema,
given here by the query object it was made from. -/
def GenerateSchema (NewSchema : SchemaDescription → Option SchemaError) (tableName : String)
    (tableSchema : TableSchema) (filters : List String) : Except SchemaError SchemaDescription :=
  let queryType := GenerateSchema.queryType tableName tableSchema filters
  match NewSchema queryType with
  | some err => .error err
  | none => .ok queryType

/-- The first field without a type in the field map of an object type. -/
def untypedField (typeName : String) (fields : List (String × Option GraphqlScalar)) :
    Option SchemaError :=
  match fields with
  | [] => none
  | (fieldName, none) :: _ => some (.noFieldType typeName fieldName)
  | (_, some _) :: rest => untypedField typeName rest

/-- The first argument without a type among the arguments of a field. -/
def untypedArgument (typeName fieldName : String)
    (arguments : List (String × Option GraphqlScalar)) : Option SchemaError :=
  match arguments with
  | [] => none
  | (argumentName, none) :: _ => some (.noArgumentType typeName fieldName argumentName)
  | (_, some _) :: rest => untypedArgument typeName fieldName rest

/-- The first field of the `where` object without a type or with an argument
without a type. -/
def untypedFilterField (fields : List (String × FilterField)) : Option SchemaError :=
  match fields with
  | [] => none
  | (fieldName, field) :: rest =>
    match field.type with
    | none => some (.noFieldType "where" fieldName)
    | some _ =>
      match untypedArgument "where" fieldName field.args with
      | some err => some err
      | none => untypedFilterField rest

/-- Library model (graphql-go, outside the repository): the checks
`graphql.NewSchema` makes on the field map of each object type of the query
object. An object type without any field is an error, and so is a field or an
argument whose type is nil. The library visits the types of the arguments
before the type of the field, in the order of a Go map; here the order is
`where`, `order_by`, then the object type of the table, and the first error is
returned. The other checks of the library (well-formed names, distinct type
names) are not part of it, so it stands for `graphql.NewSchema` only on query
objects that pass those. -/
def checkFieldMaps (queryType : SchemaDescription) : Option SchemaError :=
  if queryType.whereFields = [] then some (.noFields "where")
  else
    match untypedFilterField queryType.whereFields with
    | some err => some err
    | none =>
      if queryType.orderFields = [] then some (.noFields "order_by")
      else
        match untypedField "order_by" queryType.orderFields with
        | some err => some err
        | none =>
          if queryType.objectFields = [] then some (.noFields queryType.objectName)
          else untypedField queryType.objectName queryType.objectFields

/-! ## `mysql.go`: `ColValueScanner` -/

/-- The content of a `time.Time`, which `Scan` only copies. -/
structure Time where
  wall : Nat
  ext : Int
  loc : String
deriving DecidableEq

/-- A value the driver hands to `Scan` (`src interface{}`), by dynamic type. A
`float64` is given by its bit pattern, a `[]byte` and a Go `string` by their
bytes; `other` stands for a value of any type the switch does not list (an
`int32` for instance), with the name of its type. -/
inductive DriverValue where
  | int64 (v : Int)
  | float64 (bits : Nat)
  | bool (v : Bool)
  | string (bytes : List Nat)
  | bytes (bytes : List Nat)
  | time (v : Time)
  | nil
  | other (typeName : String)
deriving DecidableEq

/-- The struct `ColValueScanner`: its field `value`. -/
structure ColValueScanner where
  value : DriverValue
deriving DecidableEq

/-- A scanner made by `new(ColValueScanner)`: the value is the nil interface. -/
def newColValueScanner : ColValueScanner :=
  { value := .nil }

/-- The method `getBytes`: the bytes of a `[]uint8`, nil for any other value. -/
def ColValueScanner.getBytes (_scanner : ColValueScanner) (src : DriverValue) : List Nat :=
  match src with
  | .bytes a => a
  | _ => []

/-- The method `Scan`: the scanner after the call and the returned error
(`none` is Go's `nil`). -/
def ColValueScanner.Scan (scanner : ColValueScanner) (src : DriverValue) :
    ColValueScanner × Option String :=
  match src with
  | .int64 value => ({ scanner with value := .int64 value }, none)
  | .float64 value => ({ scanner with value := .float64 value }, none)
  | .bool value => ({ scanner with value := .bool value }, none)
  | .string _ => ({ scanner with value := .string (scanner.getBytes src) }, none)
  | .bytes _ => ({ scanner with value := .string (scanner.getBytes src) }, none)
  | .time value => ({ scanner with value := .time value }, none)
  | .nil => ({ scanner with value := .nil }, none)
  | .other _ => (scanner, none)

/-! ## `graphql_test.go`: `GenerateSQLFromGraphQL` -/

/-- The test helper `GenerateSQLFromGraphQL`: the returned statement and error.
The four type assertions have no comma-ok form and panic when the argument is
absent or has another dynamic type. The call is
`WithPagination(int(limit), int(offset))`. -/
def GenerateSQLFromGraphQL (params : ResolveParams) : Option (String × Option String) :=
  match GetArguments params with
  | none => none
  | some arguments =>
    match GetProjection params with
    | none => none
    | some projection =>
      let selectDef := NewSelectDefinition "payment"
      match arguments.get? "where", arguments.get? "limit", arguments.get? "offset",
        arguments.get? "order_by" with
      | some (.obj filter), some (.int limit), some (.int offset), some (.list orderBy) =>
        let generatedSQLQuery :=
          Build (WithSortCriteria (WithProjections
            (WithPagination (WithFilters selectDef filter) limit offset)
            projection) orderBy)
        some (generatedSQLQuery.stmt, generatedSQLQuery.err)
      | _, _, _, _ => none

/-- The syntax tree of the request of `TestGenerateSQLFromGraphQL`:
`{ product(where: {id: {_gt: 1}}, offset: 10, limit: 100,
order_by: [{id: "desc"}, {created_at: "asc"}]) { id, name, info, } }`. -/
def testRequest : ResolveParams :=
  { Info := { Operation := { SelectionSet := some (
      [Selection.Field "product"
        [("where", AstValue.ObjectValue
            [("id", AstValue.ObjectValue [("_gt", AstValue.IntValue "1")])]),
          ("offset", AstValue.IntValue "10"),
          ("limit", AstValue.IntValue "100"),
          ("order_by", AstValue.ListValue
            [AstValue.ObjectValue [("id", AstValue.StringValue "desc")],
              AstValue.ObjectValue [("created_at", AstValue.StringValue "asc")]])]
        (some [Selection.Field "id" [] none, Selection.Field "name" [] none,
          Selection.Field "info" [] none])]) } } }

/-! ## Texts and inputs of the later properties -/

/-- A sort specification given as a sequence of `column, direction` pairs, as
the sequence of single-entry mappings `WithSortCriteria` receives. -/
def singleEntryMaps (spec : List (String × Value)) : List GoMap :=
  spec.map (fun entry => [entry])

/-- The pair `WithSortCriteria` writes for one entry: the column between
backticks, a blank, the direction as the verb `%s` prints it. -/
def sortPair (entry : String × Value) : String :=
  "`" ++ entry.1 ++ "` " ++ fmtValue .s entry.2

/-- Value of a text of decimal digits read from the left, `n` being the value
of the digits read so far. -/
def digitsValue : List Char → Nat → Nat
  | [], n => n
  | c :: rest, n => digitsValue rest (n * 10 + (c.toNat - '0'.toNat))

/-- Every character is a decimal digit. -/
def allDigits : List Char → Bool
  | [] => true
  | c :: rest => (digitVal c).isSome && allDigits rest

/-- The integer a base-10 numeral denotes, in the words of the claim on integer
literals: a numeral is an optional sign followed by one or more decimal
digits; any other text is not a numeral (`none`). -/
def numeralValue (s : String) : Option Int :=
  match s.data with
  | [] => none
  | c :: rest =>
    let digits := if c = '+' ∨ c = '-' then rest else c :: rest
    if digits ≠ [] ∧ allDigits digits = true then
      some (if c = '-' then -(digitsValue digits 0 : Int) else (digitsValue digits 0 : Int))
    else none

/-- The kinds of literal `objectValueArg` has a case for: object, integer,
string and boolean literals. -/
def AstValue.isDecodedKind : AstValue → Bool
  | .ObjectValue _ => true
  | .IntValue _ => true
  | .StringValue _ => true
  | .BooleanValue _ => true
  | _ => false

mutual
/-- A literal `objectValueArg` decodes without meeting a boolean literal: it is
not a boolean literal and, when it is an object literal, neither are its
sub-fields, at any depth. -/
def AstValue.booleanFree : AstValue → Bool
  | .BooleanValue _ => false
  | .ObjectValue fields => booleanFreeFields fields
  | _ => true
/-- Sub-fields all of whose literals are `booleanFree`. -/
def booleanFreeFields : List (String × AstValue) → Bool
  | [] => true
  | (_, value) :: rest => value.booleanFree && booleanFreeFields rest
end

/-- The entry `r` of the decoded mapping is the decoded value of the literal
`value`: the result of `scalarArg` for an integer or string literal, the
mapping `objectValueArg` returns for an object literal. -/
def decodedAs (value : AstValue) (r : Option Value) : Prop :=
  match value with
  | .IntValue text => r = some (Value.int (ParseInt text).1)
  | .StringValue text => r = some (Value.str text)
  | .ObjectValue sub => ∃ m, objectValueArg (.ObjectValue sub) = some m ∧ r = some (Value.obj m)
  | _ => True

/-- What the loop of `objectValueArg` over `fields` makes of the map `acc`: the
keys of the result `m` are those of `acc` and the names of the sub-fields of a
decoded kind; a key without such a sub-field keeps its entry; and, when the
names are pairwise distinct, every sub-field of a decoded kind is mapped to its
decoded value. -/
def LoopSpec (fields : List (String × AstValue)) (acc m : GoMap) : Prop :=
  (∀ k, (m.get? k).isSome = true ↔
    ((acc.get? k).isSome = true ∨ ∃ v, (k, v) ∈ fields ∧ v.isDecodedKind = true)) ∧
  (∀ k, (∀ v, (k, v) ∈ fields → v.isDecodedKind = false) → m.get? k = acc.get? k) ∧
  ((fields.map Prod.fst).Nodup → ∀ name value, (name, value) ∈ fields →
    value.isDecodedKind = true → decodedAs value (m.get? name))

/-- The syntax tree of the request
`{ first: payments { id } second: payments { amount } }`: two top-level fields
(the aliases are not part of the embedding), each with one sub-field. -/
def twoFieldsRequest : ResolveParams :=
  { Info := { Operation := { SelectionSet := some (
      [Selection.Field "payments" [] (some [Selection.Field "id" [] none]),
        Selection.Field "payments" [] (some [Selection.Field "amount" [] none])]) } } }

/-- The selection-set pointer of the first definition is not nil when that
definition is an operation. It holds for every document the parser builds: an
operation always has a selection set. -/
def firstSelectionSetPresent (document : Document) : Bool :=
  match document.Definitions with
  | Definition.Operation operation :: _ => operation.SelectionSet.isSome
  | _ => true

/-- The syntax tree of the request `{ payments(limit: -5, offset: -1) { id } }`. -/
def negativePaginationRequest : ResolveParams :=
  { Info := { Operation := { SelectionSet := some (
      [Selection.Field "payments"
        [("limit", AstValue.IntValue "-5"), ("offset", AstValue.IntValue "-1")]
        (some [Selection.Field "id" [] none])]) } } }

/-- No integer entry of the map is negative. -/
def nonNegativeInts (m : GoMap) : Prop :=
  ∀ k v, GoMap.get? m k = some (Value.int v) → 0 ≤ v

/-- The `Resolve` function `GenerateSchema` gives the single field of the query
type (`Resolve: DefaultResolverFn`): it is `DefaultResolverFn` itself, whatever
the table name, the table schema and the allow-list. -/
def GenerateSchema.resolve (_tableName : String) (_tableSchema : TableSchema)
    (_filters : List String) : ResolveParams → Option (String × Int) :=
  DefaultResolverFn

/-- A request whose only top-level field is `entity`, with the given arguments
and sub-selections. -/
def requestOn (entity : String) (arguments : List (String × AstValue))
    (selections : List Selection) : ResolveParams :=
  { Info := { Operation := { SelectionSet := some (
      [Selection.Field entity arguments (some selections)]) } } }

/-- A selection that is a field (`*ast.Field`), not a fragment spread or an
inline fragment. -/
def Selection.isField : Selection → Bool
  | .Field _ _ _ => true
  | _ => false

/-- Library model (graphql-go, outside the repository): the part of the
validation rule `ScalarLeafs` that concerns the field of the query type. The
field `queryField` has the type list of objects, so the rule reports a top-level
field of that name written without a sub-selection. The result is `true` when
it reports nothing. -/
def scalarLeafs (queryField : String) (operation : OperationDefinition) : Bool :=
  match operation.SelectionSet with
  | none => true
  | some selections =>
    selections.all (fun selection =>
      match selection with
      | .Field name _ none => name != queryField
      | _ => true)

/-- What `graphql.Do` makes of a request, as far as the resolver is concerned:
the validation errors, or the result of the resolver. -/
inductive DoOutcome where
  | validationErrors
  | resolved (result : Option (String × Int))
deriving DecidableEq

/-- The call `graphql.Do(params)` of `Query`, as far as the resolver is
concerned. The library validates the document first and, when a rule reports an
error, returns the errors and executes nothing; otherwise it executes the
operation, and the field of the query type is resolved by `DefaultResolverFn`
on that operation. The validation is external: `validate` is its verdict. -/
def Do (validate : OperationDefinition → Bool) (params : ResolveParams) : DoOutcome :=
  if validate params.Info.Operation then .resolved (DefaultResolverFn params)
  else .validationErrors

/-- The syntax tree of the request `{ payments { ...columns } }`: the
sub-selection of the field `payments` is a single fragment spread. -/
def fragmentOnlyRequest : ResolveParams :=
  requestOn "payments" [] [Selection.FragmentSpread "columns"]

/-! ## Basic facts on the text helpers -/

theorem concatAll_append (xs ys : List String) :
    concatAll (xs ++ ys) = concatAll xs ++ concatAll ys := by
  induction xs with
  | nil => simp [concatAll]
  | cons x rest ih => simp [concatAll, ih, String.append_assoc]

theorem TrimSuffix_append (a suffix : String) : TrimSuffix (a ++ suffix) suffix = a := by
  have h : suffix.data.isSuffixOf (a ++ suffix).data = true := by
    rw [List.isSuffixOf_iff_suffix, String.data_append]
    exact List.suffix_append _ _
  unfold TrimSuffix
  rw [if_pos h]
  apply String.ext
  simp

theorem TrimSuffix_empty (suffix : String) (h : suffix.length > 0) :
    TrimSuffix "" suffix = "" := by
  unfold TrimSuffix
  have : suffix.data.isSuffixOf ("" : String).data = false := by
    cases hs : suffix.data with
    | nil => simp [String.length, hs] at h
    | cons c cs =>
      rw [Bool.eq_false_iff]
      intro hsuf
      rw [List.isSuffixOf_iff_suffix] at hsuf
      simp at hsuf
  simp [this]

/-- Joining after adding the separator to every element gives the joined text
followed by one separator. -/
theorem concatAll_sep (sep : String) (xs : List String) (h : xs ≠ []) :
    concatAll (xs.map (fun x => x ++ sep)) = joinWith sep xs ++ sep := by
  induction xs with
  | nil => exact absurd rfl h
  | cons x rest ih =>
    cases rest with
    | nil => simp [concatAll, joinWith]
    | cons y rest2 =>
      have := ih (by simp)
      simp only [List.map_cons, concatAll, joinWith] at this ⊢
      rw [this]
      simp [String.append_assoc]

/-! ## The builder methods in closed form -/

theorem foldl_filterOperator (field : String) (conditionMap : GoMap) (s : SelectDefinition) :
    conditionMap.foldl (filterOperator field) s =
      { s with whereFragment :=
          s.whereFragment ++ concatAll (conditionMap.map (operatorText field)) } := by
  induction conditionMap generalizing s with
  | nil => simp [concatAll]
  | cons e rest ih =>
    rw [List.foldl_cons, ih]
    by_cases hp : HasPrefix e.1 "_" = true
    · simp [filterOperator, operatorText, hp, concatAll, sqlLiteral, String.append_assoc]
    · simp [filterOperator, operatorText, hp, concatAll]

theorem filterField_eq (s : SelectDefinition) (entry : String × Value) :
    filterField s entry = { s with whereFragment := s.whereFragment ++ fieldText entry } := by
  obtain ⟨field, condition⟩ := entry
  cases condition <;> simp [filterField, fieldText, foldl_filterOperator, sqlLiteral]

theorem foldl_filterField (filters : GoMap) (s : SelectDefinition) :
    filters.foldl filterField s =
      { s with whereFragment := s.whereFragment ++ filterText filters } := by
  induction filters generalizing s with
  | nil => simp [filterText, concatAll]
  | cons e rest ih =>
    rw [List.foldl_cons, ih, filterField_eq]
    simp [filterText, concatAll, String.append_assoc]

theorem WithFilters_eq (s : SelectDefinition) (filters : GoMap) :
    WithFilters s filters =
      { s with whereFragment := TrimSuffix (s.whereFragment ++ filterText filters) " AND " } := by
  simp [WithFilters, foldl_filterField]

theorem WithProjections_eq (s : SelectDefinition) (projection : List String) :
    WithProjections s projection =
      { s with fieldsFragment :=
          TrimSuffix (s.fieldsFragment ++ projectionText projection) ", " } := by
  have h : ∀ (s : SelectDefinition), projection.foldl
      (fun s field => { s with fieldsFragment := s.fieldsFragment ++ ("`" ++ field ++ "`, ") }) s =
      { s with fieldsFragment := s.fieldsFragment ++ projectionText projection } := by
    induction projection with
    | nil => intro s; simp [projectionText, concatAll]
    | cons f rest ih =>
      intro s
      rw [List.foldl_cons, ih]
      simp [projectionText, concatAll, String.append_assoc]
  simp [WithProjections, h]

theorem foldl_sortEntry (criteria : GoMap) (s : SelectDefinition) :
    criteria.foldl sortEntry s =
      { s with sortOrder := s.sortOrder ++ criteriaText criteria } := by
  induction criteria generalizing s with
  | nil => simp [criteriaText, concatAll]
  | cons e rest ih =>
    rw [List.foldl_cons, ih]
    simp [sortEntry, criteriaText, concatAll, String.append_assoc]

theorem WithSortCriteria_eq (s : SelectDefinition) (sortOrder : List GoMap) :
    WithSortCriteria s sortOrder =
      { s with sortOrder := TrimSuffix (s.sortOrder ++ sortText sortOrder) ", " } := by
  have h : ∀ (s : SelectDefinition),
      sortOrder.foldl (fun s criteria => criteria.foldl sortEntry s) s =
      { s with sortOrder := s.sortOrder ++ sortText sortOrder } := by
    induction sortOrder with
    | nil => intro s; simp [sortText, concatAll]
    | cons c rest ih =>
      intro s
      rw [List.foldl_cons, ih, foldl_sortEntry]
      simp [sortText, concatAll, String.append_assoc]
  simp [WithSortCriteria, h]

/-! ## `Build` in closed form -/

theorem Build_stmt (s : SelectDefinition) :
    (Build s).stmt = TrimRight (bodyText s) " " ++ ";" := by
  simp only [Build, bodyText, clause, selectList]
  by_cases h1 : s.fieldsFragment.length = 0 <;>
  by_cases h2 : s.whereFragment.length > 0 <;>
  by_cases h3 : s.sortOrder.length > 0 <;>
  by_cases h4 : s.limitFragment.length > 0 <;>
  by_cases h5 : s.offsetFragment.length > 0 <;>
  simp [h1, h2, h3, h4, h5, String.append_assoc]

theorem Build_err (s : SelectDefinition) : (Build s).err = none := rfl

theorem Build_state (s : SelectDefinition) :
    (Build s).state =
      { s with
        fieldsFragment := selectList s
        generatedSqlStmt := (Build s).stmt } := by
  simp only [Build, selectList]
  by_cases h1 : s.fieldsFragment.length = 0 <;>
  by_cases h2 : s.whereFragment.length > 0 <;>
  by_cases h3 : s.sortOrder.length > 0 <;>
  by_cases h4 : s.limitFragment.length > 0 <;>
  by_cases h5 : s.offsetFragment.length > 0 <;>
  simp [h1, h2, h3, h4, h5]

/-- A text whose last character is not a blank is left as it is by
`TrimRight _ " "`. -/
theorem TrimRight_of_last (s : String) (init : List Char) (c : Char)
    (hs : s.data = init ++ [c]) (hc : c ≠ ' ') : TrimRight s " " = s := by
  apply String.ext
  simp only [TrimRight]
  rw [hs, List.rdropWhile_concat_neg]
  simpa using hc

/-! ## Decimal rendering -/

theorem digitChar_mem (k : Nat) (hk : k < 10) :
    Nat.digitChar k ∈ ['0', '1', '2', '3', '4', '5', '6', '7', '8', '9'] := by
  interval_cases k <;> decide

theorem toDigitsCore_mem (fuel : Nat) : ∀ (n : Nat) (ds : List Char) (c : Char),
    c ∈ Nat.toDigitsCore 10 fuel n ds →
      c ∈ ds ∨ c ∈ ['0', '1', '2', '3', '4', '5', '6', '7', '8', '9'] := by
  induction fuel with
  | zero => intro n ds c h; left; simpa [Nat.toDigitsCore] using h
  | succ fuel ih =>
    intro n ds c h
    simp only [Nat.toDigitsCore] at h
    have hd := digitChar_mem (n % 10) (Nat.mod_lt _ (by decide))
    split at h
    · rcases List.mem_cons.mp h with h | h
      · right; rw [h]; exact hd
      · left; exact h
    · rcases ih _ _ _ h with h | h
      · rcases List.mem_cons.mp h with h | h
        · right; rw [h]; exact hd
        · left; exact h
      · right; exact h

theorem toDigitsCore_ne_nil (fuel : Nat) : ∀ (n : Nat) (ds : List Char),
    ds ≠ [] ∨ 0 < fuel → Nat.toDigitsCore 10 fuel n ds ≠ [] := by
  induction fuel with
  | zero => intro n ds h; rcases h with h | h
            · simpa [Nat.toDigitsCore] using h
            · exact absurd h (by decide)
  | succ fuel ih =>
    intro n ds _
    simp only [Nat.toDigitsCore]
    split
    · simp
    · exact ih _ _ (Or.inl (by simp))

theorem Nat_repr_mem (n : Nat) (c : Char) (h : c ∈ (Nat.repr n).data) :
    c ∈ ['0', '1', '2', '3', '4', '5', '6', '7', '8', '9'] := by
  simp only [Nat.repr, Nat.toDigits, List.asString] at h
  rcases toDigitsCore_mem _ _ _ _ h with h | h
  · simp at h
  · exact h

theorem Nat_repr_ne_nil (n : Nat) : (Nat.repr n).data ≠ [] := by
  simp only [Nat.repr, Nat.toDigits, List.asString]
  exact toDigitsCore_ne_nil _ _ _ (Or.inr (Nat.succ_pos _))

/-- Every character of a rendered integer is a decimal digit or the sign. -/
theorem fmtD_mem (i : Int) (c : Char) (h : c ∈ (fmtD i).data) :
    c ∈ ['-', '0', '1', '2', '3', '4', '5', '6', '7', '8', '9'] := by
  cases i with
  | ofNat n =>
    have : fmtD (Int.ofNat n) = Nat.repr n := rfl
    rw [this] at h
    exact List.mem_cons_of_mem _ (Nat_repr_mem n c h)
  | negSucc n =>
    have : fmtD (Int.negSucc n) = "-" ++ Nat.repr (n + 1) := rfl
    rw [this, String.data_append] at h
    rcases List.mem_append.mp h with h | h
    · have : c = '-' := by simpa using h
      rw [this]; simp
    · exact List.mem_cons_of_mem _ (Nat_repr_mem _ c h)

theorem fmtD_ne_nil (i : Int) : (fmtD i).data ≠ [] := by
  cases i with
  | ofNat n => exact Nat_repr_ne_nil n
  | negSucc n =>
    have : fmtD (Int.negSucc n) = "-" ++ Nat.repr (n + 1) := rfl
    rw [this, String.data_append]
    simp

theorem fmtD_length_pos (i : Int) : (fmtD i).length > 0 := by
  have := fmtD_ne_nil i
  simp only [String.length]
  exact List.length_pos.mpr this

/-- A rendered integer ends with a character that is not a blank. -/
theorem fmtD_last (i : Int) :
    ∃ init c, (fmtD i).data = init ++ [c] ∧ c ≠ ' ' := by
  have hne := fmtD_ne_nil i
  refine ⟨(fmtD i).data.dropLast, (fmtD i).data.getLast hne, ?_, ?_⟩
  · exact (List.dropLast_append_getLast hne).symm
  · have hmem := fmtD_mem i _ (List.getLast_mem hne)
    intro hc
    rw [hc] at hmem
    revert hmem
    decide

/-! ## Call order (C1) -/

theorem Call_run_comm (filters : GoMap) (projection : List String) (sortOrder : List GoMap)
    (offset limit : Int) (x y : Call)
    (hx : x ∈ [Call.withFilters filters, Call.withProjections projection,
      Call.withSortCriteria sortOrder, Call.withPagination offset limit])
    (hy : y ∈ [Call.withFilters filters, Call.withProjections projection,
      Call.withSortCriteria sortOrder, Call.withPagination offset limit])
    (z : SelectDefinition) : Call.run (Call.run z x) y = Call.run (Call.run z y) x := by
  simp only [List.mem_cons, List.mem_singleton, List.not_mem_nil, or_false] at hx hy
  rcases hx with rfl | rfl | rfl | rfl <;> rcases hy with rfl | rfl | rfl | rfl <;>
    simp [Call.run, WithFilters_eq, WithProjections_eq, WithSortCriteria_eq, WithPagination]

theorem runCalls_canonical (table : String) (filters : GoMap) (projection : List String)
    (sortOrder : List GoMap) (offset limit : Int) :
    runCalls (NewSelectDefinition table)
      [Call.withFilters filters, Call.withProjections projection,
        Call.withSortCriteria sortOrder, Call.withPagination offset limit] =
    { NewSelectDefinition table with
      fieldsFragment := (WithProjections (NewSelectDefinition table) projection).fieldsFragment
      whereFragment := (WithFilters (NewSelectDefinition table) filters).whereFragment
      sortOrder := (WithSortCriteria (NewSelectDefinition table) sortOrder).sortOrder
      limitFragment := fmtD limit
      offsetFragment := fmtD offset } := by
  simp [runCalls, Call.run, WithFilters_eq, WithProjections_eq, WithSortCriteria_eq,
    WithPagination, NewSelectDefinition]

/-- With pagination set, the built statement is the body followed by `;`: the
body ends with a digit, so trimming blanks removes nothing. -/
theorem Build_stmt_paginated (s : SelectDefinition) (offset limit : Int)
    (hl : s.limitFragment = fmtD limit) (ho : s.offsetFragment = fmtD offset) :
    (Build s).stmt =
      "SELECT " ++ selectList s ++ " FROM `" ++ s.table ++ "`" ++
        clause " WHERE " s.whereFragment ++ clause " ORDER BY " s.sortOrder ++
        " LIMIT " ++ fmtD limit ++ " OFFSET " ++ fmtD offset ++ ";" := by
  obtain ⟨init, c, hdata, hc⟩ := fmtD_last offset
  have hbody : bodyText s =
      "SELECT " ++ selectList s ++ " FROM `" ++ s.table ++ "`" ++
        clause " WHERE " s.whereFragment ++ clause " ORDER BY " s.sortOrder ++
        " LIMIT " ++ fmtD limit ++ " OFFSET " ++ fmtD offset := by
    have h1 := fmtD_length_pos limit
    have h2 := fmtD_length_pos offset
    simp [bodyText, clause, hl, ho, h1, h2, String.append_assoc]
  rw [Build_stmt, hbody]
  rw [TrimRight_of_last _ (("SELECT " ++ selectList s ++ " FROM `" ++ s.table ++ "`" ++
        clause " WHERE " s.whereFragment ++ clause " ORDER BY " s.sortOrder ++
        " LIMIT " ++ fmtD limit ++ " OFFSET ").data ++ init) c ?_ hc]
  rw [String.data_append, hdata, List.append_assoc]

/-- C1: the four `With*` calls, applied once each to a fresh builder in any
order (any permutation of the four calls), build the same statement as the
order filters, projections, sort, pagination; and that statement is the clauses
in the fixed order SELECT list FROM table, WHERE, ORDER BY, LIMIT, OFFSET,
closed by `;`. -/
theorem build_independent_of_call_order (table : String) (filters : GoMap)
    (projection : List String) (sortOrder : List GoMap) (offset limit : Int)
    (calls : List Call)
    (h : calls.Perm [Call.withFilters filters, Call.withProjections projection,
      Call.withSortCriteria sortOrder, Call.withPagination offset limit]) :
    (Build (runCalls (NewSelectDefinition table) calls)).stmt =
      (Build (runCalls (NewSelectDefinition table)
        [Call.withFilters filters, Call.withProjections projection,
          Call.withSortCriteria sortOrder, Call.withPagination offset limit])).stmt ∧
    (Build (runCalls (NewSelectDefinition table) calls)).stmt =
      "SELECT " ++ selectList (WithProjections (NewSelectDefinition table) projection) ++
        " FROM `" ++ table ++ "`" ++
        clause " WHERE " (WithFilters (NewSelectDefinition table) filters).whereFragment ++
        clause " ORDER BY " (WithSortCriteria (NewSelectDefinition table) sortOrder).sortOrder ++
        " LIMIT " ++ fmtD limit ++ " OFFSET " ++ fmtD offset ++ ";" := by
  have hstate : runCalls (NewSelectDefinition table) calls =
      runCalls (NewSelectDefinition table)
        [Call.withFilters filters, Call.withProjections projection,
          Call.withSortCriteria sortOrder, Call.withPagination offset limit] := by
    unfold runCalls
    exact (h.symm.foldl_eq' (fun x hx y hy z =>
      Call_run_comm filters projection sortOrder offset limit x y hx hy z) _).symm
  refine ⟨by rw [hstate], ?_⟩
  rw [hstate, runCalls_canonical, Build_stmt_paginated _ offset limit rfl rfl]
  simp [selectList, NewSelectDefinition]

/-- The reverse call order (pagination, sort, projections, filters) on the table
`payments`: it is a permutation of the four calls and builds the expected text. -/
theorem build_independent_of_call_order_witness :
    [Call.withPagination 0 10, Call.withSortCriteria [[("id", Value.str "desc")]],
      Call.withProjections ["id", "amount"],
      Call.withFilters [("amount", Value.obj [("_gt", Value.int 100)])]].Perm
      [Call.withFilters [("amount", Value.obj [("_gt", Value.int 100)])],
        Call.withProjections ["id", "amount"],
        Call.withSortCriteria [[("id", Value.str "desc")]], Call.withPagination 0 10] ∧
    (Build (runCalls (NewSelectDefinition "payments")
      [Call.withPagination 0 10, Call.withSortCriteria [[("id", Value.str "desc")]],
        Call.withProjections ["id", "amount"],
        Call.withFilters [("amount", Value.obj [("_gt", Value.int 100)])]])).stmt =
      "SELECT `id`, `amount` FROM `payments` WHERE `amount` > 100 ORDER BY `id` desc LIMIT 10 OFFSET 0;" :=
  ⟨List.reverse_perm [Call.withFilters [("amount", Value.obj [("_gt", Value.int 100)])],
        Call.withProjections ["id", "amount"],
        Call.withSortCriteria [[("id", Value.str "desc")]], Call.withPagination 0 10],
    (build_independent_of_call_order "payments" [("amount", Value.obj [("_gt", Value.int 100)])]
      ["id", "amount"] [[("id", Value.str "desc")]] 0 10 _
      (List.reverse_perm [Call.withFilters [("amount", Value.obj [("_gt", Value.int 100)])],
        Call.withProjections ["id", "amount"],
        Call.withSortCriteria [[("id", Value.str "desc")]], Call.withPagination 0 10])).2.trans
      (by decide)⟩

/-! ## Idempotence of `Build` (C4) -/

theorem selectList_fixed (s : SelectDefinition) (g : String) :
    selectList { s with fieldsFragment := selectList s, generatedSqlStmt := g } =
      selectList s := by
  by_cases h : s.fieldsFragment.length = 0
  · simp only [selectList, h, if_true]
    rfl
  · simp [selectList, h]

theorem Build_twice (s : SelectDefinition) :
    (Build (Build s).state).stmt = (Build s).stmt := by
  rw [Build_stmt (Build s).state, Build_state, Build_stmt]
  simp only [bodyText]
  rw [selectList_fixed]

/-- C4: for every builder state reached from `NewSelectDefinition` by any
sequence of calls, two calls of `Build` in a row return the same text, both
with a nil error. -/
theorem build_idempotent (table : String) (calls : List Call) :
    (Build (Build (runCalls (NewSelectDefinition table) calls)).state).stmt =
      (Build (runCalls (NewSelectDefinition table) calls)).stmt ∧
    (Build (runCalls (NewSelectDefinition table) calls)).err = none ∧
    (Build (Build (runCalls (NewSelectDefinition table) calls)).state).err = none :=
  ⟨Build_twice _, rfl, rfl⟩

/-! ## The scenario request (C2) -/

/-- C2: for the request
`{ payments(where: {amount: {_gt: 100}}, limit: 10, offset: 0) { id, amount } }`
the decoded arguments are `where = {amount: {_gt: 100}}`, `limit = 10`,
`offset = 0`, the projection is `id, amount`, and `DefaultResolverFn` compiles
exactly the statement of the scenario (and hands the limit 10 to the executor). -/
theorem payments_request_compiles :
    GetArguments paymentsRequest =
      some [("where", Value.obj [("amount", Value.obj [("_gt", Value.int 100)])]),
        ("limit", Value.int 10), ("offset", Value.int 0)] ∧
    GetProjection paymentsRequest = some ["id", "amount"] ∧
    DefaultResolverFn paymentsRequest =
      some ("SELECT `id`, `amount` FROM `payments` WHERE `amount` > 100 LIMIT 10 OFFSET 0;", 10) :=
  ⟨rfl, rfl, by decide⟩

/-! ## The empty projection (C5) -/

theorem TrimSuffix_of_last_ne (s suffix : String) (init init' : List Char) (c d : Char)
    (hs : s.data = init ++ [c]) (hsuf : suffix.data = init' ++ [d]) (hcd : c ≠ d) :
    TrimSuffix s suffix = s := by
  unfold TrimSuffix
  have : suffix.data.isSuffixOf s.data = false := by
    rw [Bool.eq_false_iff]
    intro h
    rw [List.isSuffixOf_iff_suffix, hs, hsuf] at h
    obtain ⟨t, ht⟩ := h
    rw [← List.append_assoc] at ht
    exact hcd (List.append_inj_right' ht rfl |> List.singleton_inj.mp).symm
  simp [this]

theorem TrimRight_keeps_prefix (P R : String) (init : List Char) (c : Char)
    (hP : P.data = init ++ [c]) (hc : c ≠ ' ') :
    HasPrefix (TrimRight (P ++ R) " " ++ ";") P = true := by
  have key : ∀ r : List Char,
      P.data <+: (P.data ++ r).rdropWhile (fun c => (" " : String).data.contains c) := by
    intro r
    induction r using List.reverseRecOn with
    | nil =>
      rw [List.append_nil, hP, List.rdropWhile_concat_neg]
      simpa using hc
    | append_singleton r x ih =>
      rw [← List.append_assoc, List.rdropWhile_concat]
      split
      · exact ih
      · exact (List.prefix_append _ r).trans (List.prefix_append _ _)
  unfold HasPrefix
  rw [List.isPrefixOf_iff_prefix, String.data_append]
  simp only [TrimRight, String.data_append]
  exact (key R.data).trans (List.prefix_append _ _)

theorem joinWith_quoteColumn_last (projection : List String) (h : projection ≠ []) :
    ∃ init, (joinWith ", " (projection.map quoteColumn)).data = init ++ ['`'] := by
  induction projection with
  | nil => exact absurd rfl h
  | cons x rest ih =>
    cases rest with
    | nil => exact ⟨'`' :: x.data, by simp [joinWith, quoteColumn]⟩
    | cons y rest2 =>
      obtain ⟨init, hinit⟩ := ih (by simp)
      refine ⟨(quoteColumn x ++ ", ").data ++ init, ?_⟩
      simp only [List.map_cons, joinWith, String.data_append] at hinit ⊢
      rw [hinit]
      simp

theorem projectionText_eq (projection : List String) (h : projection ≠ []) :
    projectionText projection = joinWith ", " (projection.map quoteColumn) ++ ", " := by
  rw [← concatAll_sep ", " _ (by simpa using h)]
  have : (fun field : String => "`" ++ field ++ "`, ") =
      (fun x => x ++ ", ") ∘ quoteColumn := by
    funext field
    apply String.ext
    simp [quoteColumn]
  rw [projectionText, this, List.map_map]

/-- On a fresh select list, `WithProjections` with a non-empty projection
leaves the quoted columns joined by `", "`. -/
theorem WithProjections_fresh (s : SelectDefinition) (projection : List String)
    (hs : s.fieldsFragment = "") (h : projection ≠ []) :
    (WithProjections s projection).fieldsFragment =
      joinWith ", " (projection.map quoteColumn) := by
  rw [WithProjections_eq]
  simp only [hs, String.empty_append]
  rw [projectionText_eq _ h, TrimSuffix_append]

theorem run_table (c : Call) (s : SelectDefinition) : (c.run s).table = s.table := by
  cases c <;>
    simp [Call.run, WithFilters_eq, WithProjections_eq, WithSortCriteria_eq, WithPagination,
      Build_state]

theorem runCalls_table (calls : List Call) (s : SelectDefinition) :
    (runCalls s calls).table = s.table := by
  induction calls generalizing s with
  | nil => rfl
  | cons c rest ih =>
    simp only [runCalls, List.foldl_cons] at ih ⊢
    rw [ih, run_table]

/-- A select list that is empty or `*` stays empty or `*` under every call that
is not a non-empty `WithProjections`. -/
theorem run_keeps_star (c : Call) (hc : c.isProjecting = false) (s : SelectDefinition)
    (hs : s.fieldsFragment = "" ∨ s.fieldsFragment = "*") :
    (c.run s).fieldsFragment = "" ∨ (c.run s).fieldsFragment = "*" := by
  cases c with
  | withFilters f => simpa [Call.run, WithFilters_eq] using hs
  | withSortCriteria o => simpa [Call.run, WithSortCriteria_eq] using hs
  | withPagination o l => simpa [Call.run, WithPagination] using hs
  | withProjections p =>
    cases p with
    | cons x rest => simp [Call.isProjecting] at hc
    | nil =>
      simp only [Call.run, WithProjections_eq, projectionText, List.map_nil, concatAll,
        String.append_empty]
      rcases hs with hs | hs <;> rw [hs]
      · left; decide
      · right; decide
  | build =>
    right
    simp only [Call.run, Build_state, selectList]
    rcases hs with hs | hs <;> rw [hs] <;> decide

theorem runCalls_keeps_star (calls : List Call) (hc : ∀ c ∈ calls, c.isProjecting = false)
    (s : SelectDefinition) (hs : s.fieldsFragment = "" ∨ s.fieldsFragment = "*") :
    (runCalls s calls).fieldsFragment = "" ∨ (runCalls s calls).fieldsFragment = "*" := by
  induction calls generalizing s with
  | nil => exact hs
  | cons c rest ih =>
    simp only [runCalls, List.foldl_cons] at ih ⊢
    exact ih (fun c hc' => hc c (List.mem_cons_of_mem _ hc')) _
      (run_keeps_star c (hc c (List.mem_cons_self _ _)) s hs)

theorem run_keeps_empty (c : Call) (hc : c.isProjecting = false) (hb : c.isBuild = false)
    (s : SelectDefinition) (hs : s.fieldsFragment = "") : (c.run s).fieldsFragment = "" := by
  cases c with
  | withFilters f => simpa [Call.run, WithFilters_eq] using hs
  | withSortCriteria o => simpa [Call.run, WithSortCriteria_eq] using hs
  | withPagination o l => simpa [Call.run, WithPagination] using hs
  | withProjections p =>
    cases p with
    | cons x rest => simp [Call.isProjecting] at hc
    | nil =>
      simp only [Call.run, WithProjections_eq, projectionText, List.map_nil, concatAll,
        String.append_empty, hs]
      decide
  | build => simp [Call.isBuild] at hb

theorem runCalls_keeps_empty (calls : List Call)
    (hc : ∀ c ∈ calls, c.isProjecting = false ∧ c.isBuild = false)
    (s : SelectDefinition) (hs : s.fieldsFragment = "") :
    (runCalls s calls).fieldsFragment = "" := by
  induction calls generalizing s with
  | nil => exact hs
  | cons c rest ih =>
    simp only [runCalls, List.foldl_cons] at ih ⊢
    exact ih (fun c hc' => hc c (List.mem_cons_of_mem _ hc')) _
      (run_keeps_empty c (hc c (List.mem_cons_self _ _)).1 (hc c (List.mem_cons_self _ _)).2 s hs)

/-- A select list that ends with a backtick is kept by every call that is not
a non-empty `WithProjections`. -/
theorem run_keeps_columns (c : Call) (hc : c.isProjecting = false) (s : SelectDefinition)
    (init : List Char) (hs : s.fieldsFragment.data = init ++ ['`']) :
    (c.run s).fieldsFragment = s.fieldsFragment := by
  cases c with
  | withFilters f => simp [Call.run, WithFilters_eq]
  | withSortCriteria o => simp [Call.run, WithSortCriteria_eq]
  | withPagination o l => simp [Call.run, WithPagination]
  | withProjections p =>
    cases p with
    | cons x rest => simp [Call.isProjecting] at hc
    | nil =>
      simp only [Call.run, WithProjections_eq, projectionText, List.map_nil, concatAll,
        String.append_empty]
      exact TrimSuffix_of_last_ne _ ", " init [','] '`' ' ' hs rfl (by decide)
  | build =>
    simp only [Call.run, Build_state, selectList]
    have : s.fieldsFragment.length ≠ 0 := by simp [String.length, hs]
    simp [this]

theorem runCalls_keeps_columns (calls : List Call) (hc : ∀ c ∈ calls, c.isProjecting = false)
    (s : SelectDefinition) (init : List Char) (hs : s.fieldsFragment.data = init ++ ['`']) :
    (runCalls s calls).fieldsFragment = s.fieldsFragment := by
  induction calls generalizing s with
  | nil => rfl
  | cons c rest ih =>
    simp only [runCalls, List.foldl_cons] at ih ⊢
    have h1 := run_keeps_columns c (hc c (List.mem_cons_self _ _)) s init hs
    rw [ih (fun c hc' => hc c (List.mem_cons_of_mem _ hc')) _ (by rw [h1]; exact hs), h1]

theorem runCalls_append (s : SelectDefinition) (xs ys : List Call) :
    runCalls s (xs ++ ys) = runCalls (runCalls s xs) ys := by
  simp [runCalls]

/-- The built statement starts with `SELECT list FROM table`. -/
theorem Build_stmt_prefix (s : SelectDefinition) :
    HasPrefix (Build s).stmt ("SELECT " ++ selectList s ++ " FROM `" ++ s.table ++ "`") = true := by
  rw [Build_stmt]
  have hbody : bodyText s = ("SELECT " ++ selectList s ++ " FROM `" ++ s.table ++ "`") ++
      (clause " WHERE " s.whereFragment ++ clause " ORDER BY " s.sortOrder ++
        clause " LIMIT " s.limitFragment ++ clause " OFFSET " s.offsetFragment) := by
    simp [bodyText, String.append_assoc]
  rw [hbody]
  exact TrimRight_keeps_prefix _ _
    (("SELECT " ++ selectList s ++ " FROM `" ++ s.table).data) '`'
    (by simp) (by decide)

/-- C5 as stated fails for a projection given to a builder that already has a
select list: after `Build` (which stores `*`) the projection `[id]` gives the
select list `*` followed by the quoted column, and after the projection `[id]`
the projection `[amount]` gives the two quoted columns with nothing between
them, not the quoted columns of the projection joined by `", "`. -/
theorem projection_joins_existing_select_list :
    (Build (runCalls (NewSelectDefinition "payments")
        [Call.build, Call.withProjections ["id"]])).stmt =
      "SELECT *`id` FROM `payments`;" ∧
    (Build (runCalls (NewSelectDefinition "payments")
        [Call.withProjections ["id"], Call.withProjections ["amount"]])).stmt =
      "SELECT `id``amount` FROM `payments`;" ∧
    joinWith ", " (["id"].map quoteColumn) = "`id`" ∧
    joinWith ", " (["amount"].map quoteColumn) = "`amount`" ∧
    joinWith ", " (["id", "amount"].map quoteColumn) = "`id`, `amount`" :=
  ⟨by decide, by decide, by decide, by decide, by decide⟩

/-- C5, amended: on a builder from `NewSelectDefinition T` that received no
`WithProjections` call with a non-empty projection (whatever other calls it
received), `Build` returns a statement that starts with `SELECT * FROM T`
(table name between backticks); and when exactly one `WithProjections` call
carries a non-empty projection, the calls before it being `With*` calls (no
`Build`), the statement starts with `SELECT`, the columns between backticks
joined by `", "` in the given order, then `FROM T`. -/
theorem select_list_rendering (table : String) (calls before after : List Call)
    (projection : List String)
    (hcalls : ∀ c ∈ calls, c.isProjecting = false)
    (hproj : projection ≠ [])
    (hbefore : ∀ c ∈ before, c.isProjecting = false ∧ c.isBuild = false)
    (hafter : ∀ c ∈ after, c.isProjecting = false) :
    HasPrefix (Build (runCalls (NewSelectDefinition table) calls)).stmt
      ("SELECT * FROM `" ++ table ++ "`") = true ∧
    HasPrefix (Build (runCalls (NewSelectDefinition table)
        (before ++ Call.withProjections projection :: after))).stmt
      ("SELECT " ++ joinWith ", " (projection.map quoteColumn) ++ " FROM `" ++ table ++ "`")
      = true := by
  constructor
  · have h := Build_stmt_prefix (runCalls (NewSelectDefinition table) calls)
    have hsel : selectList (runCalls (NewSelectDefinition table) calls) = "*" := by
      rcases runCalls_keeps_star calls hcalls (NewSelectDefinition table) (Or.inl rfl) with h | h
      · simp only [selectList, h]; decide
      · simp only [selectList, h]; decide
    rw [hsel, runCalls_table] at h
    have e : "SELECT " ++ "*" ++ " FROM `" ++ (NewSelectDefinition table).table ++ "`" =
        "SELECT * FROM `" ++ table ++ "`" := by
      apply String.ext
      simp [NewSelectDefinition]
    rw [e] at h
    exact h
  · have h := Build_stmt_prefix (runCalls (NewSelectDefinition table)
      (before ++ Call.withProjections projection :: after))
    obtain ⟨init, hinit⟩ := joinWith_quoteColumn_last projection hproj
    have hmid : (Call.run (runCalls (NewSelectDefinition table) before)
        (Call.withProjections projection)).fieldsFragment =
        joinWith ", " (projection.map quoteColumn) :=
      WithProjections_fresh _ projection
        (runCalls_keeps_empty before hbefore (NewSelectDefinition table) rfl) hproj
    have hfin : (runCalls (NewSelectDefinition table)
        (before ++ Call.withProjections projection :: after)).fieldsFragment =
        joinWith ", " (projection.map quoteColumn) := by
      have : before ++ Call.withProjections projection :: after =
          before ++ [Call.withProjections projection] ++ after := by simp
      rw [this, runCalls_append, runCalls_append]
      have hstep : runCalls (runCalls (NewSelectDefinition table) before)
          [Call.withProjections projection] =
          Call.run (runCalls (NewSelectDefinition table) before)
            (Call.withProjections projection) := rfl
      rw [hstep, runCalls_keeps_columns after hafter _ init (by rw [hmid]; exact hinit), hmid]
    have hsel : selectList (runCalls (NewSelectDefinition table)
        (before ++ Call.withProjections projection :: after)) =
        joinWith ", " (projection.map quoteColumn) := by
      have : (joinWith ", " (projection.map quoteColumn)).length ≠ 0 := by
        simp [String.length, hinit]
      simp only [selectList, hfin, this, if_false]
    rw [hsel, runCalls_table] at h
    exact h

/-- Two concrete builders on the table `payments`: one without projected
columns, one with the projection `id, amount` between other calls. -/
theorem select_list_rendering_witness :
    HasPrefix (Build (runCalls (NewSelectDefinition "payments")
        [Call.withPagination 0 100, Call.withProjections [], Call.build])).stmt
      ("SELECT * FROM `" ++ "payments" ++ "`") = true ∧
    HasPrefix (Build (runCalls (NewSelectDefinition "payments")
        ([Call.withPagination 0 100] ++ Call.withProjections ["id", "amount"] ::
          [Call.withProjections [], Call.build]))).stmt
      ("SELECT " ++ joinWith ", " (["id", "amount"].map quoteColumn) ++ " FROM `" ++
        "payments" ++ "`") = true :=
  select_list_rendering "payments" [Call.withPagination 0 100, Call.withProjections [], Call.build]
    [Call.withPagination 0 100] [Call.withProjections [], Call.build] ["id", "amount"]
    (by decide) (by decide) (by decide) (by decide)

/-! ## The request without sub-selection (C6) -/

/-- C6 as stated fails on the request `{ payments }`: the validation reports
the field without sub-selection, so `graphql.Do` returns the errors and the
resolver is not called; and on a direct call the arguments decode to the empty
map but `GetProjection` dereferences the nil selection set of the field, so
`DefaultResolverFn` compiles no statement either. -/
theorem bare_request_compiles_nothing :
    scalarLeafs "payments" bareRequest.Info.Operation = false ∧
    Do (scalarLeafs "payments") bareRequest = DoOutcome.validationErrors ∧
    GetArguments bareRequest = some [] ∧
    GetProjection bareRequest = none ∧
    DefaultResolverFn bareRequest = none :=
  ⟨by decide, by decide, rfl, rfl, rfl⟩

/-- With a selection set that is present and empty the extraction completes:
empty projection, default pagination, and the statement of the scenario. -/
theorem empty_selection_compiles :
    GetArguments emptySelectionRequest = some [] ∧
    GetProjection emptySelectionRequest = some [] ∧
    DefaultResolverFn emptySelectionRequest =
      some ("SELECT * FROM `payments` LIMIT 100 OFFSET 0;", 100) :=
  ⟨rfl, rfl, by decide⟩

theorem fieldNames_of_no_field (selections : List Selection)
    (h : ∀ selection ∈ selections, selection.isField = false) : fieldNames selections = [] := by
  induction selections with
  | nil => rfl
  | cons selection rest ih =>
    have hrest := ih (fun s hs => h s (List.mem_cons_of_mem _ hs))
    have hhead := h selection (List.mem_cons_self _ _)
    cases selection with
    | Field name arguments selectionSet => simp [Selection.isField] at hhead
    | FragmentSpread name => simpa [fieldNames] using hrest
    | InlineFragment selectionSet => simpa [fieldNames] using hrest

/-- C6, amended: for a request whose top-level field has no arguments and a
sub-selection that is present and names no field (fragment spreads and inline
fragments only), the extraction done by the resolver completes: `GetArguments`
gives the empty map, `GetProjection` the empty projection, the pagination is the
default limit 100 and offset 0, and the compiled statement is exactly
`SELECT * FROM payments LIMIT 100 OFFSET 0;` (table name between backticks);
the rule on sub-selections reports nothing, and when the validation accepts
the request `graphql.Do` has it resolved to that statement. -/
theorem fieldless_selection_compiles (entity : String) (selections : List Selection)
    (hfields : ∀ selection ∈ selections, selection.isField = false) :
    GetArguments (requestOn entity [] selections) = some [] ∧
    GetProjection (requestOn entity [] selections) = some [] ∧
    (extractIntent []).limit = 100 ∧
    (extractIntent []).offset = 0 ∧
    DefaultResolverFn (requestOn entity [] selections) =
      some ("SELECT * FROM `payments` LIMIT 100 OFFSET 0;", 100) ∧
    scalarLeafs entity (requestOn entity [] selections).Info.Operation = true ∧
    (∀ validate : OperationDefinition → Bool,
      validate (requestOn entity [] selections).Info.Operation = true →
      Do validate (requestOn entity [] selections) =
        DoOutcome.resolved (some ("SELECT * FROM `payments` LIMIT 100 OFFSET 0;", 100))) := by
  have hargs : GetArguments (requestOn entity [] selections) = some [] := rfl
  have hproj : GetProjection (requestOn entity [] selections) = some [] := by
    have h : GetProjection (requestOn entity [] selections) =
        some ([] ++ fieldNames selections) := rfl
    rw [h, fieldNames_of_no_field selections hfields]
    rfl
  have hstmt : DefaultResolverFn (requestOn entity [] selections) =
      some ("SELECT * FROM `payments` LIMIT 100 OFFSET 0;", 100) := by
    simp only [DefaultResolverFn, hargs, hproj]
    decide
  have hvalid : scalarLeafs entity (requestOn entity [] selections).Info.Operation = true := by
    simp [scalarLeafs, requestOn]
  refine ⟨hargs, hproj, rfl, rfl, hstmt, hvalid, ?_⟩
  intro validate haccepted
  simp only [Do, haccepted, if_true, hstmt]

/-- The request `{ payments { ...columns } }`, whose sub-selection is one
fragment spread, compiles to the statement of the scenario. -/
theorem fieldless_selection_compiles_witness :
    DefaultResolverFn fragmentOnlyRequest =
      some ("SELECT * FROM `payments` LIMIT 100 OFFSET 0;", 100) ∧
    GetProjection fragmentOnlyRequest = some [] :=
  ⟨(fieldless_selection_compiles "payments" [Selection.FragmentSpread "columns"]
      (by simp [Selection.isField])).2.2.2.2.1,
    (fieldless_selection_compiles "payments" [Selection.FragmentSpread "columns"]
      (by simp [Selection.isField])).2.1⟩

/-! ## Scalar filters (C7) -/

theorem fmtMapBody_last (entries : List (String × String)) :
    ∃ init, (fmtMapBody entries).data = init ++ [']'] :=
  ⟨("map[" ++ joinWith " " ((sortKeys entries).map (fun kv => kv.1 ++ ":" ++ kv.2))).data,
    by simp [fmtMapBody]⟩

/-- A literal ends with a character that is not a blank. -/
theorem sqlLiteral_last (value : Value) :
    ∃ init c, (sqlLiteral value).data = init ++ [c] ∧ c ≠ ' ' := by
  cases value with
  | int v => simpa [sqlLiteral, quoteString, fmtValue] using fmtD_last v
  | str v =>
    exact ⟨Char.ofNat 39 :: v.data, Char.ofNat 39,
      by simp [sqlLiteral, quoteString, fmtValue], by decide⟩
  | bool v =>
    cases v
    · exact ⟨['f', 'a', 'l', 's'], 'e', rfl, by decide⟩
    · exact ⟨['t', 'r', 'u'], 'e', rfl, by decide⟩
  | nil => exact ⟨['<', 'n', 'i', 'l'], '>', rfl, by decide⟩
  | obj fields =>
    obtain ⟨init, h⟩ := fmtMapBody_last (fmtFields Verb.v fields)
    exact ⟨init, ']', by simpa [sqlLiteral, quoteString, fmtValue] using h, by decide⟩
  | list items =>
    exact ⟨("[" ++ joinWith " " (fmtMaps Verb.v items)).data, ']',
      by simp [sqlLiteral, quoteString, fmtValue], by decide⟩

theorem joinWith_last (sep : String) (xs : List String) (hne : xs ≠ [])
    (h : ∀ x ∈ xs, ∃ init c, x.data = init ++ [c] ∧ c ≠ ' ') :
    ∃ init c, (joinWith sep xs).data = init ++ [c] ∧ c ≠ ' ' := by
  induction xs with
  | nil => exact absurd rfl hne
  | cons x rest ih =>
    cases rest with
    | nil => simpa [joinWith] using h x (List.mem_cons_self _ _)
    | cons y rest2 =>
      obtain ⟨init, c, hinit, hc⟩ :=
        ih (by simp) (fun z hz => h z (List.mem_cons_of_mem _ hz))
      refine ⟨(x ++ sep).data ++ init, c, ?_, hc⟩
      simp only [joinWith, String.data_append] at hinit ⊢
      rw [hinit]
      simp

theorem joinWith_head (sep : String) (xs : List String) (hne : xs ≠ []) (c : Char)
    (h : ∀ x ∈ xs, ∃ rest, x.data = c :: rest) :
    ∃ rest, (joinWith sep xs).data = c :: rest := by
  cases xs with
  | nil => exact absurd rfl hne
  | cons x rest =>
    obtain ⟨r, hr⟩ := h x (List.mem_cons_self _ _)
    cases rest with
    | nil => exact ⟨r, by simpa [joinWith] using hr⟩
    | cons y rest2 =>
      exact ⟨r ++ sep.data ++ (joinWith sep (y :: rest2)).data, by
        simp [joinWith, String.data_append, hr]⟩

theorem fieldText_scalar (entry : String × Value) (h : entry.2.isMap = false) :
    fieldText entry = equalityText entry ++ " AND " := by
  obtain ⟨field, condition⟩ := entry
  cases condition <;> first
    | (simp [Value.isMap] at h; done)
    | (apply String.ext; simp [fieldText, equalityText])

theorem filterText_scalar (filters : GoMap) (hne : filters ≠ [])
    (h : ∀ e ∈ filters, e.2.isMap = false) :
    filterText filters = joinWith " AND " (filters.map equalityText) ++ " AND " := by
  rw [← concatAll_sep " AND " _ (by simpa using hne), filterText, List.map_map]
  congr 1
  apply List.map_congr_left
  intro e he
  exact fieldText_scalar e (h e he)

/-- A statement with a predicate and nothing else set: the trimming of `Build`
removes nothing because the predicate ends with a character that is not a
blank. -/
theorem Build_stmt_where (s : SelectDefinition) (init : List Char) (c : Char)
    (hf : s.fieldsFragment = "") (hs : s.sortOrder = "") (hl : s.limitFragment = "")
    (ho : s.offsetFragment = "") (hw : s.whereFragment.data = init ++ [c]) (hc : c ≠ ' ') :
    (Build s).stmt = "SELECT * FROM `" ++ s.table ++ "` WHERE " ++ s.whereFragment ++ ";" := by
  have hpos : s.whereFragment.length > 0 := by simp [String.length, hw]
  have hbody : bodyText s = "SELECT * FROM `" ++ s.table ++ "` WHERE " ++ s.whereFragment := by
    apply String.ext
    simp [bodyText, clause, selectList, hf, hs, hl, ho, hpos]
  rw [Build_stmt, hbody,
    TrimRight_of_last _ (("SELECT * FROM `" ++ s.table ++ "` WHERE ").data ++ init) c ?_ hc]
  rw [String.data_append, hw, List.append_assoc]

/-- C7: for a non-empty filter tree none of whose values is a mapping,
`WithFilters` on a fresh builder leaves as predicate exactly the comparisons
`column = literal` (column between backticks), one per entry in the order the
entries are visited, joined by `" AND "`; the predicate neither starts nor ends
with `" AND "`; and `Build` emits it after `" WHERE "`. -/
theorem scalar_filters_predicate (table : String) (filters : GoMap) (hne : filters ≠ [])
    (hscalar : ∀ e ∈ filters, e.2.isMap = false) :
    (WithFilters (NewSelectDefinition table) filters).whereFragment =
      joinWith " AND " (filters.map equalityText) ∧
    HasPrefix (WithFilters (NewSelectDefinition table) filters).whereFragment " AND " = false ∧
    HasSuffix (WithFilters (NewSelectDefinition table) filters).whereFragment " AND " = false ∧
    (Build (WithFilters (NewSelectDefinition table) filters)).stmt =
      "SELECT * FROM `" ++ table ++ "` WHERE " ++
        joinWith " AND " (filters.map equalityText) ++ ";" ∧
    (Build (WithFilters (NewSelectDefinition table) filters)).err = none := by
  have hpred : (WithFilters (NewSelectDefinition table) filters).whereFragment =
      joinWith " AND " (filters.map equalityText) := by
    rw [WithFilters_eq]
    simp only [NewSelectDefinition, String.empty_append]
    rw [filterText_scalar filters hne hscalar, TrimSuffix_append]
  have hmapne : filters.map equalityText ≠ [] := by simpa using hne
  obtain ⟨init, c, hlast, hc⟩ := joinWith_last " AND " (filters.map equalityText) hmapne
    (by
      intro x hx
      obtain ⟨e, _, rfl⟩ := List.mem_map.mp hx
      obtain ⟨i, c, hi, hc⟩ := sqlLiteral_last e.2
      exact ⟨("`" ++ e.1 ++ "` = ").data ++ i, c, by
        simp only [equalityText, String.data_append, hi, List.append_assoc], hc⟩)
  obtain ⟨rest, hhead⟩ := joinWith_head " AND " (filters.map equalityText) hmapne '`'
    (by
      intro x hx
      obtain ⟨e, _, rfl⟩ := List.mem_map.mp hx
      exact ⟨(e.1 ++ "` = " ++ sqlLiteral e.2).data, by
        simp [equalityText, String.data_append]⟩)
  refine ⟨hpred, ?_, ?_, ?_, rfl⟩
  · rw [hpred, HasPrefix, hhead]
    rfl
  · rw [hpred, HasSuffix, hlast, Bool.eq_false_iff]
    intro h
    rw [List.isSuffixOf_iff_suffix] at h
    obtain ⟨t, ht⟩ := h
    have : (" AND " : String).data = [' ', 'A', 'N', 'D'] ++ [' '] := rfl
    rw [this, ← List.append_assoc] at ht
    exact hc (List.append_inj_right' ht rfl |> List.singleton_inj.mp).symm
  · have hb := Build_stmt_where (WithFilters (NewSelectDefinition table) filters) init c
      (by simp [WithFilters_eq, NewSelectDefinition]) (by simp [WithFilters_eq, NewSelectDefinition])
      (by simp [WithFilters_eq, NewSelectDefinition]) (by simp [WithFilters_eq, NewSelectDefinition])
      (by rw [hpred]; exact hlast) hc
    rw [hb, hpred]
    simp [WithFilters_eq, NewSelectDefinition]

/-- A filter tree with a string, an integer and a boolean value. -/
theorem scalar_filters_predicate_witness :
    (WithFilters (NewSelectDefinition "payments")
      [("status", Value.str "paid"), ("amount", Value.int 100),
        ("refunded", Value.bool false)]).whereFragment =
      "`status` = 'paid' AND `amount` = 100 AND `refunded` = false" ∧
    (Build (WithFilters (NewSelectDefinition "payments")
      [("status", Value.str "paid"), ("amount", Value.int 100),
        ("refunded", Value.bool false)])).stmt =
      "SELECT * FROM `payments` WHERE `status` = 'paid' AND `amount` = 100 AND `refunded` = false;" :=
  ⟨(scalar_filters_predicate "payments"
      [("status", Value.str "paid"), ("amount", Value.int 100), ("refunded", Value.bool false)]
      (by simp) (by decide)).1.trans (by decide),
    (scalar_filters_predicate "payments"
      [("status", Value.str "paid"), ("amount", Value.int 100), ("refunded", Value.bool false)]
      (by simp) (by decide)).2.2.2.1.trans (by decide)⟩

/-! ## Operator filters (C8) -/

theorem recognized_hasPrefix (k : String) (hk : k ∈ recognizedOperators) :
    HasPrefix k "_" = true := by
  simp only [recognizedOperators, List.mem_cons, List.mem_singleton, List.not_mem_nil,
    or_false] at hk
  rcases hk with rfl | rfl | rfl | rfl | rfl | rfl | rfl <;> decide

theorem operatorText_prefixed (field : String) (entry : String × Value)
    (h : HasPrefix entry.1 "_" = true) :
    operatorText field entry = comparisonText field entry ++ " AND " := by
  simp [operatorText, comparisonText, h]

theorem filterText_operators (field : String) (conditionMap : GoMap)
    (h : ∀ e ∈ conditionMap, HasPrefix e.1 "_" = true) (hne : conditionMap ≠ []) :
    filterText [(field, Value.obj conditionMap)] =
      joinWith " AND " (conditionMap.map (comparisonText field)) ++ " AND " := by
  rw [← concatAll_sep " AND " _ (by simpa using hne), List.map_map]
  simp only [filterText, List.map_cons, List.map_nil, concatAll, fieldText, String.append_empty]
  congr 1
  apply List.map_congr_left
  intro e he
  exact operatorText_prefixed field e (h e he)

/-- C8: the seven recognized operator keys map to the symbols `!=`, `>`, `<`,
`>=`, `<=`, `IN`, `=`; for a column `c`, a recognized key `k` and any value `v`
the filter tree `{c: {k: v}}` compiles to the predicate made of the column
between backticks, the symbol of `k` and the literal of `v`; and a mapping with
several recognized keys gives one such comparison per key, joined by
`" AND "`. -/
theorem operator_filters_predicate (table column k : String) (v : Value) (conditionMap : GoMap)
    (hk : k ∈ recognizedOperators)
    (hm : ∀ e ∈ conditionMap, e.1 ∈ recognizedOperators) (hne : conditionMap ≠ []) :
    recognizedOperators = ["_ne", "_gt", "_lt", "_gte", "_lte", "_in", "_eq"] ∧
    (sqlOperator "_ne" = "!=" ∧ sqlOperator "_gt" = ">" ∧ sqlOperator "_lt" = "<" ∧
      sqlOperator "_gte" = ">=" ∧ sqlOperator "_lte" = "<=" ∧ sqlOperator "_in" = "IN" ∧
      sqlOperator "_eq" = "=") ∧
    (WithFilters (NewSelectDefinition table) [(column, Value.obj [(k, v)])]).whereFragment =
      "`" ++ column ++ "` " ++ sqlOperator k ++ " " ++ sqlLiteral v ∧
    (WithFilters (NewSelectDefinition table) [(column, Value.obj conditionMap)]).whereFragment =
      joinWith " AND " (conditionMap.map
        (fun e => "`" ++ column ++ "` " ++ sqlOperator e.1 ++ " " ++ sqlLiteral e.2)) := by
  refine ⟨rfl, by decide, ?_, ?_⟩
  · rw [WithFilters_eq]
    simp only [NewSelectDefinition, String.empty_append]
    rw [filterText_operators column [(k, v)]
      (by intro e he; rw [List.mem_singleton.mp he]; exact recognized_hasPrefix k hk) (by simp),
      TrimSuffix_append]
    simp [joinWith, comparisonText]
  · rw [WithFilters_eq]
    simp only [NewSelectDefinition, String.empty_append]
    rw [filterText_operators column conditionMap
      (fun e he => recognized_hasPrefix e.1 (hm e he)) hne, TrimSuffix_append]
    rfl

/-- A single `_in` comparison and a mapping with three recognized keys. -/
theorem operator_filters_predicate_witness :
    (WithFilters (NewSelectDefinition "payments")
      [("amount", Value.obj [("_in", Value.int 7)])]).whereFragment = "`amount` IN 7" ∧
    (WithFilters (NewSelectDefinition "payments")
      [("amount", Value.obj [("_gte", Value.int 100), ("_lt", Value.int 500),
        ("_ne", Value.str "n/a")])]).whereFragment =
      "`amount` >= 100 AND `amount` < 500 AND `amount` != 'n/a'" :=
  ⟨(operator_filters_predicate "payments" "amount" "_in" (Value.int 7)
      [("_gte", Value.int 100), ("_lt", Value.int 500), ("_ne", Value.str "n/a")]
      (by decide) (by decide) (by simp)).2.2.1.trans (by decide),
    (operator_filters_predicate "payments" "amount" "_in" (Value.int 7)
      [("_gte", Value.int 100), ("_lt", Value.int 500), ("_ne", Value.str "n/a")]
      (by decide) (by decide) (by simp)).2.2.2.trans (by decide)⟩

/-! ## Literals (C9) -/

/-- C9: in the equality path (`filterField` on a value that is not a mapping)
and in the operator path (`filterOperator` on an operator key), a string value
is written as a single quote, the string unchanged, a single quote; an integer
is written as its decimal numeral (digits, with a leading `-` when negative) and
a boolean as `true` or `false`, neither between quotes. The same holds for the
predicate `WithFilters` leaves on a fresh builder. -/
theorem literal_rendering (s : SelectDefinition) (table field operator text : String)
    (i : Int) (b : Bool) (hop : HasPrefix operator "_" = true) :
    ((filterField s (field, Value.str text)).whereFragment =
        s.whereFragment ++ ("`" ++ field ++ "` = '" ++ text ++ "' AND ") ∧
      (filterOperator field s (operator, Value.str text)).whereFragment =
        s.whereFragment ++
          ("`" ++ field ++ "` " ++ sqlOperator operator ++ " '" ++ text ++ "' AND ") ∧
      (WithFilters (NewSelectDefinition table) [(field, Value.str text)]).whereFragment =
        "`" ++ field ++ "` = '" ++ text ++ "'" ∧
      (WithFilters (NewSelectDefinition table)
          [(field, Value.obj [(operator, Value.str text)])]).whereFragment =
        "`" ++ field ++ "` " ++ sqlOperator operator ++ " '" ++ text ++ "'") ∧
    ((filterField s (field, Value.int i)).whereFragment =
        s.whereFragment ++ ("`" ++ field ++ "` = " ++ fmtD i ++ " AND ") ∧
      (filterOperator field s (operator, Value.int i)).whereFragment =
        s.whereFragment ++
          ("`" ++ field ++ "` " ++ sqlOperator operator ++ " " ++ fmtD i ++ " AND ") ∧
      fmtD i = (if i < 0 then "-" ++ Nat.repr i.natAbs else Nat.repr i.natAbs) ∧
      ∀ c ∈ (fmtD i).data, c ∈ ['-', '0', '1', '2', '3', '4', '5', '6', '7', '8', '9']) ∧
    ((filterField s (field, Value.bool b)).whereFragment =
        s.whereFragment ++ ("`" ++ field ++ "` = " ++ fmtBool b ++ " AND ") ∧
      (filterOperator field s (operator, Value.bool b)).whereFragment =
        s.whereFragment ++
          ("`" ++ field ++ "` " ++ sqlOperator operator ++ " " ++ fmtBool b ++ " AND ") ∧
      fmtBool true = "true" ∧ fmtBool false = "false") := by
  refine ⟨⟨?_, ?_, ?_, ?_⟩, ⟨?_, ?_, ?_, fmtD_mem i⟩, ⟨?_, ?_, rfl, rfl⟩⟩
  · rw [filterField_eq]
    simp only [fieldText, sqlLiteral, quoteString, fmtValue]
    congr 1
    apply String.ext
    simp
  · simp only [filterOperator, hop, if_true, quoteString, fmtValue]
    congr 1
    apply String.ext
    simp
  · rw [WithFilters_eq]
    simp only [NewSelectDefinition, String.empty_append]
    have : filterText [(field, Value.str text)] = ("`" ++ field ++ "` = '" ++ text ++ "'") ++ " AND " := by
      apply String.ext
      simp [filterText, concatAll, fieldText, sqlLiteral, quoteString, fmtValue]
    rw [this, TrimSuffix_append]
  · rw [WithFilters_eq]
    simp only [NewSelectDefinition, String.empty_append]
    have : filterText [(field, Value.obj [(operator, Value.str text)])] =
        ("`" ++ field ++ "` " ++ sqlOperator operator ++ " '" ++ text ++ "'") ++ " AND " := by
      apply String.ext
      simp [filterText, concatAll, fieldText, operatorText, hop, sqlLiteral, quoteString,
        fmtValue]
    rw [this, TrimSuffix_append]
  · rw [filterField_eq]
    simp only [fieldText, sqlLiteral, quoteString, fmtValue]
    congr 1
    apply String.ext
    simp
  · simp only [filterOperator, hop, if_true, quoteString, fmtValue]
  · cases i with
    | ofNat n =>
      have h : ¬ (Int.ofNat n < 0) := by simp
      rw [if_neg h]
      rfl
    | negSucc n =>
      have h : Int.negSucc n < 0 := Int.negSucc_lt_zero n
      rw [if_pos h]
      rfl
  · rw [filterField_eq]
    simp only [fieldText, sqlLiteral, quoteString, fmtValue]
    congr 1
    apply String.ext
    simp
  · simp only [filterOperator, hop, if_true, quoteString, fmtValue]

/-- A string value that contains a single quote, backticks and the text
`AND`, in both paths: it is copied between the quotes unchanged. -/
theorem literal_rendering_witness :
    (WithFilters (NewSelectDefinition "payments")
      [("note", Value.str "it's `x` AND 'y'")]).whereFragment =
      "`note` = 'it's `x` AND 'y''" ∧
    (WithFilters (NewSelectDefinition "payments")
      [("note", Value.obj [("_eq", Value.str "it's `x` AND 'y'")])]).whereFragment =
      "`note` = 'it's `x` AND 'y''" :=
  ⟨(literal_rendering (NewSelectDefinition "payments") "payments" "note" "_eq"
      "it's `x` AND 'y'" (-42) true (by decide)).1.2.2.1.trans (by decide),
    (literal_rendering (NewSelectDefinition "payments") "payments" "note" "_eq"
      "it's `x` AND 'y'" (-42) true (by decide)).1.2.2.2.trans (by decide)⟩

/-! ## Keys that are not operators (C10) -/

/-- C10, evaluated on the filter tree `{amount: {_like: 5}}`: the key `_like`
is not in `sqlOperator` but starts with `_`, so `WithFilters` writes a comparison
with an empty operator symbol; the same tree without the key compiles to a
statement without predicate. -/
theorem unrecognized_operator_emitted :
    sqlOperator "_like" = "" ∧
    (Build (WithFilters (NewSelectDefinition "payments")
      [("amount", Value.obj [("_like", Value.int 5)])])).stmt =
      "SELECT * FROM `payments` WHERE `amount`  5;" ∧
    (Build (WithFilters (NewSelectDefinition "payments")
      [("amount", Value.obj [])])).stmt = "SELECT * FROM `payments`;" :=
  ⟨by decide, by decide, by decide⟩

/-- A key of a condition mapping that does not start with `_` is skipped: the
builder state is the one reached from the same filter tree without that
entry. -/
theorem WithFilters_skips_unprefixed (s : SelectDefinition) (before after : GoMap)
    (field key : String) (value : Value) (m1 m2 : GoMap) (h : HasPrefix key "_" = false) :
    WithFilters s (before ++ (field, Value.obj (m1 ++ (key, value) :: m2)) :: after) =
      WithFilters s (before ++ (field, Value.obj (m1 ++ m2)) :: after) := by
  have hop : operatorText field (key, value) = "" := by simp [operatorText, h]
  have hfield : fieldText (field, Value.obj (m1 ++ (key, value) :: m2)) =
      fieldText (field, Value.obj (m1 ++ m2)) := by
    simp only [fieldText, List.map_append, List.map_cons, concatAll_append, concatAll, hop,
      String.empty_append]
  rw [WithFilters_eq, WithFilters_eq]
  simp only [filterText, List.map_append, List.map_cons, hfield]

/-! ## Pagination clauses (C3) -/

/-- C3 as stated fails: a string literal of the filter is copied unescaped, so
with the filter `{note: "LIMIT 10"}` and the pagination (0, 10) the text
`LIMIT 10` occurs twice in the statement. -/
theorem limit_text_occurs_twice :
    (Build (configured "payments" [("note", Value.str "LIMIT 10")] [] [] 0 10)).stmt =
      "SELECT * FROM `payments` WHERE `note` = 'LIMIT 10' LIMIT 10 OFFSET 0;" ∧
    occurrences ("LIMIT " ++ fmtD 10)
      (Build (configured "payments" [("note", Value.str "LIMIT 10")] [] [] 0 10)).stmt = 2 ∧
    occurrences ("LIMIT " ++ fmtD 10)
      (Build (configured "payments" [("note", Value.str "LIMIT 10")] [] [] 0 10)).stmt ≠ 1 :=
  ⟨by decide, by decide, by decide⟩

theorem occurrencesFrom_skip (pat a b : List Char)
    (h : ∀ q, q ≠ [] → q <:+ a → pat.isPrefixOf (q ++ b) = false) :
    occurrencesFrom pat (a ++ b) = occurrencesFrom pat b := by
  induction a with
  | nil => rfl
  | cons c a ih =>
    have h1 : pat.isPrefixOf (c :: (a ++ b)) = false :=
      h (c :: a) (by simp) (List.suffix_refl _)
    have e : occurrencesFrom pat (c :: (a ++ b)) =
        (if pat.isPrefixOf (c :: (a ++ b)) then 1 else 0) + occurrencesFrom pat (a ++ b) := rfl
    rw [List.cons_append, e, h1, ih (fun q hq hs => h q hq (hs.trans (List.suffix_cons c a)))]
    simp

theorem isPrefixOf_head_ne (p c : Char) (ps rest : List Char) (h : c ≠ p) :
    (p :: ps).isPrefixOf (c :: rest) = false := by
  simp [List.isPrefixOf, h.symm]

theorem occurrencesFrom_skip_head (p : Char) (ps a b : List Char) (h : ∀ c ∈ a, c ≠ p) :
    occurrencesFrom (p :: ps) (a ++ b) = occurrencesFrom (p :: ps) b := by
  apply occurrencesFrom_skip
  intro q hq hs
  cases q with
  | nil => exact absurd rfl hq
  | cons c q =>
    exact isPrefixOf_head_ne p c ps _ (h c (hs.subset (List.mem_cons_self _ _)))

theorem occurrencesFrom_zero_of_head (p : Char) (ps s : List Char) (h : ∀ c ∈ s, c ≠ p) :
    occurrencesFrom (p :: ps) s = 0 := by
  have := occurrencesFrom_skip_head p ps s [] h
  simpa [occurrencesFrom] using this

theorem occurrencesFrom_zero_suffix (pat : List Char) :
    ∀ (a : List Char), occurrencesFrom pat a = 0 →
      ∀ q, q ≠ [] → q <:+ a → pat.isPrefixOf q = false := by
  intro a
  induction a with
  | nil =>
    intro _ q hq hs
    exact absurd (List.suffix_nil.mp hs) hq
  | cons c a ih =>
    intro h0 q hq hs
    simp only [occurrencesFrom, Nat.add_eq_zero] at h0
    rcases List.suffix_cons_iff.mp hs with rfl | hs
    · by_contra hp
      have hp' : pat.isPrefixOf (c :: a) = true := by simpa using hp
      simp [hp'] at h0
    · exact ih h0.2 q hq hs

/-- A keyword without blank that does not occur in `a` does not occur across
the end of `a` when a blank follows. -/
theorem no_occurrence_across (K more a rest : List Char) (hK : ' ' ∉ K)
    (h0 : occurrencesFrom K a = 0) (q : List Char) (hq : q ≠ []) (hs : q <:+ a) :
    (K ++ more).isPrefixOf (q ++ ' ' :: rest) = false := by
  rw [Bool.eq_false_iff]
  intro hp
  rw [List.isPrefixOf_iff_prefix] at hp
  have hKp : K <+: q ++ ' ' :: rest := (List.prefix_append K more).trans hp
  have hqp : q <+: q ++ ' ' :: rest := List.prefix_append _ _
  by_cases hlen : K.length ≤ q.length
  · have hKq : K <+: q := List.prefix_of_prefix_length_le hKp hqp hlen
    have := occurrencesFrom_zero_suffix K a h0 q hq hs
    rw [Bool.eq_false_iff] at this
    exact this (List.isPrefixOf_iff_prefix.mpr hKq)
  · have hqK : q <+: K := List.prefix_of_prefix_length_le hqp hKp (by omega)
    obtain ⟨r, hr⟩ := hqK
    rw [← hr, List.prefix_append_right_inj] at hKp
    cases r with
    | nil =>
      rw [List.append_nil] at hr
      rw [hr] at hlen
      exact hlen (Nat.le_refl _)
    | cons x r =>
      have hx : x = ' ' := (List.cons_prefix_cons.mp hKp).1
      apply hK
      rw [← hr, hx]
      simp

theorem fmtD_ne (i : Int) (x : Char)
    (hx : x ∉ ['-', '0', '1', '2', '3', '4', '5', '6', '7', '8', '9']) :
    ∀ c ∈ (fmtD i).data, c ≠ x := by
  intro c hc hcx
  exact hx (hcx ▸ fmtD_mem i c hc)

/-- One occurrence of `LIMIT n` in a statement whose head does not contain the
word `LIMIT`. -/
theorem occurrences_limit (head L O : List Char)
    (h0 : occurrencesFrom ['L', 'I', 'M', 'I', 'T'] head = 0)
    (hL : ∀ c ∈ L, c ≠ 'L') (hO : ∀ c ∈ O, c ≠ 'L') :
    occurrencesFrom ('L' :: 'I' :: 'M' :: 'I' :: 'T' :: ' ' :: L)
      (head ++ ' ' :: ('L' :: 'I' :: 'M' :: 'I' :: 'T' :: ' ' :: L ++
        (' ' :: 'O' :: 'F' :: 'F' :: 'S' :: 'E' :: 'T' :: ' ' :: O ++ [';']))) = 1 := by
  have hskip : occurrencesFrom ('L' :: 'I' :: 'M' :: 'I' :: 'T' :: ' ' :: L)
      (head ++ ' ' :: ('L' :: 'I' :: 'M' :: 'I' :: 'T' :: ' ' :: L ++
        (' ' :: 'O' :: 'F' :: 'F' :: 'S' :: 'E' :: 'T' :: ' ' :: O ++ [';']))) =
      occurrencesFrom ('L' :: 'I' :: 'M' :: 'I' :: 'T' :: ' ' :: L)
        (' ' :: ('L' :: 'I' :: 'M' :: 'I' :: 'T' :: ' ' :: L ++
          (' ' :: 'O' :: 'F' :: 'F' :: 'S' :: 'E' :: 'T' :: ' ' :: O ++ [';']))) :=
    occurrencesFrom_skip _ head _ (fun q hq hs =>
      no_occurrence_across ['L', 'I', 'M', 'I', 'T'] (' ' :: L) head _ (by decide) h0 q hq hs)
  rw [hskip]
  have hpre : ('L' :: 'I' :: 'M' :: 'I' :: 'T' :: ' ' :: L).isPrefixOf
      ('L' :: 'I' :: 'M' :: 'I' :: 'T' :: ' ' :: L ++
        (' ' :: 'O' :: 'F' :: 'F' :: 'S' :: 'E' :: 'T' :: ' ' :: O ++ [';'])) = true :=
    List.isPrefixOf_iff_prefix.mpr (List.prefix_append _ _)
  have hrest : occurrencesFrom ('L' :: 'I' :: 'M' :: 'I' :: 'T' :: ' ' :: L)
      ('I' :: 'M' :: 'I' :: 'T' :: ' ' :: L ++
        (' ' :: 'O' :: 'F' :: 'F' :: 'S' :: 'E' :: 'T' :: ' ' :: O ++ [';'])) = 0 := by
    apply occurrencesFrom_zero_of_head
    intro c hc
    simp only [List.cons_append, List.mem_cons, List.mem_append, List.mem_singleton,
      List.not_mem_nil, or_false] at hc
    rcases hc with rfl | rfl | rfl | rfl | rfl | hc | rfl | rfl | rfl | rfl | rfl | rfl | rfl |
      rfl | hc | rfl
    all_goals first
      | exact hL c hc
      | exact hO c hc
      | decide
  have hblank : ('L' :: 'I' :: 'M' :: 'I' :: 'T' :: ' ' :: L).isPrefixOf
      (' ' :: ('L' :: 'I' :: 'M' :: 'I' :: 'T' :: ' ' :: L ++
        (' ' :: 'O' :: 'F' :: 'F' :: 'S' :: 'E' :: 'T' :: ' ' :: O ++ [';']))) = false :=
    isPrefixOf_head_ne _ _ _ _ (by decide)
  rw [occurrencesFrom, hblank]
  simp only [List.cons_append] at hpre hrest ⊢
  rw [occurrencesFrom, hpre, hrest]
  rfl

/-- One occurrence of `OFFSET n` in a statement whose head does not contain the
word `OFFSET`. -/
theorem occurrences_offset (head L O : List Char)
    (h0 : occurrencesFrom ['O', 'F', 'F', 'S', 'E', 'T'] head = 0)
    (hL : ∀ c ∈ L, c ≠ 'O') (hO : ∀ c ∈ O, c ≠ 'O') :
    occurrencesFrom ('O' :: 'F' :: 'F' :: 'S' :: 'E' :: 'T' :: ' ' :: O)
      (head ++ ' ' :: ('L' :: 'I' :: 'M' :: 'I' :: 'T' :: ' ' :: L ++
        (' ' :: 'O' :: 'F' :: 'F' :: 'S' :: 'E' :: 'T' :: ' ' :: O ++ [';']))) = 1 := by
  have hskip : occurrencesFrom ('O' :: 'F' :: 'F' :: 'S' :: 'E' :: 'T' :: ' ' :: O)
      (head ++ ' ' :: ('L' :: 'I' :: 'M' :: 'I' :: 'T' :: ' ' :: L ++
        (' ' :: 'O' :: 'F' :: 'F' :: 'S' :: 'E' :: 'T' :: ' ' :: O ++ [';']))) =
      occurrencesFrom ('O' :: 'F' :: 'F' :: 'S' :: 'E' :: 'T' :: ' ' :: O)
        (' ' :: ('L' :: 'I' :: 'M' :: 'I' :: 'T' :: ' ' :: L ++
          (' ' :: 'O' :: 'F' :: 'F' :: 'S' :: 'E' :: 'T' :: ' ' :: O ++ [';']))) :=
    occurrencesFrom_skip _ head _ (fun q hq hs =>
      no_occurrence_across ['O', 'F', 'F', 'S', 'E', 'T'] (' ' :: O) head _ (by decide) h0 q hq hs)
  rw [hskip]
  have hsplit : ' ' :: ('L' :: 'I' :: 'M' :: 'I' :: 'T' :: ' ' :: L ++
        (' ' :: 'O' :: 'F' :: 'F' :: 'S' :: 'E' :: 'T' :: ' ' :: O ++ [';'])) =
      (' ' :: 'L' :: 'I' :: 'M' :: 'I' :: 'T' :: ' ' :: L ++ [' ']) ++
        ('O' :: 'F' :: 'F' :: 'S' :: 'E' :: 'T' :: ' ' :: O ++ [';']) := by
    simp
  rw [hsplit, occurrencesFrom_skip_head]
  · have hpre : ('O' :: 'F' :: 'F' :: 'S' :: 'E' :: 'T' :: ' ' :: O).isPrefixOf
        ('O' :: 'F' :: 'F' :: 'S' :: 'E' :: 'T' :: ' ' :: O ++ [';']) = true :=
      List.isPrefixOf_iff_prefix.mpr (List.prefix_append _ _)
    have hrest : occurrencesFrom ('O' :: 'F' :: 'F' :: 'S' :: 'E' :: 'T' :: ' ' :: O)
        ('F' :: 'F' :: 'S' :: 'E' :: 'T' :: ' ' :: O ++ [';']) = 0 := by
      apply occurrencesFrom_zero_of_head
      intro c hc
      simp only [List.cons_append, List.mem_cons, List.mem_append, List.mem_singleton,
        List.not_mem_nil, or_false] at hc
      rcases hc with rfl | rfl | rfl | rfl | rfl | rfl | hc | rfl
      all_goals first
        | exact hO c hc
        | decide
    simp only [List.cons_append] at hpre hrest ⊢
    rw [occurrencesFrom, hpre, hrest]
    rfl
  · intro c hc
    simp only [List.cons_append, List.mem_cons, List.mem_append, List.mem_singleton,
      List.not_mem_nil, or_false] at hc
    rcases hc with rfl | rfl | rfl | rfl | rfl | rfl | rfl | hc | rfl
    all_goals first
      | exact hL c hc
      | decide

theorem configured_pagination (table : String) (filters : GoMap) (projection : List String)
    (sortOrder : List GoMap) (offset limit : Int) :
    (configured table filters projection sortOrder offset limit).limitFragment = fmtD limit ∧
    (configured table filters projection sortOrder offset limit).offsetFragment = fmtD offset := by
  simp [configured, WithSortCriteria_eq, WithProjections_eq, WithPagination]

theorem statement_data (head L O : String) :
    (head ++ " LIMIT " ++ L ++ " OFFSET " ++ O ++ ";").data =
      head.data ++ ' ' :: ('L' :: 'I' :: 'M' :: 'I' :: 'T' :: ' ' :: L.data ++
        (' ' :: 'O' :: 'F' :: 'F' :: 'S' :: 'E' :: 'T' :: ' ' :: O.data ++ [';'])) := by
  simp [String.data_append]

/-- C3, amended: for every table name, filter tree, projection, sort
specification, offset and limit (the non-negative ones included), the statement
built with `WithPagination(offset, limit)` is the text of the SELECT, FROM,
WHERE and ORDER BY clauses, which is the same as without pagination, followed
by exactly the tail `LIMIT limit OFFSET offset;` (a blank before each keyword);
and when the text before the tail contains neither the word `LIMIT` nor the
word `OFFSET`, the statement contains exactly one occurrence of `LIMIT limit`
and exactly one occurrence of `OFFSET offset`. -/
theorem pagination_tail (table : String) (filters : GoMap) (projection : List String)
    (sortOrder : List GoMap) (offset limit : Int) :
    (Build (configured table filters projection sortOrder offset limit)).stmt =
      headText (configured table filters projection sortOrder offset limit) ++
        " LIMIT " ++ fmtD limit ++ " OFFSET " ++ fmtD offset ++ ";" ∧
    headText (configured table filters projection sortOrder offset limit) =
      headText (WithSortCriteria (WithProjections
        (WithFilters (NewSelectDefinition table) filters) projection) sortOrder) ∧
    (occurrences "LIMIT" (headText (configured table filters projection sortOrder offset limit))
        = 0 →
      occurrences ("LIMIT " ++ fmtD limit)
        (Build (configured table filters projection sortOrder offset limit)).stmt = 1) ∧
    (occurrences "OFFSET" (headText (configured table filters projection sortOrder offset limit))
        = 0 →
      occurrences ("OFFSET " ++ fmtD offset)
        (Build (configured table filters projection sortOrder offset limit)).stmt = 1) := by
  have hstmt : (Build (configured table filters projection sortOrder offset limit)).stmt =
      headText (configured table filters projection sortOrder offset limit) ++
        " LIMIT " ++ fmtD limit ++ " OFFSET " ++ fmtD offset ++ ";" := by
    rw [Build_stmt_paginated _ offset limit
      (configured_pagination table filters projection sortOrder offset limit).1
      (configured_pagination table filters projection sortOrder offset limit).2]
    rfl
  refine ⟨hstmt, ?_, ?_, ?_⟩
  · simp [headText, selectList, configured, WithSortCriteria_eq, WithProjections_eq,
      WithPagination, WithFilters_eq]
  · intro h0
    rw [hstmt]
    unfold occurrences at h0 ⊢
    rw [statement_data]
    exact occurrences_limit _ _ _ h0 (fmtD_ne limit 'L' (by decide))
      (fmtD_ne offset 'L' (by decide))
  · intro h0
    rw [hstmt]
    unfold occurrences at h0 ⊢
    rw [statement_data]
    exact occurrences_offset _ _ _ h0 (fmtD_ne limit 'O' (by decide))
      (fmtD_ne offset 'O' (by decide))

/-- A full request on the table `payments`: the head contains neither keyword,
and each pagination clause occurs once. -/
theorem pagination_tail_witness :
    (Build (configured "payments" [("amount", Value.obj [("_gt", Value.int 100)])]
      ["id", "amount"] [[("id", Value.str "desc")]] 0 10)).stmt =
      "SELECT `id`, `amount` FROM `payments` WHERE `amount` > 100 ORDER BY `id` desc LIMIT 10 OFFSET 0;" ∧
    occurrences ("LIMIT " ++ fmtD 10)
      (Build (configured "payments" [("amount", Value.obj [("_gt", Value.int 100)])]
        ["id", "amount"] [[("id", Value.str "desc")]] 0 10)).stmt = 1 ∧
    occurrences ("OFFSET " ++ fmtD 0)
      (Build (configured "payments" [("amount", Value.obj [("_gt", Value.int 100)])]
        ["id", "amount"] [[("id", Value.str "desc")]] 0 10)).stmt = 1 :=
  ⟨(pagination_tail "payments" [("amount", Value.obj [("_gt", Value.int 100)])]
      ["id", "amount"] [[("id", Value.str "desc")]] 0 10).1.trans (by decide),
    (pagination_tail "payments" [("amount", Value.obj [("_gt", Value.int 100)])]
      ["id", "amount"] [[("id", Value.str "desc")]] 0 10).2.2.1 (by decide),
    (pagination_tail "payments" [("amount", Value.obj [("_gt", Value.int 100)])]
      ["id", "amount"] [[("id", Value.str "desc")]] 0 10).2.2.2 (by decide)⟩

/-! ## Sort criteria (C11) -/

/-- C11 as stated fails at two edges: for the empty sort specification `Build`
emits no `ORDER BY` at all, and a last direction that is empty (or ends with a
blank) loses its trailing blank, because `Build` trims the end of the statement:
`[{id: ""}]` gives `ORDER BY` followed by the column and `;` with no blank
between them. -/
theorem order_by_edge_cases :
    (Build (WithSortCriteria (WithFilters (NewSelectDefinition "payments") [])
      (singleEntryMaps []))).stmt = "SELECT * FROM `payments`;" ∧
    joinWith ", " ([("id", Value.str "")].map sortPair) = "`id` " ∧
    (Build (WithSortCriteria (WithFilters (NewSelectDefinition "payments") [])
      (singleEntryMaps [("id", Value.str "")]))).stmt = "SELECT * FROM `payments` ORDER BY `id`;" ∧
    (Build (WithSortCriteria (WithFilters (NewSelectDefinition "payments") [])
      (singleEntryMaps [("id", Value.str "")]))).stmt ≠
      "SELECT * FROM `payments`" ++ " ORDER BY " ++
        joinWith ", " ([("id", Value.str "")].map sortPair) ++ ";" :=
  ⟨by decide, by decide, by decide, by decide⟩

theorem sortText_singleEntryMaps (spec : List (String × Value)) :
    sortText (singleEntryMaps spec) = concatAll ((spec.map sortPair).map (fun x => x ++ ", ")) := by
  simp only [sortText, singleEntryMaps, List.map_map]
  congr 1
  apply List.map_congr_left
  intro e _
  simp [criteriaText, concatAll, sortPair]

/-- The sort order `WithSortCriteria` leaves on a builder without sort order,
for a sequence of single-entry mappings: the pairs joined by `", "`. -/
theorem WithSortCriteria_singleEntryMaps (s : SelectDefinition) (spec : List (String × Value))
    (hs : s.sortOrder = "") :
    (WithSortCriteria s (singleEntryMaps spec)).sortOrder =
      joinWith ", " (spec.map sortPair) := by
  rw [WithSortCriteria_eq]
  simp only [hs, String.empty_append]
  rw [sortText_singleEntryMaps]
  cases spec with
  | nil => decide
  | cons e rest => rw [concatAll_sep ", " _ (by simp), TrimSuffix_append]

theorem last_not_blank (s : String) (init : List Char) (c : Char)
    (hs : s.data = init ++ [c]) (h : HasSuffix s " " = false) : c ≠ ' ' := by
  intro hc
  rw [HasSuffix, hs, hc, Bool.eq_false_iff] at h
  apply h
  rw [List.isSuffixOf_iff_suffix]
  exact List.suffix_append init [' ']

/-- C11, amended: for a sort specification given as a sequence of single-entry
mappings, `WithSortCriteria` on a fresh builder (empty filter tree) leaves as
sort order the pairs column between backticks, blank, direction, joined by
`", "` in the order of the sequence (duplicates kept, a string direction copied
as it is); when the sequence is not empty `Build` emits `ORDER BY` followed by
that text right after the table name, with no `WHERE` clause, the blanks at the
very end of the statement being trimmed before `;` (nothing is trimmed when the
text does not end with a blank); when the sequence is empty `Build` emits no
`ORDER BY` clause. -/
theorem sort_criteria_rendering (table : String) (spec : List (String × Value)) :
    (WithSortCriteria (WithFilters (NewSelectDefinition table) []) (singleEntryMaps spec)).sortOrder
      = joinWith ", " (spec.map sortPair) ∧
    (∀ column direction : String,
      sortPair (column, Value.str direction) = "`" ++ column ++ "` " ++ direction) ∧
    (spec ≠ [] →
      (Build (WithSortCriteria (WithFilters (NewSelectDefinition table) [])
        (singleEntryMaps spec))).stmt =
        TrimRight ("SELECT * FROM `" ++ table ++ "`" ++ " ORDER BY " ++
          joinWith ", " (spec.map sortPair)) " " ++ ";") ∧
    (spec ≠ [] → HasSuffix (joinWith ", " (spec.map sortPair)) " " = false →
      (Build (WithSortCriteria (WithFilters (NewSelectDefinition table) [])
        (singleEntryMaps spec))).stmt =
        "SELECT * FROM `" ++ table ++ "`" ++ " ORDER BY " ++
          joinWith ", " (spec.map sortPair) ++ ";") ∧
    (spec = [] →
      (Build (WithSortCriteria (WithFilters (NewSelectDefinition table) [])
        (singleEntryMaps spec))).stmt = "SELECT * FROM `" ++ table ++ "`" ++ ";") := by
  have hfresh : WithFilters (NewSelectDefinition table) [] = NewSelectDefinition table := by
    rw [WithFilters_eq]
    simp only [NewSelectDefinition, filterText, List.map_nil, concatAll, String.append_empty]
    have : TrimSuffix "" " AND " = "" := by decide
    rw [this]
  have hsort := WithSortCriteria_singleEntryMaps (NewSelectDefinition table) spec rfl
  have hstate : WithSortCriteria (NewSelectDefinition table) (singleEntryMaps spec) =
      { NewSelectDefinition table with sortOrder := joinWith ", " (spec.map sortPair) } := by
    rw [← hsort, WithSortCriteria_eq]
  have hbody : spec ≠ [] →
      bodyText { NewSelectDefinition table with sortOrder := joinWith ", " (spec.map sortPair) } =
        "SELECT * FROM `" ++ table ++ "`" ++ " ORDER BY " ++
          joinWith ", " (spec.map sortPair) := by
    intro hne
    obtain ⟨rest, hrest⟩ := joinWith_head ", " (spec.map sortPair) (by simpa using hne) '`'
      (by
        intro x hx
        obtain ⟨e, _, rfl⟩ := List.mem_map.mp hx
        exact ⟨(e.1 ++ "` " ++ fmtValue Verb.s e.2).data, by simp [sortPair, String.data_append]⟩)
    have hpos : (joinWith ", " (spec.map sortPair)).length > 0 := by
      simp [String.length, hrest]
    apply String.ext
    simp [bodyText, clause, selectList, NewSelectDefinition, hpos]
  rw [hfresh]
  refine ⟨hsort, fun _ _ => rfl, ?_, ?_, ?_⟩
  · intro hne
    rw [hstate, Build_stmt, hbody hne]
  · intro hne hblank
    rw [hstate, Build_stmt, hbody hne]
    have hne' : (("SELECT * FROM `" ++ table ++ "`" ++ " ORDER BY " ++
        joinWith ", " (spec.map sortPair)).data) ≠ [] := by simp
    have hlast := List.dropLast_append_getLast hne'
    have hjoin : (joinWith ", " (spec.map sortPair)).data ≠ [] := by
      obtain ⟨rest, hrest⟩ := joinWith_head ", " (spec.map sortPair) (by simpa using hne) '`'
        (by
          intro x hx
          obtain ⟨e, _, rfl⟩ := List.mem_map.mp hx
          exact ⟨(e.1 ++ "` " ++ fmtValue Verb.s e.2).data, by
            simp [sortPair, String.data_append]⟩)
      simp [hrest]
    have hc := last_not_blank (joinWith ", " (spec.map sortPair)) _ _
      (List.dropLast_append_getLast hjoin).symm hblank
    have hsame : (("SELECT * FROM `" ++ table ++ "`" ++ " ORDER BY " ++
        joinWith ", " (spec.map sortPair)).data).getLast hne' =
        (joinWith ", " (spec.map sortPair)).data.getLast hjoin := by
      simp only [String.data_append]
      rw [List.getLast_append_of_ne_nil]
    rw [TrimRight_of_last _ _ _ hlast.symm (by rw [hsame]; exact hc)]
  · intro hnil
    subst hnil
    rw [hstate, Build_stmt]
    have : bodyText { NewSelectDefinition table with
        sortOrder := joinWith ", " (([] : List (String × Value)).map sortPair) } =
        "SELECT * FROM `" ++ table ++ "`" := by
      apply String.ext
      simp [bodyText, clause, selectList, NewSelectDefinition, joinWith]
    rw [this, TrimRight_of_last _ ("SELECT * FROM `" ++ table).data '`' (by simp) (by decide)]

/-- The scenario of C11: `order_by [{id: "desc"}]` with no filter. The statement
contains `ORDER BY` with the pair and no `WHERE`. -/
theorem sort_criteria_rendering_witness :
    (Build (WithSortCriteria (WithFilters (NewSelectDefinition "payments") [])
      (singleEntryMaps [("id", Value.str "desc")]))).stmt =
      "SELECT * FROM `payments` ORDER BY `id` desc;" ∧
    occurrences "ORDER BY `id` desc"
      (Build (WithSortCriteria (WithFilters (NewSelectDefinition "payments") [])
        (singleEntryMaps [("id", Value.str "desc")]))).stmt = 1 ∧
    occurrences "WHERE"
      (Build (WithSortCriteria (WithFilters (NewSelectDefinition "payments") [])
        (singleEntryMaps [("id", Value.str "desc")]))).stmt = 0 :=
  ⟨((sort_criteria_rendering "payments" [("id", Value.str "desc")]).2.2.2.1
      (by simp) (by decide)).trans (by decide),
    by decide, by decide⟩

/-! ## Integer literals (C12) -/

/-- C12 as stated fails for a numeral outside the 64-bit range: the text
`9223372036854775808` (2^63) is a numeral, `strconv.ParseInt` returns the
largest 64-bit integer together with the range error, and `scalarArg` keeps
that value, not 0. -/
theorem out_of_range_literal_clamped :
    numeralValue "9223372036854775808" = some 9223372036854775808 ∧
    ParseInt "9223372036854775808" = (9223372036854775807, some NumError.ErrRange) ∧
    scalarArg (AstValue.IntValue "9223372036854775808") =
      Decoded.ok (Value.int 9223372036854775807) ∧
    (9223372036854775807 : Int) ≠ 0 :=
  ⟨by decide, by decide, rfl, by decide⟩

theorem maxUint64_eq : maxUint64 = 18446744073709551615 := by decide

theorem digitsValue_ge (ds : List Char) : ∀ n, n ≤ digitsValue ds n := by
  induction ds with
  | nil => intro n; exact Nat.le_refl n
  | cons c rest ih =>
    intro n
    have := ih (n * 10 + (c.toNat - '0'.toNat))
    simp only [digitsValue]
    omega

theorem digitVal_of_isSome (c : Char) (h : (digitVal c).isSome = true) :
    digitVal c = some (c.toNat - '0'.toNat) := by
  unfold digitVal at h ⊢
  split
  · rfl
  · rename_i hc
    rw [if_neg hc] at h
    simp at h

theorem digitVal_le (c : Char) (d : Nat) (h : digitVal c = some d) : d ≤ 9 := by
  unfold digitVal at h
  split at h
  · rename_i hc
    have h9 : '9'.toNat = 57 := by decide
    have h0 : '0'.toNat = 48 := by decide
    simp only [Option.some.injEq] at h
    omega
  · simp at h

/-- The digit loop on a text of digits: the value of the digits, or the range
error with the largest `uint64` when that value does not fit. -/
theorem parseUintLoop_digits (ds : List Char) : ∀ n, n ≤ maxUint64 → allDigits ds = true →
    parseUintLoop ds n =
      if digitsValue ds n ≤ maxUint64 then (digitsValue ds n, none)
      else (maxUint64, some NumError.ErrRange) := by
  induction ds with
  | nil =>
    intro n hn _
    simp only [parseUintLoop, digitsValue]
    rw [if_pos hn]
  | cons c rest ih =>
    intro n hn h
    simp only [allDigits, Bool.and_eq_true] at h
    have hd := digitVal_of_isSome c h.1
    have hge := digitsValue_ge rest (n * 10 + (c.toNat - '0'.toNat))
    simp only [parseUintLoop, hd, digitsValue]
    rw [maxUint64_eq] at *
    by_cases h1 : n ≥ 18446744073709551615 / 10 + 1
    · rw [if_pos h1, if_neg (by omega)]
    · rw [if_neg h1]
      by_cases h2 : n * 10 + (c.toNat - '0'.toNat) > 18446744073709551615
      · rw [if_pos h2, if_neg (by omega)]
      · rw [if_neg h2]
        exact ih (n * 10 + (c.toNat - '0'.toNat)) (by omega) h.2

theorem ParseInt_cons (s : String) (c : Char) (rest : List Char) (h : s.data = c :: rest)
    (un : Nat) (e : Option NumError)
    (hu : ParseUint (if c = '+' ∨ c = '-' then rest else c :: rest) = (un, e)) :
    ParseInt s =
      if e = some NumError.ErrSyntax then (0, some NumError.ErrSyntax)
      else if ¬ c = '-' ∧ un ≥ 2 ^ 63 then ((2 : Int) ^ 63 - 1, some NumError.ErrRange)
      else if c = '-' ∧ un > 2 ^ 63 then (-(2 : Int) ^ 63, some NumError.ErrRange)
      else if c = '-' then (-(un : Int), none)
      else ((un : Int), none) := by
  simp only [ParseInt, h, hu]
  cases e with
  | none => simp
  | some x => cases x <;> simp

/-- On a numeral, `ParseUint` gets the digits after the sign and returns their
value, or the range error when the value does not fit 64 bits. -/
theorem ParseUint_digits (ds : List Char) (hne : ds ≠ []) (h : allDigits ds = true) :
    ParseUint ds =
      if digitsValue ds 0 ≤ maxUint64 then (digitsValue ds 0, none)
      else (maxUint64, some NumError.ErrRange) := by
  cases ds with
  | nil => exact absurd rfl hne
  | cons c rest =>
    simp only [ParseUint]
    exact parseUintLoop_digits (c :: rest) 0 (Nat.zero_le _) h

theorem numeralValue_cases (s : String) (n : Int) (h : numeralValue s = some n) :
    ∃ c rest, s.data = c :: rest ∧
      (if c = '+' ∨ c = '-' then rest else c :: rest) ≠ [] ∧
      allDigits (if c = '+' ∨ c = '-' then rest else c :: rest) = true ∧
      n = (if c = '-' then
          -(digitsValue (if c = '+' ∨ c = '-' then rest else c :: rest) 0 : Int)
        else (digitsValue (if c = '+' ∨ c = '-' then rest else c :: rest) 0 : Int)) := by
  unfold numeralValue at h
  cases hs : s.data with
  | nil => rw [hs] at h; simp at h
  | cons c rest =>
    rw [hs] at h
    have h2 : (if (if c = '+' ∨ c = '-' then rest else c :: rest) ≠ [] ∧
        allDigits (if c = '+' ∨ c = '-' then rest else c :: rest) = true then
        some (if c = '-' then
            -(digitsValue (if c = '+' ∨ c = '-' then rest else c :: rest) 0 : Int)
          else (digitsValue (if c = '+' ∨ c = '-' then rest else c :: rest) 0 : Int))
        else none) = some n := h
    by_cases hcond : (if c = '+' ∨ c = '-' then rest else c :: rest) ≠ [] ∧
        allDigits (if c = '+' ∨ c = '-' then rest else c :: rest) = true
    · rw [if_pos hcond] at h2
      exact ⟨c, rest, rfl, hcond.1, hcond.2, (Option.some.inj h2).symm⟩
    · rw [if_neg hcond] at h2
      simp at h2

/-- C12, amended: `scalarArg` returns without error on integer and string
literals; for an integer literal with text `s`: when `s` is a base-10 numeral
within the signed 64-bit range the decoded value is that integer; when `s` is a
numeral outside that range the decoded value is the nearest bound, 2^63 - 1 or
-2^63; and whenever parsing fails, the decoded value is 0 for a syntax error and
one of those two bounds for a range error. -/
theorem integer_literal_decoding (s : String) :
    (∀ n : Int, numeralValue s = some n → -(2 : Int) ^ 63 ≤ n → n < (2 : Int) ^ 63 →
      ParseInt s = (n, none) ∧
      scalarArg (AstValue.IntValue s) = Decoded.ok (Value.int n)) ∧
    (∀ n : Int, numeralValue s = some n → (2 : Int) ^ 63 ≤ n →
      ParseInt s = ((2 : Int) ^ 63 - 1, some NumError.ErrRange) ∧
      scalarArg (AstValue.IntValue s) = Decoded.ok (Value.int ((2 : Int) ^ 63 - 1))) ∧
    (∀ n : Int, numeralValue s = some n → n < -(2 : Int) ^ 63 →
      ParseInt s = (-(2 : Int) ^ 63, some NumError.ErrRange) ∧
      scalarArg (AstValue.IntValue s) = Decoded.ok (Value.int (-(2 : Int) ^ 63))) ∧
    ((ParseInt s).2 = some NumError.ErrSyntax →
      scalarArg (AstValue.IntValue s) = Decoded.ok (Value.int 0)) ∧
    ((ParseInt s).2 = some NumError.ErrRange →
      scalarArg (AstValue.IntValue s) = Decoded.ok (Value.int ((2 : Int) ^ 63 - 1)) ∨
      scalarArg (AstValue.IntValue s) = Decoded.ok (Value.int (-(2 : Int) ^ 63))) ∧
    (∀ text : String, scalarArg (AstValue.StringValue text) = Decoded.ok (Value.str text)) := by
  have key : ∀ n : Int, numeralValue s = some n →
      ∃ (c : Char) (V : Nat), n = (if c = '-' then -(V : Int) else (V : Int)) ∧
        ParseInt s =
          if ¬ c = '-' ∧ min V maxUint64 ≥ 2 ^ 63 then
            ((2 : Int) ^ 63 - 1, some NumError.ErrRange)
          else if c = '-' ∧ min V maxUint64 > 2 ^ 63 then
            (-(2 : Int) ^ 63, some NumError.ErrRange)
          else if c = '-' then (-((min V maxUint64 : Nat) : Int), none)
          else (((min V maxUint64 : Nat) : Int), none) := by
    intro n hn
    obtain ⟨c, rest, hs, hne, hall, hval⟩ := numeralValue_cases s n hn
    refine ⟨c, digitsValue (if c = '+' ∨ c = '-' then rest else c :: rest) 0, hval, ?_⟩
    have hu := ParseUint_digits _ hne hall
    by_cases hfit : digitsValue (if c = '+' ∨ c = '-' then rest else c :: rest) 0 ≤ maxUint64
    · rw [if_pos hfit] at hu
      rw [ParseInt_cons s c rest hs _ _ hu, Nat.min_eq_left hfit]
      simp
    · rw [if_neg hfit] at hu
      rw [ParseInt_cons s c rest hs _ _ hu, Nat.min_eq_right (by omega)]
      simp
  have hscalar : scalarArg (AstValue.IntValue s) = Decoded.ok (Value.int (ParseInt s).1) := rfl
  refine ⟨?_, ?_, ?_, ?_, ?_, fun _ => rfl⟩
  · intro n hn hlo hhi
    obtain ⟨c, V, hval, hp⟩ := key n hn
    have hparse : ParseInt s = (n, none) := by
      rw [hp, maxUint64_eq]
      by_cases hc : c = '-'
      · simp only [hc, if_true] at hval
        have : min V 18446744073709551615 = V := by omega
        rw [this, if_neg (by simp [hc]), if_neg (by omega), if_pos hc, hval]
      · simp only [hc, if_false] at hval
        have : min V 18446744073709551615 = V := by omega
        rw [this, if_neg (by omega), if_neg (by simp [hc]), if_neg hc, hval]
    exact ⟨hparse, by rw [hscalar, hparse]⟩
  · intro n hn hhi
    obtain ⟨c, V, hval, hp⟩ := key n hn
    have hparse : ParseInt s = ((2 : Int) ^ 63 - 1, some NumError.ErrRange) := by
      rw [hp, maxUint64_eq]
      by_cases hc : c = '-'
      · simp only [hc, if_true] at hval
        omega
      · simp only [hc, if_false] at hval
        rw [if_pos ⟨hc, by omega⟩]
    exact ⟨hparse, by rw [hscalar, hparse]⟩
  · intro n hn hlo
    obtain ⟨c, V, hval, hp⟩ := key n hn
    have hparse : ParseInt s = (-(2 : Int) ^ 63, some NumError.ErrRange) := by
      rw [hp, maxUint64_eq]
      by_cases hc : c = '-'
      · simp only [hc, if_true] at hval
        rw [if_neg (by simp [hc]), if_pos ⟨hc, by omega⟩]
      · simp only [hc, if_false] at hval
        omega
    exact ⟨hparse, by rw [hscalar, hparse]⟩
  · intro herr
    rw [hscalar]
    cases hs : s.data with
    | nil =>
      have : ParseInt s = (0, some NumError.ErrSyntax) := by simp only [ParseInt, hs]
      rw [this]
    | cons c rest =>
      have hp := ParseInt_cons s c rest hs _ _ (rfl : ParseUint _ = (_, _))
      rw [hp] at herr ⊢
      split_ifs at herr ⊢ <;> first
        | rfl
        | (simp at herr)
  · intro herr
    rw [hscalar]
    cases hs : s.data with
    | nil =>
      have : ParseInt s = (0, some NumError.ErrSyntax) := by simp only [ParseInt, hs]
      rw [this] at herr
      simp at herr
    | cons c rest =>
      have hp := ParseInt_cons s c rest hs _ _ (rfl : ParseUint _ = (_, _))
      rw [hp] at herr ⊢
      split_ifs at herr ⊢ <;> first
        | (left; rfl)
        | (right; rfl)
        | (simp at herr)

/-- Three integer literals: a numeral in range, the numeral 2^63 and a text that
is not a numeral. -/
theorem integer_literal_decoding_witness :
    scalarArg (AstValue.IntValue "-42") = Decoded.ok (Value.int (-42)) ∧
    scalarArg (AstValue.IntValue "9223372036854775808") =
      Decoded.ok (Value.int ((2 : Int) ^ 63 - 1)) ∧
    scalarArg (AstValue.IntValue "12x") = Decoded.ok (Value.int 0) :=
  ⟨((integer_literal_decoding "-42").1 (-42) (by decide) (by decide) (by decide)).2,
    ((integer_literal_decoding "9223372036854775808").2.1 9223372036854775808
      (by decide) (by decide)).2,
    (integer_literal_decoding "12x").2.2.2.1 (by decide)⟩

/-! ## Object literals (C13) -/

/-- C13 as stated fails for a sub-field that holds a list or a float literal:
`objectValueArg` has no case for these kinds and drops the sub-field, so the key
set of the result misses its name. -/
theorem list_and_float_subfields_dropped :
    objectValueArg (AstValue.ObjectValue
      [("_in", AstValue.ListValue [AstValue.IntValue "1", AstValue.IntValue "2"])]) = some [] ∧
    objectValueArg (AstValue.ObjectValue
      [("_gt", AstValue.FloatValue "1.5"), ("_lt", AstValue.IntValue "3")]) =
      some [("_lt", Value.int 3)] :=
  ⟨rfl, rfl⟩

theorem GoMap_get?_set_self (m : GoMap) (k : String) (v : Value) :
    (GoMap.set m k v).get? k = some v := by
  induction m with
  | nil => simp [GoMap.set, GoMap.get?]
  | cons e rest ih =>
    obtain ⟨k', v'⟩ := e
    by_cases h : k' = k
    · simp [GoMap.set, GoMap.get?, h]
    · simp only [GoMap.set, h, if_false, GoMap.get?]
      exact ih

theorem GoMap_get?_set_ne (m : GoMap) (k k2 : String) (v : Value) (hk : k2 ≠ k) :
    (GoMap.set m k v).get? k2 = GoMap.get? m k2 := by
  induction m with
  | nil => simp [GoMap.set, GoMap.get?, Ne.symm hk]
  | cons e rest ih =>
    obtain ⟨k', v'⟩ := e
    by_cases h : k' = k
    · subst h
      simp [GoMap.set, GoMap.get?, Ne.symm hk]
    · simp only [GoMap.set, h, if_false, GoMap.get?]
      rw [ih]

theorem LoopSpec_nil (acc : GoMap) : LoopSpec [] acc acc := by
  refine ⟨fun k => ?_, fun _ _ => rfl, fun _ name value h => ?_⟩
  · simp
  · simp at h

theorem LoopSpec_skip (name : String) (value : AstValue) (rest : List (String × AstValue))
    (acc m : GoMap) (hskip : value.isDecodedKind = false) (h : LoopSpec rest acc m) :
    LoopSpec ((name, value) :: rest) acc m := by
  obtain ⟨hA, hB, hC⟩ := h
  refine ⟨fun k => ?_, fun k hk => ?_, fun hnd n v hmem hkept => ?_⟩
  · rw [hA k]
    constructor
    · rintro (h | ⟨v, hv, hkept⟩)
      · exact Or.inl h
      · exact Or.inr ⟨v, List.mem_cons_of_mem _ hv, hkept⟩
    · rintro (h | ⟨v, hv, hkept⟩)
      · exact Or.inl h
      · rcases List.mem_cons.mp hv with heq | hv
        · have : v = value := (Prod.mk.inj heq).2
          rw [this, hskip] at hkept
          exact absurd hkept (by simp)
        · exact Or.inr ⟨v, hv, hkept⟩
  · exact hB k (fun v hv => hk v (List.mem_cons_of_mem _ hv))
  · rcases List.mem_cons.mp hmem with heq | hmem
    · have : v = value := (Prod.mk.inj heq).2
      rw [this, hskip] at hkept
      exact absurd hkept (by simp)
    · exact hC (List.nodup_cons.mp hnd).2 n v hmem hkept

theorem LoopSpec_kept (name : String) (value : AstValue) (d : Value)
    (rest : List (String × AstValue)) (acc m : GoMap) (hkept : value.isDecodedKind = true)
    (hd : decodedAs value (some d)) (h : LoopSpec rest (GoMap.set acc name d) m) :
    LoopSpec ((name, value) :: rest) acc m := by
  obtain ⟨hA, hB, hC⟩ := h
  refine ⟨fun k => ?_, fun k hk => ?_, fun hnd n v hmem hkv => ?_⟩
  · rw [hA k]
    by_cases hkn : k = name
    · subst hkn
      rw [GoMap_get?_set_self]
      constructor
      · intro _
        exact Or.inr ⟨value, List.mem_cons_self _ _, hkept⟩
      · intro _
        exact Or.inl rfl
    · rw [GoMap_get?_set_ne _ _ _ _ hkn]
      constructor
      · rintro (h | ⟨v, hv, hkv⟩)
        · exact Or.inl h
        · exact Or.inr ⟨v, List.mem_cons_of_mem _ hv, hkv⟩
      · rintro (h | ⟨v, hv, hkv⟩)
        · exact Or.inl h
        · rcases List.mem_cons.mp hv with heq | hv
          · exact absurd (Prod.mk.inj heq).1 hkn
          · exact Or.inr ⟨v, hv, hkv⟩
  · have hkn : k ≠ name := by
      intro hkn
      have := hk value (by rw [hkn]; exact List.mem_cons_self _ _)
      rw [hkept] at this
      exact absurd this (by simp)
    rw [hB k (fun v hv => hk v (List.mem_cons_of_mem _ hv)), GoMap_get?_set_ne _ _ _ _ hkn]
  · have hnd' := List.nodup_cons.mp hnd
    rcases List.mem_cons.mp hmem with heq | hmem
    · obtain ⟨hn, hv⟩ := Prod.mk.inj heq
      subst hn hv
      have hnone : ∀ w, (n, w) ∈ rest → w.isDecodedKind = false := by
        intro w hw
        exact absurd (List.mem_map_of_mem Prod.fst hw) hnd'.1
      rw [hB n hnone, GoMap_get?_set_self]
      exact hd
    · exact hC hnd'.2 n v hmem hkv

/-- The loop of `objectValueArg` returns a map (it does not panic) on sub-fields
free of boolean literals, and the map meets `LoopSpec`. -/
theorem objectValueLoop_spec : ∀ (n : Nat) (fields : List (String × AstValue)),
    sizeOf fields ≤ n → booleanFreeFields fields = true →
    ∀ acc : GoMap, ∃ m, objectValueLoop fields acc = some m ∧ LoopSpec fields acc m := by
  intro n
  induction n with
  | zero =>
    intro fields hsize _ acc
    cases fields with
    | nil => exact ⟨acc, by simp [objectValueLoop], LoopSpec_nil acc⟩
    | cons e rest => simp at hsize
  | succ n ih =>
    intro fields hsize hfree acc
    cases fields with
    | nil => exact ⟨acc, by simp [objectValueLoop], LoopSpec_nil acc⟩
    | cons e rest =>
      obtain ⟨name, value⟩ := e
      simp only [booleanFreeFields, Bool.and_eq_true] at hfree
      have hrest : sizeOf rest ≤ n := by
        simp only [List.cons.sizeOf_spec] at hsize
        omega
      cases value with
      | ObjectValue sub =>
        have hsub : sizeOf sub ≤ n := by
          simp only [List.cons.sizeOf_spec, Prod.mk.sizeOf_spec,
            AstValue.ObjectValue.sizeOf_spec] at hsize
          omega
        have hfsub : booleanFreeFields sub = true := by
          simpa [AstValue.booleanFree] using hfree.1
        obtain ⟨d, hd, _⟩ := ih sub hsub hfsub []
        obtain ⟨m, hm, hspec⟩ := ih rest hrest hfree.2 (GoMap.set acc name (Value.obj d))
        refine ⟨m, ?_, LoopSpec_kept name _ (Value.obj d) rest acc m rfl ?_ hspec⟩
        · simp only [objectValueLoop, objectValueArg, hd]
          exact hm
        · exact ⟨d, by simp only [objectValueArg, hd], rfl⟩
      | IntValue text =>
        obtain ⟨m, hm, hspec⟩ := ih rest hrest hfree.2
          (GoMap.set acc name (Value.int (ParseInt text).1))
        refine ⟨m, ?_, LoopSpec_kept name _ _ rest acc m rfl rfl hspec⟩
        simp only [objectValueLoop, scalarArg]
        exact hm
      | StringValue text =>
        obtain ⟨m, hm, hspec⟩ := ih rest hrest hfree.2 (GoMap.set acc name (Value.str text))
        refine ⟨m, ?_, LoopSpec_kept name _ _ rest acc m rfl rfl hspec⟩
        simp only [objectValueLoop, scalarArg]
        exact hm
      | BooleanValue b => simp [AstValue.booleanFree] at hfree
      | Variable v =>
        obtain ⟨m, hm, hspec⟩ := ih rest hrest hfree.2 acc
        exact ⟨m, by simp only [objectValueLoop]; exact hm,
          LoopSpec_skip name _ rest acc m rfl hspec⟩
      | FloatValue v =>
        obtain ⟨m, hm, hspec⟩ := ih rest hrest hfree.2 acc
        exact ⟨m, by simp only [objectValueLoop]; exact hm,
          LoopSpec_skip name _ rest acc m rfl hspec⟩
      | EnumValue v =>
        obtain ⟨m, hm, hspec⟩ := ih rest hrest hfree.2 acc
        exact ⟨m, by simp only [objectValueLoop]; exact hm,
          LoopSpec_skip name _ rest acc m rfl hspec⟩
      | ListValue v =>
        obtain ⟨m, hm, hspec⟩ := ih rest hrest hfree.2 acc
        exact ⟨m, by simp only [objectValueLoop]; exact hm,
          LoopSpec_skip name _ rest acc m rfl hspec⟩

/-- C13, amended: for every object literal without boolean literals among its
sub-fields (at any depth of nested objects), `objectValueArg` returns a mapping
whose key set is exactly the set of the names of the sub-fields that hold an
object, integer or string literal; a sub-field that holds a float, enum, list
or variable is dropped. When the sub-field names are pairwise distinct, each key
is mapped to the decoded value of its sub-field: the mapping `objectValueArg`
returns for a nested object literal, the value `scalarArg` returns for an
integer or string literal; and the name of a dropped sub-field has no entry. -/
theorem object_literal_decoding (fields : List (String × AstValue))
    (hfree : booleanFreeFields fields = true) :
    ∃ m, objectValueArg (AstValue.ObjectValue fields) = some m ∧
      (∀ k, (GoMap.get? m k).isSome = true ↔
        ∃ v, (k, v) ∈ fields ∧ v.isDecodedKind = true) ∧
      ((fields.map Prod.fst).Nodup → ∀ name value, (name, value) ∈ fields →
        (∀ sub, value = AstValue.ObjectValue sub →
          ∃ d, objectValueArg value = some d ∧ GoMap.get? m name = some (Value.obj d)) ∧
        (∀ text, value = AstValue.IntValue text →
          scalarArg value = Decoded.ok (Value.int (ParseInt text).1) ∧
          GoMap.get? m name = some (Value.int (ParseInt text).1)) ∧
        (∀ text, value = AstValue.StringValue text →
          scalarArg value = Decoded.ok (Value.str text) ∧
          GoMap.get? m name = some (Value.str text)) ∧
        (value.isDecodedKind = false → GoMap.get? m name = none)) := by
  obtain ⟨m, hm, hA, hB, hC⟩ := objectValueLoop_spec (sizeOf fields) fields (Nat.le_refl _) hfree []
  refine ⟨m, by simp only [objectValueArg]; exact hm, fun k => ?_, ?_⟩
  · rw [hA k]
    simp [GoMap.get?]
  · intro hnd name value hmem
    refine ⟨?_, ?_, ?_, ?_⟩
    · intro sub hv
      subst hv
      exact hC hnd name _ hmem rfl
    · intro text hv
      subst hv
      exact ⟨rfl, hC hnd name _ hmem rfl⟩
    · intro text hv
      subst hv
      exact ⟨rfl, hC hnd name _ hmem rfl⟩
    · intro hskip
      have hnone : ∀ w, (name, w) ∈ fields → w.isDecodedKind = false := by
        intro w hw
        have hnames : (fields.map Prod.fst).Nodup := hnd
        by_contra hne
        have hw' : w = value := by
          by_contra hwv
          have hinj : ∀ (l : List (String × AstValue)), (l.map Prod.fst).Nodup →
              (name, w) ∈ l → (name, value) ∈ l → w = value := by
            intro l
            induction l with
            | nil => intro _ h _; simp at h
            | cons e rest ih =>
              intro hn h1 h2
              obtain ⟨hnot, hn'⟩ := List.nodup_cons.mp hn
              rcases List.mem_cons.mp h1 with e1 | h1
              · rcases List.mem_cons.mp h2 with e2 | h2
                · exact (Prod.mk.inj (e1.trans e2.symm)).2
                · rw [← e1] at hnot
                  exact absurd (List.mem_map_of_mem Prod.fst h2) hnot
              · rcases List.mem_cons.mp h2 with e2 | h2
                · rw [← e2] at hnot
                  exact absurd (List.mem_map_of_mem Prod.fst h1) hnot
                · exact ih hn' h1 h2
          exact hwv (hinj fields hnames hw hmem)
        rw [hw', hskip] at hne
        exact hne rfl
      rw [hB name hnone]
      rfl

/-- An object literal with a nested object, a string and a dropped float
sub-field. -/
theorem object_literal_decoding_witness :
    objectValueArg (AstValue.ObjectValue
        [("amount", AstValue.ObjectValue [("_gt", AstValue.IntValue "100")]),
          ("status", AstValue.StringValue "paid"),
          ("rate", AstValue.FloatValue "1.5")]) =
      some [("amount", Value.obj [("_gt", Value.int 100)]), ("status", Value.str "paid")] ∧
    GoMap.get? [("amount", Value.obj [("_gt", Value.int 100)]), ("status", Value.str "paid")]
      "status" = some (Value.str "paid") ∧
    GoMap.get? [("amount", Value.obj [("_gt", Value.int 100)]), ("status", Value.str "paid")]
      "rate" = none := by
  obtain ⟨m, hm, _, hvals⟩ := object_literal_decoding
    [("amount", AstValue.ObjectValue [("_gt", AstValue.IntValue "100")]),
      ("status", AstValue.StringValue "paid"),
      ("rate", AstValue.FloatValue "1.5")] (by decide)
  have hnd : (([("amount", AstValue.ObjectValue [("_gt", AstValue.IntValue "100")]),
      ("status", AstValue.StringValue "paid"),
      ("rate", AstValue.FloatValue "1.5")] : List (String × AstValue)).map Prod.fst).Nodup := by
    decide
  have hval : objectValueArg (AstValue.ObjectValue
        [("amount", AstValue.ObjectValue [("_gt", AstValue.IntValue "100")]),
          ("status", AstValue.StringValue "paid"),
          ("rate", AstValue.FloatValue "1.5")]) =
      some [("amount", Value.obj [("_gt", Value.int 100)]), ("status", Value.str "paid")] := rfl
  have hmeq : m = [("amount", Value.obj [("_gt", Value.int 100)]), ("status", Value.str "paid")] :=
    Option.some.inj (hm.symm.trans hval)
  subst hmeq
  refine ⟨hval, ?_, ?_⟩
  · exact ((hvals hnd "status" (AstValue.StringValue "paid")
      (List.mem_cons_of_mem _ (List.mem_cons_self _ _))).2.2.1 _ rfl).2
  · exact (hvals hnd "rate" (AstValue.FloatValue "1.5")
      (List.mem_cons_of_mem _ (List.mem_cons_of_mem _ (List.mem_cons_self _ _)))).2.2.2 rfl

/-! ## The projection (C14) -/

/-- C14, evaluated on a request with two top-level fields: the sub-fields of the
first field are `id` alone, but `GetProjection` ranges over every top-level
selection and also returns the sub-field of the second one. -/
theorem projection_merges_top_level_fields :
    GetProjection twoFieldsRequest = some ["id", "amount"] ∧
    fieldNames [Selection.Field "id" [] none] = ["id"] ∧
    DefaultResolverFn twoFieldsRequest =
      some ("SELECT `id`, `amount` FROM `payments` LIMIT 100 OFFSET 0;", 100) :=
  ⟨rfl, rfl, by decide⟩

/-- With a single top-level field the projection is the names of the fields
directly under it, in source order (fragments under it are skipped). -/
theorem GetProjection_single (name : String) (arguments : List (String × AstValue))
    (selections : List Selection) :
    GetProjection { Info := { Operation := { SelectionSet := some (
      [Selection.Field name arguments (some selections)]) } } } =
      some (fieldNames selections) := by
  simp [GetProjection, projectionLoop]

/-! ## The entity name (C15) -/

/-- C15: for a document whose first operation has its selection set (every
parsed document), `getEntityName` returns the name of the first selection of the
first definition when that definition is an operation whose first selection is
a field, and the empty string in every other case; `Query` returns the error
`no entity in query`, before the schema lookup, exactly when that name is the
empty string, and goes on to the schema lookup with the name otherwise. -/
theorem entity_name (document : Document) (hparsed : firstSelectionSetPresent document = true) :
    ∃ entity, getEntityName document = some entity ∧
      (∀ operation rest name arguments sub more,
        document.Definitions = Definition.Operation operation :: rest →
        operation.SelectionSet = some (Selection.Field name arguments sub :: more) →
        entity = name) ∧
      ((¬ ∃ operation rest name arguments sub more,
          document.Definitions = Definition.Operation operation :: rest ∧
          operation.SelectionSet = some (Selection.Field name arguments sub :: more)) →
        entity = "") ∧
      (Query (Except.ok document) = some (QueryOutcome.failed "no entity in query") ↔
        entity = "") ∧
      (entity ≠ "" → Query (Except.ok document) = some (QueryOutcome.schemaLookup entity)) ∧
      (∀ err, Query (Except.error err) = some (QueryOutcome.parseError err)) := by
  have hquery : ∀ entity, getEntityName document = some entity →
      (Query (Except.ok document) = some (QueryOutcome.failed "no entity in query") ↔
        entity = "") ∧
      (entity ≠ "" → Query (Except.ok document) = some (QueryOutcome.schemaLookup entity)) ∧
      (∀ err, Query (Except.error err) = some (QueryOutcome.parseError err)) := by
    intro entity he
    refine ⟨?_, ?_, fun _ => rfl⟩
    · simp only [Query, he]
      by_cases h : entity = "" <;> simp [h]
    · intro h
      simp [Query, he, h]
  obtain ⟨defs⟩ := document
  cases defs with
  | nil =>
    refine ⟨"", rfl, ?_, fun _ => rfl, hquery "" rfl⟩
    intro op rest name args sub more h
    simp at h
  | cons d rest =>
    cases d with
    | Fragment n =>
      refine ⟨"", rfl, ?_, fun _ => rfl, hquery "" rfl⟩
      intro op rest name args sub more h
      simp at h
    | Other =>
      refine ⟨"", rfl, ?_, fun _ => rfl, hquery "" rfl⟩
      intro op rest name args sub more h
      simp at h
    | Operation op =>
      obtain ⟨sel⟩ := op
      cases sel with
      | none => simp [firstSelectionSetPresent] at hparsed
      | some selections =>
        cases selections with
        | nil =>
          refine ⟨"", rfl, ?_, fun _ => rfl, hquery "" rfl⟩
          intro op rest name args sub more h1 h2
          simp only [List.cons.injEq, Definition.Operation.injEq] at h1
          rw [← h1.1] at h2
          simp at h2
        | cons first more =>
          cases first with
          | Field name args sub =>
            refine ⟨name, rfl, ?_, ?_, hquery name rfl⟩
            · intro op rest name2 args2 sub2 more2 h1 h2
              simp only [List.cons.injEq, Definition.Operation.injEq] at h1
              rw [← h1.1] at h2
              simp only [Option.some.injEq, List.cons.injEq, Selection.Field.injEq] at h2
              exact h2.1.1
            · intro hno
              exact absurd ⟨_, _, _, _, _, _, rfl, rfl⟩ hno
          | FragmentSpread n =>
            refine ⟨"", rfl, ?_, fun _ => rfl, hquery "" rfl⟩
            intro op rest name args sub more h1 h2
            simp only [List.cons.injEq, Definition.Operation.injEq] at h1
            rw [← h1.1] at h2
            simp at h2
          | InlineFragment s =>
            refine ⟨"", rfl, ?_, fun _ => rfl, hquery "" rfl⟩
            intro op rest name args sub more h1 h2
            simp only [List.cons.injEq, Definition.Operation.injEq] at h1
            rw [← h1.1] at h2
            simp at h2

/-- The document of `{ payments { id } }` names the entity `payments`, and
`Query` goes on to the schema lookup. -/
theorem entity_name_witness :
    getEntityName { Definitions := [Definition.Operation { SelectionSet := some (
      [Selection.Field "payments" [] (some [Selection.Field "id" [] none])]) }] } =
      some "payments" ∧
    Query (Except.ok { Definitions := [Definition.Operation { SelectionSet := some (
      [Selection.Field "payments" [] (some [Selection.Field "id" [] none])]) }] }) =
      some (QueryOutcome.schemaLookup "payments") := by
  obtain ⟨entity, he, hname, _, _, hgo, _⟩ := entity_name
    { Definitions := [Definition.Operation { SelectionSet := some (
      [Selection.Field "payments" [] (some [Selection.Field "id" [] none])]) }] } rfl
  have hentity : entity = "payments" := hname _ _ _ _ _ _ rfl rfl
  subst hentity
  exact ⟨he, hgo (by decide)⟩

/-! ## The pagination pair (C16) -/

/-- C16 as stated fails: integer literals may carry a minus sign and
`DefaultResolverFn` checks no sign, so `{ payments(limit: -5, offset: -1) { id } }`
passes the limit -5 and the offset -1 to `WithPagination`. -/
theorem negative_pagination_passed_on :
    GetArguments negativePaginationRequest =
      some [("limit", Value.int (-5)), ("offset", Value.int (-1))] ∧
    (extractIntent [("limit", Value.int (-5)), ("offset", Value.int (-1))]).limit = -5 ∧
    (extractIntent [("limit", Value.int (-5)), ("offset", Value.int (-1))]).offset = -1 ∧
    DefaultResolverFn negativePaginationRequest =
      some ("SELECT `id` FROM `payments` LIMIT -5 OFFSET -1;", -5) :=
  ⟨rfl, rfl, rfl, by decide⟩

theorem ParseInt_nonneg (s : String) (h : s.data.head? ≠ some '-') : 0 ≤ (ParseInt s).1 := by
  cases hs : s.data with
  | nil =>
    have : ParseInt s = (0, some NumError.ErrSyntax) := by simp only [ParseInt, hs]
    rw [this]
  | cons c rest =>
    have hc : c ≠ '-' := by
      intro hc
      rw [hs, hc] at h
      exact h rfl
    generalize hu : ParseUint (if c = '+' ∨ c = '-' then rest else c :: rest) = r
    obtain ⟨un, e⟩ := r
    rw [ParseInt_cons s c rest hs un e hu]
    split_ifs with h1 h2 h3
    · exact Int.le_refl 0
    · show (0 : Int) ≤ 2 ^ 63 - 1
      decide
    · exact absurd h3.1 hc
    · exact Int.ofNat_nonneg un

theorem nonNegativeInts_set (m : GoMap) (k : String) (v : Value) (hm : nonNegativeInts m)
    (hv : ∀ i, v = Value.int i → 0 ≤ i) : nonNegativeInts (GoMap.set m k v) := by
  intro k2 i hget
  by_cases hk : k2 = k
  · subst hk
    rw [GoMap_get?_set_self] at hget
    exact hv i (Option.some.inj hget)
  · rw [GoMap_get?_set_ne _ _ _ _ hk] at hget
    exact hm k2 i hget

/-- The loop of `GetArguments` keeps the integers of the map non-negative when
no integer literal among the arguments carries a minus sign. -/
theorem argumentsLoop_nonNegative (arguments : List (String × AstValue)) :
    ∀ (acc m : GoMap),
      (∀ name text, (name, AstValue.IntValue text) ∈ arguments →
        text.data.head? ≠ some '-') →
      nonNegativeInts acc → argumentsLoop arguments acc = some m → nonNegativeInts m := by
  induction arguments with
  | nil =>
    intro acc m _ hacc h
    simp only [argumentsLoop, Option.some.injEq] at h
    rw [← h]
    exact hacc
  | cons e rest ih =>
    intro acc m hsign hacc h
    obtain ⟨name, value⟩ := e
    have hrest : ∀ name text, (name, AstValue.IntValue text) ∈ rest →
        text.data.head? ≠ some '-' :=
      fun n t hm => hsign n t (List.mem_cons_of_mem _ hm)
    cases value with
    | ObjectValue fields =>
      simp only [argumentsLoop] at h
      cases hd : objectValueArg (AstValue.ObjectValue fields) with
      | none => rw [hd] at h; simp at h
      | some d =>
        rw [hd] at h
        exact ih _ m hrest (nonNegativeInts_set acc name _ hacc (fun i hi => by simp at hi)) h
    | ListValue values =>
      simp only [argumentsLoop] at h
      cases hd : listValueArg values with
      | none => rw [hd] at h; simp at h
      | some d =>
        rw [hd] at h
        exact ih _ m hrest (nonNegativeInts_set acc name _ hacc (fun i hi => by simp at hi)) h
    | IntValue text =>
      simp only [argumentsLoop, scalarArg] at h
      refine ih _ m hrest (nonNegativeInts_set acc name _ hacc (fun i hi => ?_)) h
      rw [← Value.int.inj hi]
      exact ParseInt_nonneg text (hsign name text (List.mem_cons_self _ _))
    | StringValue text =>
      simp only [argumentsLoop, scalarArg] at h
      exact ih _ m hrest (nonNegativeInts_set acc name _ hacc (fun i hi => by simp at hi)) h
    | BooleanValue b => simp [argumentsLoop, scalarArg] at h
    | Variable v =>
      simp only [argumentsLoop] at h
      exact ih _ m hrest hacc h
    | FloatValue v =>
      simp only [argumentsLoop] at h
      exact ih _ m hrest hacc h
    | EnumValue v =>
      simp only [argumentsLoop] at h
      exact ih _ m hrest hacc h

/-- C16, amended: the pagination pair `DefaultResolverFn` passes to
`WithPagination` is the decoded integer argument `offset` (0 when it is absent
or not an integer) and the decoded integer argument `limit` (100 likewise),
with no sign check; for every request none of whose integer literal arguments
carries a minus sign it satisfies offset >= 0 and limit >= 0. -/
theorem pagination_pair (params : ResolveParams) (arguments : GoMap)
    (projection : List String)
    (hargs : GetArguments params = some arguments)
    (hproj : GetProjection params = some projection) :
    DefaultResolverFn params =
      some ((Build (configured "payments" (extractIntent arguments).filter projection
        (extractIntent arguments).orderBy (extractIntent arguments).offset
        (extractIntent arguments).limit)).stmt, (extractIntent arguments).limit) ∧
    (∀ v, GoMap.get? arguments "limit" = some (Value.int v) →
      (extractIntent arguments).limit = v) ∧
    ((∀ v, GoMap.get? arguments "limit" ≠ some (Value.int v)) →
      (extractIntent arguments).limit = 100) ∧
    (∀ v, GoMap.get? arguments "offset" = some (Value.int v) →
      (extractIntent arguments).offset = v) ∧
    ((∀ v, GoMap.get? arguments "offset" ≠ some (Value.int v)) →
      (extractIntent arguments).offset = 0) ∧
    ((∀ name fieldArguments sub rest text argument,
        params.Info.Operation.SelectionSet =
          some (Selection.Field name fieldArguments sub :: rest) →
        (argument, AstValue.IntValue text) ∈ fieldArguments →
        text.data.head? ≠ some '-') →
      0 ≤ (extractIntent arguments).offset ∧ 0 ≤ (extractIntent arguments).limit) := by
  have hlimit : ∀ v, GoMap.get? arguments "limit" = some (Value.int v) →
      (extractIntent arguments).limit = v := by
    intro v hv
    simp [extractIntent, hv]
  have hoffset : ∀ v, GoMap.get? arguments "offset" = some (Value.int v) →
      (extractIntent arguments).offset = v := by
    intro v hv
    simp [extractIntent, hv]
  have hlimit0 : (∀ v, GoMap.get? arguments "limit" ≠ some (Value.int v)) →
      (extractIntent arguments).limit = 100 := by
    intro hno
    cases hget : GoMap.get? arguments "limit" with
    | none => simp [extractIntent, hget]
    | some value =>
      cases value with
      | int v => exact absurd hget (hno v)
      | str v => simp [extractIntent, hget]
      | bool v => simp [extractIntent, hget]
      | nil => simp [extractIntent, hget]
      | obj v => simp [extractIntent, hget]
      | list v => simp [extractIntent, hget]
  have hoffset0 : (∀ v, GoMap.get? arguments "offset" ≠ some (Value.int v)) →
      (extractIntent arguments).offset = 0 := by
    intro hno
    cases hget : GoMap.get? arguments "offset" with
    | none => simp [extractIntent, hget]
    | some value =>
      cases value with
      | int v => exact absurd hget (hno v)
      | str v => simp [extractIntent, hget]
      | bool v => simp [extractIntent, hget]
      | nil => simp [extractIntent, hget]
      | obj v => simp [extractIntent, hget]
      | list v => simp [extractIntent, hget]
  refine ⟨?_, hlimit, hlimit0, hoffset, hoffset0, ?_⟩
  · simp only [DefaultResolverFn, hargs, hproj, configured]
  · intro hsign
    have hnn : nonNegativeInts arguments := by
      obtain ⟨⟨⟨sel⟩⟩⟩ := params
      cases sel with
      | none => simp [GetArguments] at hargs
      | some selections =>
        cases selections with
        | nil => simp [GetArguments] at hargs
        | cons first rest =>
          cases first with
          | Field name fieldArguments sub =>
            simp only [GetArguments] at hargs
            exact argumentsLoop_nonNegative fieldArguments [] arguments
              (fun argument text hm => hsign name fieldArguments sub rest text argument rfl hm)
              (fun k v h => by simp [GoMap.get?] at h) hargs
          | FragmentSpread n =>
            simp only [GetArguments, Option.some.injEq] at hargs
            rw [← hargs]
            exact fun k v h => by simp [GoMap.get?] at h
          | InlineFragment s =>
            simp only [GetArguments, Option.some.injEq] at hargs
            rw [← hargs]
            exact fun k v h => by simp [GoMap.get?] at h
    constructor
    · by_cases h : ∃ v, GoMap.get? arguments "offset" = some (Value.int v)
      · obtain ⟨v, hv⟩ := h
        rw [hoffset v hv]
        exact hnn _ _ hv
      · rw [hoffset0 (fun v hv => h ⟨v, hv⟩)]
    · by_cases h : ∃ v, GoMap.get? arguments "limit" = some (Value.int v)
      · obtain ⟨v, hv⟩ := h
        rw [hlimit v hv]
        exact hnn _ _ hv
      · rw [hlimit0 (fun v hv => h ⟨v, hv⟩)]
        decide

/-- The scenario request: limit 10 and offset 0 are passed on, both
non-negative. -/
theorem pagination_pair_witness :
    DefaultResolverFn paymentsRequest =
      some ("SELECT `id`, `amount` FROM `payments` WHERE `amount` > 100 LIMIT 10 OFFSET 0;", 10) ∧
    (extractIntent [("where", Value.obj [("amount", Value.obj [("_gt", Value.int 100)])]),
      ("limit", Value.int 10), ("offset", Value.int 0)]).limit = 10 ∧
    (extractIntent [("where", Value.obj [("amount", Value.obj [("_gt", Value.int 100)])]),
      ("limit", Value.int 10), ("offset", Value.int 0)]).offset = 0 :=
  ⟨(pagination_pair paymentsRequest
      [("where", Value.obj [("amount", Value.obj [("_gt", Value.int 100)])]),
        ("limit", Value.int 10), ("offset", Value.int 0)] ["id", "amount"] rfl rfl).1.trans
      (by decide),
    (pagination_pair paymentsRequest
      [("where", Value.obj [("amount", Value.obj [("_gt", Value.int 100)])]),
        ("limit", Value.int 10), ("offset", Value.int 0)] ["id", "amount"] rfl rfl).2.1 10 rfl,
    (pagination_pair paymentsRequest
      [("where", Value.obj [("amount", Value.obj [("_gt", Value.int 100)])]),
        ("limit", Value.int 10), ("offset", Value.int 0)] ["id", "amount"] rfl rfl).2.2.2.1 0 rfl⟩

/-! ## The `where` object of the generated schema (C17) -/

/-- C17 as stated fails for an allow-listed name that is not a column: with the
table schema `{id: int}` and the allow-list `[id, ghost]` `GenerateSchema`
returns a schema whose `where` object has the filter field `id` only. It also
fails for a column whose type has no entry in the registry: with the table
schema `{created_at: datetime}` the field of the column has no type, the library
returns an error and `GenerateSchema` no schema. -/
theorem allow_listed_name_without_column_skipped :
    GenerateSchema checkFieldMaps "payments" [("id", "int")] ["id", "ghost"] =
      Except.ok (GenerateSchema.queryType "payments" [("id", "int")] ["id", "ghost"]) ∧
    (GenerateSchema.queryType "payments" [("id", "int")] ["id", "ghost"]).whereFields =
      [("id", newFilterField "int")] ∧
    mapGet? (GenerateSchema.queryType "payments" [("id", "int")] ["id", "ghost"]).whereFields
      "ghost" = none ∧
    "ghost" ∈ ["id", "ghost"] ∧
    mysqlDatatype "datetime" = none ∧
    (GenerateSchema checkFieldMaps "payments" [("created_at", "datetime")] []).toOption =
      none :=
  ⟨rfl, by decide, by decide, by decide, by decide, rfl⟩

theorem mapGet?_mapSet_self {α : Type} (m : List (String × α)) (k : String) (v : α) :
    mapGet? (mapSet m k v) k = some v := by
  induction m with
  | nil => simp [mapSet, mapGet?]
  | cons e rest ih =>
    obtain ⟨k', v'⟩ := e
    by_cases h : k' = k
    · simp [mapSet, mapGet?, h]
    · simp only [mapSet, h, if_false, mapGet?]
      exact ih

theorem mapGet?_mapSet_ne {α : Type} (m : List (String × α)) (k k2 : String) (v : α)
    (hk : k2 ≠ k) : mapGet? (mapSet m k v) k2 = mapGet? m k2 := by
  induction m with
  | nil => simp [mapSet, mapGet?, Ne.symm hk]
  | cons e rest ih =>
    obtain ⟨k', v'⟩ := e
    by_cases h : k' = k
    · subst h
      simp [mapSet, mapGet?, Ne.symm hk]
    · simp only [mapSet, h, if_false, mapGet?]
      rw [ih]

theorem mapGet?_eq_none {α : Type} (m : List (String × α)) (k : String)
    (h : k ∉ m.map Prod.fst) : mapGet? m k = none := by
  induction m with
  | nil => rfl
  | cons e rest ih =>
    obtain ⟨k', v'⟩ := e
    simp only [List.map_cons, List.mem_cons, not_or] at h
    simp only [mapGet?, Ne.symm h.1, if_false]
    exact ih h.2

theorem mapSet_keys {α : Type} (m : List (String × α)) (k : String) (v : α) :
    (mapSet m k v).map Prod.fst = if k ∈ m.map Prod.fst then m.map Prod.fst
      else m.map Prod.fst ++ [k] := by
  induction m with
  | nil => simp [mapSet]
  | cons e rest ih =>
    obtain ⟨k', v'⟩ := e
    by_cases h : k' = k
    · simp [mapSet, h]
    · simp only [mapSet, h, if_false, List.map_cons, ih, List.mem_cons, Ne.symm h, false_or]
      split <;> simp

theorem mapSet_nodup {α : Type} (m : List (String × α)) (k : String) (v : α)
    (h : (m.map Prod.fst).Nodup) : ((mapSet m k v).map Prod.fst).Nodup := by
  rw [mapSet_keys]
  split
  · exact h
  · rename_i hk
    exact List.Nodup.append h (List.nodup_singleton k) (by simpa using hk)

/-- The loop over the allow-list: a name is mapped to the filter field of its
column when it is allow-listed and a column, and keeps its entry otherwise. -/
theorem allowList_loop (tableSchema : TableSchema) (filters : List String) :
    ∀ (acc : List (String × FilterField)) (k : String),
      mapGet? (filters.foldl
        (fun filterFields filterField =>
          match mapGet? tableSchema filterField with
          | some fieldType => mapSet filterFields filterField (newFilterField fieldType)
          | none => filterFields) acc) k =
        if k ∈ filters then
          (match mapGet? tableSchema k with
            | some fieldType => some (newFilterField fieldType)
            | none => mapGet? acc k)
        else mapGet? acc k := by
  induction filters with
  | nil => intro acc k; simp
  | cons f rest ih =>
    intro acc k
    rw [List.foldl_cons, ih]
    by_cases hkf : k = f
    · subst hkf
      cases hts : mapGet? tableSchema k with
      | none => simp [hts]
      | some t => simp [hts, mapGet?_mapSet_self]
    · have hmem : (k ∈ f :: rest) ↔ k ∈ rest := by simp [hkf]
      cases hts : mapGet? tableSchema f with
      | none => simp only [hts, hmem]
      | some t => simp only [hts, hmem, mapGet?_mapSet_ne _ _ _ _ hkf]

theorem allowList_loop_nodup (tableSchema : TableSchema) (filters : List String) :
    ∀ (acc : List (String × FilterField)), (acc.map Prod.fst).Nodup →
      ((filters.foldl
        (fun filterFields filterField =>
          match mapGet? tableSchema filterField with
          | some fieldType => mapSet filterFields filterField (newFilterField fieldType)
          | none => filterFields) acc).map Prod.fst).Nodup := by
  induction filters with
  | nil => intro acc h; exact h
  | cons f rest ih =>
    intro acc h
    rw [List.foldl_cons]
    apply ih
    cases mapGet? tableSchema f with
    | none => exact h
    | some t => exact mapSet_nodup _ _ _ h

/-- The loop over every column of a table schema with pairwise distinct column
names: a column is mapped to its filter field, any other name keeps its
entry. -/
theorem allColumns_loop (tableSchema : TableSchema) :
    (tableSchema.map Prod.fst).Nodup →
    ∀ (acc : List (String × FilterField)) (k : String),
      mapGet? (tableSchema.foldl
        (fun filterFields entry => mapSet filterFields entry.1 (newFilterField entry.2)) acc) k =
        (match mapGet? tableSchema k with
          | some fieldType => some (newFilterField fieldType)
          | none => mapGet? acc k) := by
  induction tableSchema with
  | nil => intro _ acc k; rfl
  | cons e rest ih =>
    intro hnd acc k
    obtain ⟨column, fieldType⟩ := e
    have hnd' := List.nodup_cons.mp hnd
    rw [List.foldl_cons, ih hnd'.2]
    by_cases hk : k = column
    · subst hk
      rw [mapGet?_eq_none rest k hnd'.1]
      simp [mapGet?, mapGet?_mapSet_self]
    · simp only [mapGet?, Ne.symm hk, if_false, mapGet?_mapSet_ne _ _ _ _ hk]

theorem allColumns_loop_nodup (tableSchema : TableSchema) :
    ∀ (acc : List (String × FilterField)), (acc.map Prod.fst).Nodup →
      ((tableSchema.foldl
        (fun filterFields entry => mapSet filterFields entry.1 (newFilterField entry.2))
        acc).map Prod.fst).Nodup := by
  induction tableSchema with
  | nil => intro acc h; exact h
  | cons e rest ih =>
    intro acc h
    rw [List.foldl_cons]
    exact ih _ (mapSet_nodup _ _ _ h)

theorem filterFieldsOf_get (tableSchema : TableSchema) (filters : List String)
    (hschema : (tableSchema.map Prod.fst).Nodup) (k : String) :
    mapGet? (filterFieldsOf tableSchema filters) k =
      if filters = [] ∨ k ∈ filters then
        (match mapGet? tableSchema k with
          | some fieldType => some (newFilterField fieldType)
          | none => none)
      else none := by
  cases filters with
  | nil =>
    simp only [filterFieldsOf, List.foldl_nil, List.length_nil, if_true, true_or]
    rw [allColumns_loop tableSchema hschema [] k]
    cases mapGet? tableSchema k <;> rfl
  | cons f rest =>
    have hlen : (f :: rest).length ≠ 0 := by simp
    simp only [filterFieldsOf, hlen, if_false]
    rw [allowList_loop tableSchema (f :: rest) [] k]
    have hne : ¬ (f :: rest = []) := by simp
    simp only [hne, false_or]
    split
    · cases mapGet? tableSchema k <;> rfl
    · rfl

/-- The loop that builds `fields` and `orderFields`: with pairwise distinct
column names, a column is mapped to the registry entry of its type. -/
theorem columnFields_loop (tableSchema : TableSchema) :
    (tableSchema.map Prod.fst).Nodup →
    ∀ (acc : List (String × Option GraphqlScalar)) (k : String),
      mapGet? (tableSchema.foldl
        (fun fields entry => mapSet fields entry.1 (mysqlDatatype entry.2)) acc) k =
        (match mapGet? tableSchema k with
          | some fieldType => some (mysqlDatatype fieldType)
          | none => mapGet? acc k) := by
  induction tableSchema with
  | nil => intro _ acc k; rfl
  | cons e rest ih =>
    intro hnd acc k
    obtain ⟨column, fieldType⟩ := e
    have hnd' := List.nodup_cons.mp hnd
    rw [List.foldl_cons, ih hnd'.2]
    by_cases hk : k = column
    · subst hk
      rw [mapGet?_eq_none rest k hnd'.1]
      simp [mapGet?, mapGet?_mapSet_self]
    · simp only [mapGet?, Ne.symm hk, if_false, mapGet?_mapSet_ne _ _ _ _ hk]

theorem mapGet?_mem {α : Type} (m : List (String × α)) (k : String) (v : α)
    (h : mapGet? m k = some v) : (k, v) ∈ m := by
  induction m with
  | nil => simp [mapGet?] at h
  | cons e rest ih =>
    obtain ⟨k', v'⟩ := e
    by_cases hk : k' = k
    · subst hk
      simp only [mapGet?, if_true, Option.some.injEq] at h
      subst h
      exact List.mem_cons_self _ _
    · simp only [mapGet?, hk, if_false] at h
      exact List.mem_cons_of_mem _ (ih h)

theorem untypedField_none (typeName : String) (fields : List (String × Option GraphqlScalar))
    (h : untypedField typeName fields = none) : ∀ entry ∈ fields, entry.2 ≠ none := by
  induction fields with
  | nil => intro entry hentry; simp at hentry
  | cons e rest ih =>
    obtain ⟨fieldName, type⟩ := e
    cases type with
    | none => simp [untypedField] at h
    | some kind =>
      simp only [untypedField] at h
      intro entry hentry
      rcases List.mem_cons.mp hentry with heq | hmem
      · subst heq; simp
      · exact ih h entry hmem

/-- The field-map checks accept no query object that has a field without a type
in the object type of the table. -/
theorem checkFieldMaps_typed (queryType : SchemaDescription)
    (h : checkFieldMaps queryType = none) : ∀ entry ∈ queryType.objectFields, entry.2 ≠ none := by
  unfold checkFieldMaps at h
  split at h
  · simp at h
  · cases hw : untypedFilterField queryType.whereFields with
    | some err => rw [hw] at h; simp at h
    | none =>
      rw [hw] at h
      simp only at h
      split at h
      · simp at h
      · cases ho : untypedField "order_by" queryType.orderFields with
        | some err => rw [ho] at h; simp at h
        | none =>
          rw [ho] at h
          simp only at h
          split at h
          · simp at h
          · exact untypedField_none _ _ h

/-- A schema returned by `GenerateSchema` is the query object, and the library
function accepted it. -/
theorem GenerateSchema_ok (NewSchema : SchemaDescription → Option SchemaError)
    (tableName : String) (tableSchema : TableSchema) (filters : List String)
    (schema : SchemaDescription)
    (hok : GenerateSchema NewSchema tableName tableSchema filters = Except.ok schema) :
    NewSchema (GenerateSchema.queryType tableName tableSchema filters) = none ∧
      schema = GenerateSchema.queryType tableName tableSchema filters := by
  cases hnew : NewSchema (GenerateSchema.queryType tableName tableSchema filters) with
  | some err => simp [GenerateSchema, hnew] at hok
  | none =>
    simp only [GenerateSchema, hnew, Except.ok.injEq] at hok
    exact ⟨rfl, hok.symm⟩

/-- C17, amended: for every table schema (a map: column names pairwise
distinct) and every allow-list: when `graphql.NewSchema` returns an error,
`GenerateSchema` returns that error and no schema; when `GenerateSchema`
returns a schema, then if the allow-list is empty the `where` object has one
filter field for every column of the table schema, otherwise it has one filter
field for each allow-listed name that is a column of the table schema, and no
others. Every filter field has the type `graphql.String` and exactly the six
operator arguments `_gt`, `_lt`, `_gte`, `_lte`, `_in`, `_eq`, each typed with
the kind the registry `mysqlDatatype` assigns to the type of that column. The
library function is any function that accepts no field without a type. -/
theorem where_filter_fields (NewSchema : SchemaDescription → Option SchemaError)
    (tableName : String) (tableSchema : TableSchema) (filters : List String)
    (hschema : (tableSchema.map Prod.fst).Nodup)
    (hlib : ∀ queryType, NewSchema queryType = none →
      ∀ entry ∈ queryType.objectFields, entry.2 ≠ none) :
    (∀ err, NewSchema (GenerateSchema.queryType tableName tableSchema filters) = some err →
      GenerateSchema NewSchema tableName tableSchema filters = Except.error err) ∧
    (∀ schema, GenerateSchema NewSchema tableName tableSchema filters = Except.ok schema →
      (filters = [] → ∀ name,
        (mapGet? schema.whereFields name).isSome = true ↔
          (mapGet? tableSchema name).isSome = true) ∧
      (filters ≠ [] → ∀ name,
        (mapGet? schema.whereFields name).isSome = true ↔
          (name ∈ filters ∧ (mapGet? tableSchema name).isSome = true)) ∧
      ((schema.whereFields).map Prod.fst).Nodup ∧
      (∀ name field,
        mapGet? schema.whereFields name = some field →
        ∃ fieldType kind, mapGet? tableSchema name = some fieldType ∧
          mysqlDatatype fieldType = some kind ∧
          field.type = some GraphqlScalar.String ∧
          field.args =
            [("_gt", some kind), ("_lt", some kind), ("_gte", some kind),
              ("_lte", some kind), ("_in", some kind), ("_eq", some kind)])) := by
  constructor
  · intro err herr
    simp only [GenerateSchema, herr]
  intro schema hok
  obtain ⟨hnone, hEq⟩ := GenerateSchema_ok NewSchema tableName tableSchema filters schema hok
  have hW : schema.whereFields = filterFieldsOf tableSchema filters := by rw [hEq]; rfl
  rw [hW]
  refine ⟨?_, ?_, ?_, ?_⟩
  · intro hnil name
    rw [filterFieldsOf_get tableSchema filters hschema name, if_pos (Or.inl hnil)]
    cases mapGet? tableSchema name <;> simp
  · intro hne name
    rw [filterFieldsOf_get tableSchema filters hschema name]
    by_cases hmem : name ∈ filters
    · rw [if_pos (Or.inr hmem)]
      cases mapGet? tableSchema name <;> simp [hmem]
    · rw [if_neg (by simp [hne, hmem])]
      simp [hmem]
  · cases filters with
    | nil =>
      simp only [filterFieldsOf, List.foldl_nil, List.length_nil, if_true]
      exact allColumns_loop_nodup tableSchema [] List.nodup_nil
    | cons f rest =>
      have hlen : (f :: rest).length ≠ 0 := by simp
      simp only [filterFieldsOf, hlen, if_false]
      exact allowList_loop_nodup tableSchema (f :: rest) [] List.nodup_nil
  · intro name field hget
    rw [filterFieldsOf_get tableSchema filters hschema name] at hget
    split at hget
    · cases hts : mapGet? tableSchema name with
      | none => rw [hts] at hget; simp at hget
      | some fieldType =>
        rw [hts] at hget
        simp only [Option.some.injEq] at hget
        have hcol : mapGet? (columnFields tableSchema) name = some (mysqlDatatype fieldType) := by
          have h := columnFields_loop tableSchema hschema [] name
          rw [hts] at h
          exact h
        have hmem : (name, mysqlDatatype fieldType) ∈
            (GenerateSchema.queryType tableName tableSchema filters).objectFields :=
          mapGet?_mem _ _ _ hcol
        have htyped := hlib _ hnone _ hmem
        cases hkind : mysqlDatatype fieldType with
        | none => exact absurd hkind htyped
        | some kind =>
          refine ⟨fieldType, kind, rfl, hkind, ?_, ?_⟩
          · rw [← hget]; rfl
          · rw [← hget]
            simp [newFilterField, supportedComparisonOps, mapSet, hkind]
    · simp at hget

/-- The table schema `{id: int, name: varchar}` with the allow-list `[id]`, the
library function being the field-map checks: `GenerateSchema` returns a schema
whose `where` object has the field `id` with six integer arguments and no field
`name`. -/
theorem where_filter_fields_witness :
    GenerateSchema checkFieldMaps "payments" [("id", "int"), ("name", "varchar")] ["id"] =
      Except.ok (GenerateSchema.queryType "payments" [("id", "int"), ("name", "varchar")]
        ["id"]) ∧
    (mapGet? (GenerateSchema.queryType "payments" [("id", "int"), ("name", "varchar")]
        ["id"]).whereFields "id").isSome = true ∧
    (mapGet? (GenerateSchema.queryType "payments" [("id", "int"), ("name", "varchar")]
        ["id"]).whereFields "name").isSome = false ∧
    (GenerateSchema.queryType "payments" [("id", "int"), ("name", "varchar")]
        ["id"]).whereFields =
      [("id", { type := some GraphqlScalar.String,
                args := [("_gt", some GraphqlScalar.Int), ("_lt", some GraphqlScalar.Int),
                  ("_gte", some GraphqlScalar.Int), ("_lte", some GraphqlScalar.Int),
                  ("_in", some GraphqlScalar.Int), ("_eq", some GraphqlScalar.Int)] })] :=
  ⟨rfl,
    (((where_filter_fields checkFieldMaps "payments" [("id", "int"), ("name", "varchar")] ["id"]
      (by decide) checkFieldMaps_typed).2
      (GenerateSchema.queryType "payments" [("id", "int"), ("name", "varchar")] ["id"])
      rfl).2.1 (by simp) "id").mpr ⟨by simp, by decide⟩,
    by decide, by decide⟩

/-! ## The column scanner (C18) -/

/-- C18: `Scan` never returns an error, and on a fresh scanner it stores the
source itself when the source is a 64-bit integer, a double, a boolean or a
timestamp, the string made of the bytes of the source when the source is a byte
sequence, and nil when the source is nil. -/
theorem scan_stores_value :
    (∀ (scanner : ColValueScanner) (src : DriverValue), (scanner.Scan src).2 = none) ∧
    newColValueScanner.value = DriverValue.nil ∧
    (∀ v, (newColValueScanner.Scan (DriverValue.int64 v)).1.value = DriverValue.int64 v) ∧
    (∀ v, (newColValueScanner.Scan (DriverValue.float64 v)).1.value = DriverValue.float64 v) ∧
    (∀ v, (newColValueScanner.Scan (DriverValue.bool v)).1.value = DriverValue.bool v) ∧
    (∀ v, (newColValueScanner.Scan (DriverValue.time v)).1.value = DriverValue.time v) ∧
    (∀ b, (newColValueScanner.Scan (DriverValue.bytes b)).1.value = DriverValue.string b) ∧
    (newColValueScanner.Scan DriverValue.nil).1.value = DriverValue.nil := by
  refine ⟨?_, rfl, fun _ => rfl, fun _ => rfl, fun _ => rfl, fun _ => rfl, fun _ => rfl, rfl⟩
  intro scanner src
  cases src <;> rfl

/-! ## The pipeline of the test (C19) -/

/-- C19, evaluated on the request of the test: the helper calls
`WithPagination(int(limit), int(offset))`, whose parameters are
`(offset, limit)`, so the statement carries the offset 10 in its LIMIT clause and
the limit 100 in its OFFSET clause; the resolver, which passes
`(offset, limit)`, puts them the other way round. -/
theorem test_pipeline_swaps_pagination :
    GetArguments testRequest =
      some [("where", Value.obj [("id", Value.obj [("_gt", Value.int 1)])]),
        ("offset", Value.int 10), ("limit", Value.int 100),
        ("order_by", Value.list [[("id", Value.str "desc")], [("created_at", Value.str "asc")]])] ∧
    GetProjection testRequest = some ["id", "name", "info"] ∧
    GenerateSQLFromGraphQL testRequest =
      some ("SELECT `id`, `name`, `info` FROM `payment` WHERE `id` > 1 ORDER BY `id` desc, `created_at` asc LIMIT 10 OFFSET 100;",
        none) ∧
    DefaultResolverFn testRequest =
      some ("SELECT `id`, `name`, `info` FROM `payments` WHERE `id` > 1 ORDER BY `id` desc, `created_at` asc LIMIT 100 OFFSET 10;",
        100) :=
  ⟨rfl, rfl, by decide, by decide⟩

/-! ## Repeated calls (C20) -/

theorem configured_table (table : String) (filters : GoMap) (projection : List String)
    (sortOrder : List GoMap) (offset limit : Int) :
    (configured table filters projection sortOrder offset limit).table = table := by
  simp [configured, WithSortCriteria_eq, WithProjections_eq, WithPagination, WithFilters_eq,
    NewSelectDefinition]

/-- The statement `DefaultResolverFn` compiles, in closed form: the table is the
literal `payments`. -/
theorem DefaultResolverFn_stmt (params : ResolveParams) (stmt : String) (limit : Int)
    (h : DefaultResolverFn params = some (stmt, limit)) :
    ∃ arguments projection,
      GetArguments params = some arguments ∧ GetProjection params = some projection ∧
      limit = (extractIntent arguments).limit ∧
      stmt =
        "SELECT " ++ selectList (configured "payments" (extractIntent arguments).filter projection
            (extractIntent arguments).orderBy (extractIntent arguments).offset
            (extractIntent arguments).limit) ++
          " FROM `" ++ "payments" ++ "`" ++
          clause " WHERE " (configured "payments" (extractIntent arguments).filter projection
            (extractIntent arguments).orderBy (extractIntent arguments).offset
            (extractIntent arguments).limit).whereFragment ++
          clause " ORDER BY " (configured "payments" (extractIntent arguments).filter projection
            (extractIntent arguments).orderBy (extractIntent arguments).offset
            (extractIntent arguments).limit).sortOrder ++
          " LIMIT " ++ fmtD (extractIntent arguments).limit ++
          " OFFSET " ++ fmtD (extractIntent arguments).offset ++ ";" := by
  cases hargs : GetArguments params with
  | none => simp [DefaultResolverFn, hargs] at h
  | some arguments =>
    cases hproj : GetProjection params with
    | none => simp [DefaultResolverFn, hargs, hproj] at h
    | some projection =>
      simp only [DefaultResolverFn, hargs, hproj, Option.some.injEq, Prod.mk.injEq] at h
      refine ⟨arguments, projection, rfl, rfl, h.2.symm, ?_⟩
      rw [← h.1]
      have hb := Build_stmt_paginated
        (configured "payments" (extractIntent arguments).filter projection
          (extractIntent arguments).orderBy (extractIntent arguments).offset
          (extractIntent arguments).limit)
        (extractIntent arguments).offset (extractIntent arguments).limit
        (configured_pagination _ _ _ _ _ _).1 (configured_pagination _ _ _ _ _ _).2
      rw [configured_table] at hb
      exact hb

/-- C21: whatever table name, table schema and allow-list `GenerateSchema` was
given, the resolver of the query field is `DefaultResolverFn`; every statement
it compiles selects from the table `payments` (the text after the select list
is `FROM` and `payments` between backticks); the result is the same for two
requests that differ only in the name of their top-level field, and more
generally for any two requests with the same decoded arguments and the same
projection. -/
theorem resolver_selects_from_payments :
    (∀ (tableName : String) (tableSchema : TableSchema) (filters : List String)
        (params : ResolveParams),
      GenerateSchema.resolve tableName tableSchema filters params = DefaultResolverFn params) ∧
    (∀ (tableName : String) (tableSchema : TableSchema) (filters : List String),
      (GenerateSchema.queryType tableName tableSchema filters).queryField = tableName ∧
      ∀ (NewSchema : SchemaDescription → Option SchemaError) (schema : SchemaDescription),
        GenerateSchema NewSchema tableName tableSchema filters = Except.ok schema →
        schema.queryField = tableName) ∧
    (∀ (params : ResolveParams) (stmt : String) (limit : Int),
      DefaultResolverFn params = some (stmt, limit) →
      ∃ arguments projection,
        GetArguments params = some arguments ∧ GetProjection params = some projection ∧
        HasPrefix stmt ("SELECT " ++
          selectList (WithProjections (NewSelectDefinition "payments") projection) ++
          " FROM `payments`") = true ∧
        stmt = (Build (configured "payments" (extractIntent arguments).filter projection
          (extractIntent arguments).orderBy (extractIntent arguments).offset
          (extractIntent arguments).limit)).stmt) ∧
    (∀ (entity1 entity2 : String) (arguments : List (String × AstValue))
        (selections : List Selection),
      DefaultResolverFn (requestOn entity1 arguments selections) =
        DefaultResolverFn (requestOn entity2 arguments selections)) ∧
    (∀ params1 params2 : ResolveParams,
      GetArguments params1 = GetArguments params2 →
      GetProjection params1 = GetProjection params2 →
      DefaultResolverFn params1 = DefaultResolverFn params2) := by
  refine ⟨fun _ _ _ _ => rfl, fun tableName tableSchema filters => ⟨rfl, ?_⟩, ?_,
    fun _ _ _ _ => rfl, ?_⟩
  · intro NewSchema schema hok
    rw [(GenerateSchema_ok NewSchema tableName tableSchema filters schema hok).2]
    rfl
  · intro params stmt limit h
    cases hargs : GetArguments params with
    | none => simp [DefaultResolverFn, hargs] at h
    | some arguments =>
      cases hproj : GetProjection params with
      | none => simp [DefaultResolverFn, hargs, hproj] at h
      | some projection =>
        simp only [DefaultResolverFn, hargs, hproj, Option.some.injEq, Prod.mk.injEq] at h
        refine ⟨arguments, projection, rfl, rfl, ?_, h.1.symm⟩
        rw [← h.1]
        have hpre := Build_stmt_prefix
          (WithSortCriteria (WithProjections (WithPagination
            (WithFilters (NewSelectDefinition "payments") (extractIntent arguments).filter)
            (extractIntent arguments).offset (extractIntent arguments).limit) projection)
            (extractIntent arguments).orderBy)
        have hsel : selectList
            (WithSortCriteria (WithProjections (WithPagination
              (WithFilters (NewSelectDefinition "payments") (extractIntent arguments).filter)
              (extractIntent arguments).offset (extractIntent arguments).limit) projection)
              (extractIntent arguments).orderBy) =
            selectList (WithProjections (NewSelectDefinition "payments") projection) := by
          simp [selectList, WithSortCriteria_eq, WithProjections_eq, WithPagination,
            WithFilters_eq, NewSelectDefinition]
        have htable :
            (WithSortCriteria (WithProjections (WithPagination
              (WithFilters (NewSelectDefinition "payments") (extractIntent arguments).filter)
              (extractIntent arguments).offset (extractIntent arguments).limit) projection)
              (extractIntent arguments).orderBy).table = "payments" :=
          configured_table "payments" _ _ _ _ _
        rw [hsel, htable] at hpre
        have htext : "SELECT " ++
            selectList (WithProjections (NewSelectDefinition "payments") projection) ++
            " FROM `" ++ "payments" ++ "`" =
            "SELECT " ++
            selectList (WithProjections (NewSelectDefinition "payments") projection) ++
            " FROM `payments`" := by
          apply String.ext
          simp
        rw [htext] at hpre
        exact hpre
  · intro params1 params2 hargs hproj
    simp only [DefaultResolverFn, hargs, hproj]

/-- A request on the entity `orders`, resolved through a schema generated for
the table `orders`: the statement selects from `payments`. -/
theorem resolver_selects_from_payments_witness :
    GenerateSchema.resolve "orders" [("id", "int")] []
      (requestOn "orders" [("limit", AstValue.IntValue "5")] [Selection.Field "id" [] none]) =
      some ("SELECT `id` FROM `payments` LIMIT 5 OFFSET 0;", 5) ∧
    DefaultResolverFn
      (requestOn "orders" [("limit", AstValue.IntValue "5")] [Selection.Field "id" [] none]) =
      DefaultResolverFn
        (requestOn "payments" [("limit", AstValue.IntValue "5")] [Selection.Field "id" [] none]) :=
  ⟨(resolver_selects_from_payments.1 "orders" [("id", "int")] []
      (requestOn "orders" [("limit", AstValue.IntValue "5")]
        [Selection.Field "id" [] none])).trans (by decide),
    resolver_selects_from_payments.2.2.2.1 "orders" "payments"
      [("limit", AstValue.IntValue "5")] [Selection.Field "id" [] none]⟩

/-! ## Strings and unlisted kinds in the scanner (C22) -/

/-- C22: for a source that is a Go `string`, whatever its content, `Scan`
returns no error and stores the empty string (`getBytes` gives nil for anything
but a byte sequence); for a source of a kind the switch does not list, `Scan`
returns no error and leaves the stored value as it was. -/
theorem scan_string_and_unlisted :
    (∀ (scanner : ColValueScanner) (content : List Nat),
      (scanner.Scan (DriverValue.string content)).2 = none ∧
      (scanner.Scan (DriverValue.string content)).1.value = DriverValue.string []) ∧
    (∀ (scanner : ColValueScanner) (content : List Nat),
      scanner.getBytes (DriverValue.string content) = []) ∧
    (∀ (scanner : ColValueScanner) (typeName : String),
      (scanner.Scan (DriverValue.other typeName)).2 = none ∧
      (scanner.Scan (DriverValue.other typeName)).1 = scanner ∧
      (scanner.Scan (DriverValue.other typeName)).1.value = scanner.value) :=
  ⟨fun _ _ => ⟨rfl, rfl⟩, fun _ _ => rfl, fun _ _ => ⟨rfl, rfl, rfl⟩⟩

end GraphqlMysql
